import Mathlib

/-!
Verification of the clairvoyance address-space visualizer.

This file shallowly embeds the core of the clairvoyance repository
(page-table-entry bit model, protection folder, page-table walker,
tape builders, Hilbert curve codec) as executable Lean definitions,
translated from the C++ sources, and proves or refutes the frozen
specification claims about them.

Machine integers are modelled as `Nat` with explicit `% 2^w`
truncation exactly where the C++ code can overflow or truncate.
-/

set_option maxRecDepth 10000

namespace clairvoyance

/-! ## PTE bit model (`PteHardware_t`, src/src/clairvoyance.cc:119-139)

A page-table entry is a 64-bit word; the bitfield accessors read
single bits / bit ranges of that word. -/

/-- `Present` bitfield: bit 0 of the 64-bit entry. -/
def Present (e : Nat) : Bool := e.testBit 0

/-- `Write` bitfield: bit 1. -/
def Write (e : Nat) : Bool := e.testBit 1

/-- `UserAccessible` bitfield: bit 2. -/
def UserAccessible (e : Nat) : Bool := e.testBit 2

/-- `LargePage` bitfield: bit 7. -/
def LargePage (e : Nat) : Bool := e.testBit 7

/-- `NoExecute` bitfield: bit 63. -/
def NoExecute (e : Nat) : Bool := e.testBit 63

/-- `PageFrameNumber` bitfield: bits 12..47 (36 bits). -/
def PageFrameNumber (e : Nat) : Nat := (e >>> 12) % 2 ^ 36

/-! ## Page namespace (src/src/clairvoyance.cc:76-117) -/

namespace Page

/-- `Page::Size` (4 KiB). -/
def Size : Nat := 0x1000

/-- `Page::AddressFromPfn(Pfn)`: `Pfn * Size`. -/
def AddressFromPfn (pfn : Nat) : Nat := pfn * Size

/-- `Page::AddressFromPfn(Base, Pfn)`: `Base + Pfn * Size` (64-bit add,
modelled with explicit truncation). -/
def AddressFromPfnBase (base pfn : Nat) : Nat := (base + pfn * Size) % 2 ^ 64

/-- `Page::Canonical(Va)`: the top 17 bits are all ones or all zeroes. -/
def Canonical (va : Nat) : Prop :=
  va >>> 47 = 0b11111111111111111 ∨ va >>> 47 = 0

instance (va : Nat) : Decidable (Canonical va) := by
  unfold Canonical; infer_instance

end Page

/-! ## Properties (protection classes) and the protection folder
(src/src/clairvoyance.cc:27-37, 199-254) -/

/-- `Properties_t`: the nine effective protection classes, in the
source's declaration (and wire) order. -/
inductive Properties_t where
  | None
  | UserRead
  | UserReadExec
  | UserReadWrite
  | UserReadWriteExec
  | KernelRead
  | KernelReadExec
  | KernelReadWrite
  | KernelReadWriteExec
  deriving DecidableEq, Repr

/-- Ordinal (wire) encoding 0-8 of `Properties_t`, per the enum order. -/
def Properties_t.ord : Properties_t → Nat
  | .None => 0
  | .UserRead => 1
  | .UserReadExec => 2
  | .UserReadWrite => 3
  | .UserReadWriteExec => 4
  | .KernelRead => 5
  | .KernelReadExec => 6
  | .KernelReadWrite => 7
  | .KernelReadWriteExec => 8

/-- The `CalculateBit(FieldName, Comp)` macro of `PropertiesFromPtes`:
fold a per-entry bit over the path with `comp`, always including PML4E
and PDPTE, including PDE unless the PDPTE marks a large page, and
including PTE unless the PDE marks a large page. -/
def calculateBit (pml4e pdpte pde pte : Nat) (field : Nat → Bool)
    (comp : Bool → Bool → Bool) : Bool :=
  let b := comp (field pml4e) (field pdpte)
  let b := if !LargePage pdpte then comp b (field pde) else b
  if !LargePage pde then comp b (field pte) else b

/-- `clairvoyance::PropertiesFromPtes` (src/src/clairvoyance.cc:199-254):
fold the `UserAccessible`/`Write` bits with AND and `NoExecute` with OR
along the path, then classify. -/
def PropertiesFromPtes (pml4e pdpte : Nat) (pde : Nat := 0) (pte : Nat := 0) :
    Properties_t :=
  let userAccessible := calculateBit pml4e pdpte pde pte UserAccessible and
  let write := calculateBit pml4e pdpte pde pte Write and
  let noExecute := calculateBit pml4e pdpte pde pte NoExecute or
  if userAccessible then
    if write then
      if noExecute then .UserReadWrite else .UserReadWriteExec
    else
      if noExecute then .UserRead else .UserReadExec
  else
    if write then
      if noExecute then .KernelReadWrite else .KernelReadWriteExec
    else
      if noExecute then .KernelRead else .KernelReadExec

/-- The spec's description of the folded bits: a level is used iff the
level above it is not marking a super-page, with PML4E and PDPTE always
used; AND (resp. OR) the field over exactly the used levels. -/
def specFoldBit (pml4e pdpte pde pte : Nat) (field : Nat → Bool)
    (comp : Bool → Bool → Bool) (unit : Bool) : Bool :=
  comp (comp (comp (field pml4e) (field pdpte))
      (if !LargePage pdpte then field pde else unit))
    (if !LargePage pde then field pte else unit)

/-! ## Virtual address constructor
(`VirtualAddress_t`, src/src/clairvoyance.cc:147-195)

The index-based constructor zeroes the word, then writes the four
9-bit index bitfields (each write truncates to 9 bits) and the 16-bit
`Reserved` bitfield.  The sign-extension constant written into
`Reserved` has 17 bits (`0b11111111111111111`) and is truncated to 16
bits on assignment. -/

/-- `VirtualAddress_t(Pml4eIndex, PdpteIndex, PdeIndex, PteIndex)`:
the packed 64-bit virtual address with zero offset. -/
def vaFromIndices (a b : Nat) (c : Nat := 0) (d : Nat := 0) : Nat :=
  (d % 2 ^ 9) * 4096 + (c % 2 ^ 9) * 2097152 + (b % 2 ^ 9) * 1073741824 +
    (a % 2 ^ 9) * 549755813888 +
    (if (a >>> 8) % 2 = 1 then 0b11111111111111111 % 2 ^ 16 else 0) *
      281474976710656

end clairvoyance

open clairvoyance

/-! ## Claim C1: the protection folder -/

namespace clairvoyance

/-- The fold in `PropertiesFromPtes` agrees with the spec's
used-levels fold for each of the three bits. -/
theorem calculateBit_eq_specFold (pml4e pdpte pde pte : Nat) :
    calculateBit pml4e pdpte pde pte UserAccessible and =
      specFoldBit pml4e pdpte pde pte UserAccessible and true ∧
    calculateBit pml4e pdpte pde pte Write and =
      specFoldBit pml4e pdpte pde pte Write and true ∧
    calculateBit pml4e pdpte pde pte NoExecute or =
      specFoldBit pml4e pdpte pde pte NoExecute or false := by
  unfold calculateBit specFoldBit
  refine ⟨?_, ?_, ?_⟩ <;>
    cases LargePage pdpte <;> cases LargePage pde <;>
      simp [Bool.and_assoc, Bool.or_assoc]

/-- The classification step of `PropertiesFromPtes` as a function of
the three folded bits. -/
def classify (u w nx : Bool) : Properties_t :=
  if u then
    if w then (if nx then .UserReadWrite else .UserReadWriteExec)
    else (if nx then .UserRead else .UserReadExec)
  else
    if w then (if nx then .KernelReadWrite else .KernelReadWriteExec)
    else (if nx then .KernelRead else .KernelReadExec)

end clairvoyance

/-- C1 (amended): the folded user/write/no-execute bits are exactly the
AND (resp. OR) of the per-level bits over the used levels, where PML4E
and PDPTE are always used, PDE is used unless the PDPTE marks a large
page, and PTE is used unless the PDE marks a large page.  Consequently
a normal-page path with `U=1, W=1, NX=0` at all four levels folds to
`UserReadWriteExec`, but a huge-page path (`Pdpte.LargePage = 1`,
`Pde = Pte = 0`) with `U=1, W=1, NX=0` at PML4E and PDPTE folds to
`KernelReadExec`: since the zero PDE does not set `LargePage`, the zero
PTE is also folded in, clearing the user and write bits. -/
theorem C1_properties_fold (pml4e pdpte pde pte : Nat) :
    (PropertiesFromPtes pml4e pdpte pde pte =
      classify
        (specFoldBit pml4e pdpte pde pte
          UserAccessible and true)
        (specFoldBit pml4e pdpte pde pte
          Write and true)
        (specFoldBit pml4e pdpte pde pte
          NoExecute or false)) ∧
    (UserAccessible pml4e → Write pml4e →
      NoExecute pml4e = false →
      UserAccessible pdpte → Write pdpte →
      NoExecute pdpte = false →
      LargePage pdpte = false →
      UserAccessible pde → Write pde →
      NoExecute pde = false →
      LargePage pde = false →
      UserAccessible pte → Write pte →
      NoExecute pte = false →
      PropertiesFromPtes pml4e pdpte pde pte =
        Properties_t.UserReadWriteExec) ∧
    (UserAccessible pml4e → Write pml4e →
      NoExecute pml4e = false →
      UserAccessible pdpte → Write pdpte →
      NoExecute pdpte = false →
      LargePage pdpte = true →
      pde = 0 → pte = 0 →
      PropertiesFromPtes pml4e pdpte pde pte =
        Properties_t.KernelReadExec) := by
  refine ⟨?_, ?_, ?_⟩
  · obtain ⟨h1, h2, h3⟩ :=
      calculateBit_eq_specFold pml4e pdpte pde pte
    unfold PropertiesFromPtes classify
    rw [h1, h2, h3]
  · intro hu1 hw1 hn1 hu2 hw2 hn2 hl2 hu3 hw3 hn3 hl3 hu4 hw4 hn4
    unfold PropertiesFromPtes calculateBit
    simp [hu1, hw1, hn1, hu2, hw2, hn2, hl2, hu3, hw3, hn3, hl3, hu4, hw4, hn4]
  · intro hu1 hw1 hn1 hu2 hw2 hn2 hl2 hpde hpte
    subst hpde hpte
    unfold PropertiesFromPtes calculateBit
    simp [hu1, hw1, hn1, hu2, hw2, hn2, hl2]
    decide

/-- C1 witness: instantiating the fold characterization and both
"uniform path" consequences at concrete entries. -/
theorem C1_properties_fold_witness :
    PropertiesFromPtes 7 7 7 7 = Properties_t.UserReadWriteExec ∧
    PropertiesFromPtes 7 0x87 0 0 = Properties_t.KernelReadExec := by
  refine ⟨?_, ?_⟩
  · exact (C1_properties_fold 7 7 7 7).2.1 (by decide) (by decide) (by decide)
      (by decide) (by decide) (by decide) (by decide) (by decide) (by decide)
      (by decide) (by decide) (by decide) (by decide) (by decide)
  · exact (C1_properties_fold 7 0x87 0 0).2.2 (by decide) (by decide)
      (by decide) (by decide) (by decide) (by decide) (by decide) rfl rfl

/-- C1 counterexample: the claim states that a path whose used levels
all carry `U=1, W=1, NX=0` folds to `UserReadWriteExec` "also when the
leaf is a huge page (Pdpte.LargePage=1, Pde and Pte zero)".  On the
code, the huge path with `U=1, W=1, NX=0` at PML4E and PDPTE
(entries `0x7` and `0x87`) and zero PDE/PTE folds to `KernelReadExec`,
not `UserReadWriteExec`. -/
theorem C1_huge_page_counterexample :
    PropertiesFromPtes 7 0x87 0 0 = Properties_t.KernelReadExec ∧
    PropertiesFromPtes 7 0x87 0 0 ≠ Properties_t.UserReadWriteExec := by
  decide

/-! ## Claim C10: virtual addresses are aligned and canonical -/

/-- C10: for all in-range indices (each below 512), the packed virtual
address built by the walker's `VirtualAddress_t` constructor is
4096-byte aligned and canonical (its top 17 bits are all copies of
bit 47), the truncation of the 17-bit sign-extension constant to the
16-bit `Reserved` field notwithstanding. -/
theorem C10_va_aligned_canonical (a b c d : Nat)
    (ha : a < 512) (hb : b < 512) (hc : c < 512) (hd : d < 512) :
    vaFromIndices a b c d % 4096 = 0 ∧
      Page.Canonical (vaFromIndices a b c d) := by
  unfold vaFromIndices Page.Canonical
  rw [Nat.shiftRight_eq_div_pow, Nat.shiftRight_eq_div_pow]
  constructor
  · split <;> omega
  · split <;> [left; right] <;> omega

/-- C10 witness: a concrete kernel-half index tuple. -/
theorem C10_va_aligned_canonical_witness :
    vaFromIndices 256 0 0 0 % 4096 = 0 ∧
      Page.Canonical (vaFromIndices 256 0 0 0) :=
  C10_va_aligned_canonical 256 0 0 0 (by decide) (by decide) (by decide)
    (by decide)

/-! ## Page kinds, walker entries and the tape builders -/

namespace clairvoyance

/-- `PageType_t` (src/src/clairvoyance.cc:256). -/
inductive PageType_t where
  | Huge
  | Large
  | Normal
  deriving DecidableEq, Repr

/-- `GetNumberPixels` (src/src/clairvoyance.cc:258-290): the number of
4 KiB pixels materialized for a page of the given kind. -/
def GetNumberPixels : PageType_t → Nat
  | .Huge => (1024 * 1024 * 1024) / Page.Size
  | .Large => (1024 * 1024 * 2) / Page.Size
  | .Normal => 1

/-- The byte size of a page of the given kind (1 GiB / 2 MiB / 4 KiB),
the `kind_size` of the spec. -/
def kindSize : PageType_t → Nat
  | .Huge => 1024 * 1024 * 1024
  | .Large => 1024 * 1024 * 2
  | .Normal => 0x1000

/-- `PageTableIterator_t::Entry_t` (src/src/clairvoyance.cc:525-541). -/
structure Entry where
  pml4e : Nat := 0
  pml4eAddress : Nat := 0
  pdpte : Nat := 0
  pdpteAddress : Nat := 0
  pde : Nat := 0
  pdeAddress : Nat := 0
  pte : Nat := 0
  pteAddress : Nat := 0
  pa : Nat := 0
  va : Nat := 0
  type : PageType_t := .Normal
  deriving DecidableEq, Repr

/-! ### The tape-building loop of `main` (src/src/clairvoyance.cc:774-818)

`main` starts with `LastVa = 0` and, per walker entry, first fills the
gap (if `(LastVa + Page::Size) != Entry->Va`) with up to
`MaxGapEntries = 10'000` `Properties_t::None` pixels stepping 4 KiB at
a time, then appends the entry's pixels, updating `LastVa` to the
current pixel's virtual address each time.  All 64-bit additions are
modelled with explicit `% 2^64`. -/

/-- The body of the gap-filling `for` loop: iterate from `cur` while
`(cur + Page::Size) < va` (64-bit), emitting one `None` per step; the
fuel is the number of appends still allowed before the
`N >= MaxGapEntries` break fires. -/
def mainGapGo (va : Nat) : Nat → Nat → List Properties_t
  | _, 0 => []
  | cur, fuel + 1 =>
    if (cur + Page.Size) % 2 ^ 64 < va then
      Properties_t.None :: mainGapGo va ((cur + Page.Size) % 2 ^ 64) fuel
    else []

/-- The whole gap block of `main`: guarded only by
`(LastVa + Page::Size) != Entry->Va` (no first-leaf guard). -/
def mainGap (lastVa va : Nat) : List Properties_t :=
  if (lastVa + Page.Size) % 2 ^ 64 ≠ va then mainGapGo va lastVa 10000 else []

/-- The pixels appended for one walker entry by `main`'s pixel loop. -/
def mainPixels (e : Entry) : List Properties_t :=
  List.replicate (GetNumberPixels e.type)
    (PropertiesFromPtes e.pml4e e.pdpte e.pde e.pte)

/-- One iteration of `main`'s `while` loop: gap fill, then pixel
append; the new `LastVa` is the last pixel's virtual address. -/
def mainStep (st : Nat × List Properties_t) (e : Entry) :
    Nat × List Properties_t :=
  ((e.va + (GetNumberPixels e.type - 1) * Page.Size) % 2 ^ 64,
    st.2 ++ mainGap st.1 e.va ++ mainPixels e)

/-- The full tape build of `main` over a stream of walker entries,
from the initial state `LastVa = 0`, empty tape. -/
def mainTape (entries : List Entry) : Nat × List Properties_t :=
  entries.foldl mainStep (0, [])

/-! ### `DumpColor_t::AddPage` (src/unnamed/part_001:310-367)

This sibling tape builder guards its gap block with `LastVa_ > 0`
(so it never fills before the first leaf), steps its gap loop in 2 MiB
chunks, and deduplicates pixels whose physical address already occurs
ten times in the reverse multimap. -/

/-- State of `DumpColor_t`: the colors tape, the reverse multimap
(modelled as a list of (pa, va) pairs) and `LastVa_`. -/
structure DumpColorState where
  colors : List Properties_t := []
  reverse : List (Nat × Nat) := []
  lastVa : Nat := 0
  deriving DecidableEq, Repr

/-- `AddPage`'s gap loop: step 2 MiB at a time while
`(cur + 2MiB) < va` (64-bit), at most 10'000 `None` entries. -/
def addPageGapGo (va : Nat) : Nat → Nat → List Properties_t
  | _, 0 => []
  | cur, fuel + 1 =>
    if (cur + 0x200000) % 2 ^ 64 < va then
      Properties_t.None :: addPageGapGo va ((cur + 0x200000) % 2 ^ 64) fuel
    else []

/-- `AddPage`'s gap block, guarded by
`(LastVa_ + Page::Size) != Va.U64() && LastVa_ > 0`. -/
def addPageGap (lastVa va : Nat) : List Properties_t :=
  if (lastVa + Page.Size) % 2 ^ 64 ≠ va ∧ 0 < lastVa then
    addPageGapGo va lastVa 10000
  else []

/-- `AddPage`'s pixel loop: per pixel, update `LastVa_`, then skip the
pixel if its physical address already occurs ten times in the reverse
multimap, else append the color and record the (pa, va) pair. -/
def addPageGo (props : Properties_t) (va pa : Nat) :
    Nat → Nat → DumpColorState → DumpColorState
  | _, 0, st => st
  | idx, fuel + 1, st =>
    let curPa := (pa + idx * Page.Size) % 2 ^ 64
    let curVa := (va + idx * Page.Size) % 2 ^ 64
    let st := { st with lastVa := curVa }
    if 10 ≤ (st.reverse.filter (fun p => p.1 = curPa)).length then
      addPageGo props va pa (idx + 1) fuel st
    else
      addPageGo props va pa (idx + 1) fuel
        { st with colors := st.colors ++ [props],
                  reverse := st.reverse ++ [(curPa, curVa)] }

/-- `DumpColor_t::AddPage`: determine the page kind and physical base
from the PTEs, fill the gap (with the first-leaf guard), then run the
pixel loop. -/
def AddPage (st : DumpColorState) (va pml4e pdpte : Nat) (pde : Nat := 0)
    (pte : Nat := 0) : DumpColorState :=
  let kind :=
    if LargePage pdpte then PageType_t.Huge
    else if LargePage pde then PageType_t.Large
    else PageType_t.Normal
  let pa :=
    if LargePage pdpte then Page.AddressFromPfn (PageFrameNumber pdpte)
    else if LargePage pde then Page.AddressFromPfn (PageFrameNumber pde)
    else Page.AddressFromPfn (PageFrameNumber pte)
  let st := { st with colors := st.colors ++ addPageGap st.lastVa va }
  addPageGo (PropertiesFromPtes pml4e pdpte pde pte) va pa 0
    (GetNumberPixels kind) st

end clairvoyance

/-! ## Helper lemmas about the gap loop of `main` -/

namespace clairvoyance

/-- Length of the gap loop when the target is exactly `m ≥ 1` pages
above the cursor and no 64-bit wraparound occurs. -/
theorem mainGapGo_length (va : Nat) (hva : va ≤ 2 ^ 64 - 4096) :
    ∀ fuel m cur, 1 ≤ m → va = cur + m * 4096 →
      (mainGapGo va cur fuel).length = min (m - 1) fuel := by
  intro fuel
  induction fuel with
  | zero => intro m cur _ _; simp [mainGapGo]
  | succ fuel ih =>
    intro m cur hm hcur
    unfold mainGapGo
    have heq : (cur + Page.Size) % 2 ^ 64 = cur + 4096 := by
      unfold Page.Size; omega
    rw [heq]
    rcases Nat.lt_or_ge m 2 with hm2 | hm2
    · rw [if_neg (by omega)]
      simp; omega
    · rw [if_pos (by omega), List.length_cons,
        ih (m - 1) (cur + 4096) (by omega) (by omega)]
      omega

/-- Length of `main`'s whole gap block (guard included). -/
theorem mainGap_length (lastVa va m : Nat) (hm : 1 ≤ m)
    (hva : va = lastVa + m * 4096) (hbound : va ≤ 2 ^ 64 - 4096) :
    (mainGap lastVa va).length = min (m - 1) 10000 := by
  unfold mainGap
  rcases Nat.eq_or_lt_of_le hm with hm1 | hm2
  · rw [if_neg (by unfold Page.Size; omega)]
    simp; omega
  · rw [if_pos (by unfold Page.Size; omega)]
    exact mainGapGo_length va hbound 10000 m lastVa hm hva

end clairvoyance

namespace clairvoyance

/-- The gap loop only ever emits `None` pixels: its output is a
replicate of its length. -/
theorem mainGapGo_replicate (va : Nat) : ∀ fuel cur,
    mainGapGo va cur fuel =
      List.replicate (mainGapGo va cur fuel).length Properties_t.None := by
  intro fuel
  induction fuel with
  | zero => intro cur; rfl
  | succ fuel ih =>
    intro cur
    unfold mainGapGo
    split
    · rw [List.length_cons, List.replicate_succ]
      exact congrArg _ (ih _)
    · rfl

/-- `main`'s gap block emits exactly `min (m - 1) 10000` `None`
pixels when the next leaf is `m ≥ 1` pages above `LastVa` (and no
64-bit wraparound occurs). -/
theorem mainGap_replicate (lastVa va m : Nat) (hm : 1 ≤ m)
    (hva : va = lastVa + m * 4096) (hbound : va ≤ 2 ^ 64 - 4096) :
    mainGap lastVa va = List.replicate (min (m - 1) 10000) Properties_t.None := by
  have hlen := mainGap_length lastVa va m hm hva hbound
  rw [← hlen]
  unfold mainGap
  split
  · exact mainGapGo_replicate va 10000 lastVa
  · rfl

end clairvoyance

/-! ## Claim C4: filler pixels before the first leaf -/

/-- C4 counterexample: `main`'s tape builder (src/src/clairvoyance.cc:774-800)
has no first-leaf guard, so for a single normal leaf at virtual
address `0x3000` the built tape starts with two `Protection::None`
filler pixels before the leaf's own pixel, refuting "no gap-filler
pixels are appended ... regardless of the first leaf's VirtualBase". -/
theorem C4_counterexample :
    (mainTape [{ va := 0x3000, pml4e := 7, pdpte := 7, pde := 7, pte := 7 }]).2 =
      [Properties_t.None, Properties_t.None, Properties_t.UserReadWriteExec] := by
  decide

/-- C4 (amended): the `DumpColor_t::AddPage` tape builder
(src/unnamed/part_001:325) guards its gap block with `LastVa_ > 0` and
therefore never emits filler pixels before the first leaf, whatever its
`VirtualBase`; the tape-building loop of `main`
(src/src/clairvoyance.cc:781) lacks that guard and emits
`min(VirtualBase/4096 - 1, 10000)` leading `Protection::None` pixels
whenever the first leaf's `VirtualBase` is at least two pages. -/
theorem C4_first_leaf_gap :
    (∀ va, addPageGap 0 va = []) ∧
    (∀ va m, 2 ≤ m → va = m * 4096 → va ≤ 2 ^ 64 - 4096 →
      mainGap 0 va = List.replicate (min (m - 1) 10000) Properties_t.None ∧
        mainGap 0 va ≠ []) := by
  constructor
  · intro va
    unfold addPageGap
    rw [if_neg (by simp)]
  · intro va m hm hva hbound
    have h := mainGap_replicate 0 va m (by omega) (by omega) hbound
    refine ⟨h, ?_⟩
    rw [h]
    simp
    omega

/-- C4 witness: a first leaf at `0x3000` produces no fillers through
`AddPage` and exactly two leading fillers through `main`'s loop. -/
theorem C4_first_leaf_gap_witness :
    addPageGap 0 0x3000 = [] ∧
      mainGap 0 0x3000 =
        List.replicate 2 Properties_t.None := by
  refine ⟨C4_first_leaf_gap.1 0x3000, ?_⟩
  have h := C4_first_leaf_gap.2 0x3000 3 (by decide) (by decide) (by decide)
  exact h.1

/-! ## Claim C9: gap filling between consecutive leaves -/

/-- C9: between two leaves (`LastVa` already set by an emitted leaf),
`main`'s gap block appends exactly one `Protection::None` pixel per
absent 4 KiB page of the gap, capped at `MaxGapEntries = 10000`; in
particular two normal leaves 1024 pages apart get exactly 1023 filler
pixels between their pixels. -/
theorem C9_gap_pixel_count :
    (∀ lastVa va m, 1 ≤ m → va = lastVa + m * 4096 → va ≤ 2 ^ 64 - 4096 →
      mainGap lastVa va =
        List.replicate (min (m - 1) 10000) Properties_t.None) ∧
    (∀ e1 e2 : Entry, e1.type = .Normal → e2.type = .Normal →
      e1.va = 0x1000 → e2.va = e1.va + 1024 * 4096 →
      (mainTape [e1, e2]).2 =
        mainPixels e1 ++ List.replicate 1023 Properties_t.None ++
          mainPixels e2) := by
  constructor
  · exact fun lastVa va m hm hva hb => mainGap_replicate lastVa va m hm hva hb
  · intro e1 e2 ht1 ht2 hva1 hva2
    have hg1 : mainGap 0 e1.va = [] := by
      unfold mainGap
      rw [if_neg (by unfold Page.Size; omega)]
    have hg2 : mainGap e1.va e2.va =
        List.replicate 1023 Properties_t.None := by
      have := mainGap_replicate e1.va e2.va 1024 (by omega) (by omega)
        (by omega)
      simpa using this
    simp only [mainTape, List.foldl, mainStep, ht1, GetNumberPixels]
    rw [hg1]
    have hlast : (e1.va + (1 - 1) * Page.Size) % 2 ^ 64 = e1.va := by
      unfold Page.Size; omega
    rw [hlast, hg2]
    simp

/-- C9 witness: concrete instantiation of both parts (leaves at
`0x1000` and `0x401000`). -/
theorem C9_gap_pixel_count_witness :
    mainGap 0x1000 0x401000 =
        List.replicate 1023 Properties_t.None ∧
      (mainTape [{ va := 0x1000, pml4e := 7, pdpte := 7, pde := 7, pte := 7 },
          { va := 0x401000, pml4e := 7, pdpte := 7, pde := 7, pte := 7 }]).2 =
        mainPixels { va := 0x1000, pml4e := 7, pdpte := 7, pde := 7, pte := 7 } ++
          List.replicate 1023 Properties_t.None ++
          mainPixels { va := 0x401000, pml4e := 7, pdpte := 7, pde := 7, pte := 7 } := by
  constructor
  · have := C9_gap_pixel_count.1 0x1000 0x401000 1024 (by decide) (by decide)
      (by decide)
    simpa using this
  · exact C9_gap_pixel_count.2 _ _ rfl rfl rfl rfl

/-! ## The page-table walker (`PageTableIterator_t`, src/src/clairvoyance.cc:510-754)

The iterator holds a borrowed pointer per level (`Pml4_`, `Pdpt_`,
`Pd_`, `Pt_`) and a cursor pointer into each table (`Pml4e_`, …).  We
model a table pointer as the `Option`al physical address it was loaded
from (`none` = `nullptr`; the dump parser returns one stable pointer
per physical page, so pointer equality is physical-address equality)
and each cursor as its index in the current table.  `Next` resumes the
four nested loops from the stored cursors; a lower-level cursor is
reset to the table start exactly when the table pointer changed
(`if (OldPdpt != Pdpt_) Pdpte_ = Pdpt_;` etc.). -/

namespace clairvoyance

/-- The dump collaborator: `GetPhysicalPage` keyed by physical address;
a mapped page is read as a table of 512 64-bit entries. -/
structure Dump where
  page : Nat → Option (Nat → Nat)

/-- The lower-level cursor state of the iterator (`Pdpt_`/`Pdpte_`,
`Pd_`/`Pde_`, `Pt_`/`Pte_`). -/
structure Cur where
  pdptPa : Option Nat := none
  pdpti : Nat := 0
  pdPa : Option Nat := none
  pdi : Nat := 0
  ptPa : Option Nat := none
  pti : Nat := 0
  deriving DecidableEq, Repr

/-- The full iterator state (`Pml4_`, `Pml4e_` and the lower levels). -/
structure WState where
  pml4Pa : Option Nat := none
  pml4i : Nat := 0
  cur : Cur := {}
  deriving DecidableEq, Repr

/-- `PageTableIterator_t::MakeEntry` (src/src/clairvoyance.cc:574-620).
Note the `PxeAddress` fields add the pointer difference
`uint64_t(Pml4e_ - Pml4_)`, which is the entry *index* (pointer
subtraction divides by `sizeof(PteHardware_t)`), not the byte offset
`index * 8`. -/
def MakeEntry (dirPa pml4i pml4e pdpti pdpte pdi pde pti pte : Nat) : Entry :=
  let pml4eAddress := (dirPa + pml4i) % 2 ^ 64
  let pdpteAddress := (Page.AddressFromPfn (PageFrameNumber pml4e) + pdpti) % 2 ^ 64
  if LargePage pdpte then
    { pml4e, pml4eAddress, pdpte, pdpteAddress,
      pde := 0, pdeAddress := 0, pte := 0, pteAddress := 0,
      pa := Page.AddressFromPfn (PageFrameNumber pdpte),
      va := vaFromIndices pml4i pdpti,
      type := .Huge }
  else
    let pdeAddress := (Page.AddressFromPfn (PageFrameNumber pdpte) + pdi) % 2 ^ 64
    if LargePage pde then
      { pml4e, pml4eAddress, pdpte, pdpteAddress, pde, pdeAddress,
        pte := 0, pteAddress := 0,
        pa := Page.AddressFromPfn (PageFrameNumber pde),
        va := vaFromIndices pml4i pdpti pdi,
        type := .Large }
    else
      let pteAddress := (Page.AddressFromPfn (PageFrameNumber pde) + pti) % 2 ^ 64
      { pml4e, pml4eAddress, pdpte, pdpteAddress, pde, pdeAddress,
        pte, pteAddress,
        pa := Page.AddressFromPfn (PageFrameNumber pte),
        va := vaFromIndices pml4i pdpti pdi pti,
        type := .Normal }

/-- The fourth-level loop (`for (; Pte_ < Limit(Pt_); Pte_++)`,
src/src/clairvoyance.cc:739-747); the fuel only bounds the recursion
and is called with 512, enough for any start cursor `≤ 512`. -/
def ptLoop (dirPa pml4i pml4e pdpti pdpte pdi pde : Nat) (pt : Nat → Nat) :
    Nat → Cur → Option Entry × Cur
  | 0, c => (none, c)
  | fuel + 1, c =>
    if c.pti < 512 then
      if Present (pt c.pti) then
        (some (MakeEntry dirPa pml4i pml4e pdpti pdpte pdi pde c.pti (pt c.pti)),
          { c with pti := c.pti + 1 })
      else
        ptLoop dirPa pml4i pml4e pdpti pdpte pdi pde pt fuel
          { c with pti := c.pti + 1 }
    else (none, c)

/-- The third-level loop (src/src/clairvoyance.cc:702-748): skip
non-present PDEs, yield a Large leaf for `LargePage` PDEs (clearing
the PT pointers), skip PDEs whose page table is absent from the dump
(storing the null PT pointer), otherwise descend, resetting the PTE
cursor iff the PT pointer changed. -/
def pdLoop (D : Dump) (dirPa pml4i pml4e pdpti pdpte : Nat) (pd : Nat → Nat) :
    Nat → Cur → Option Entry × Cur
  | 0, c => (none, c)
  | fuel + 1, c =>
    if c.pdi < 512 then
      if Present (pd c.pdi) then
        if LargePage (pd c.pdi) then
          (some (MakeEntry dirPa pml4i pml4e pdpti pdpte c.pdi (pd c.pdi) 0 0),
            { c with pdi := c.pdi + 1, ptPa := none })
        else
          let ptAddress := Page.AddressFromPfn (PageFrameNumber (pd c.pdi))
          match D.page ptAddress with
          | none =>
            pdLoop D dirPa pml4i pml4e pdpti pdpte pd fuel
              { c with pdi := c.pdi + 1, ptPa := none }
          | some pt =>
            let c1 :=
              if c.ptPa ≠ some ptAddress then
                { c with ptPa := some ptAddress, pti := 0 }
              else { c with ptPa := some ptAddress }
            match ptLoop dirPa pml4i pml4e pdpti pdpte c.pdi (pd c.pdi) pt
                512 c1 with
            | (some e, c2) => (some e, c2)
            | (none, c2) =>
              pdLoop D dirPa pml4i pml4e pdpti pdpte pd fuel
                { c2 with pdi := c2.pdi + 1 }
      else
        pdLoop D dirPa pml4i pml4e pdpti pdpte pd fuel
          { c with pdi := c.pdi + 1 }
    else (none, c)

/-- The second-level loop (src/src/clairvoyance.cc:665-749): skip
non-present PDPTEs, yield a Huge leaf for `LargePage` PDPTEs (clearing
the PD and PT pointers), skip PDPTEs whose page directory is absent,
otherwise descend, resetting the PDE cursor iff the PD pointer
changed. -/
def pdptLoop (D : Dump) (dirPa pml4i pml4e : Nat) (pdpt : Nat → Nat) :
    Nat → Cur → Option Entry × Cur
  | 0, c => (none, c)
  | fuel + 1, c =>
    if c.pdpti < 512 then
      if Present (pdpt c.pdpti) then
        if LargePage (pdpt c.pdpti) then
          (some (MakeEntry dirPa pml4i pml4e c.pdpti (pdpt c.pdpti) 0 0 0 0),
            { c with pdpti := c.pdpti + 1, pdPa := none, ptPa := none })
        else
          let pdAddress := Page.AddressFromPfn (PageFrameNumber (pdpt c.pdpti))
          match D.page pdAddress with
          | none =>
            pdptLoop D dirPa pml4i pml4e pdpt fuel
              { c with pdpti := c.pdpti + 1, pdPa := none }
          | some pd =>
            let c1 :=
              if c.pdPa ≠ some pdAddress then
                { c with pdPa := some pdAddress, pdi := 0 }
              else { c with pdPa := some pdAddress }
            match pdLoop D dirPa pml4i pml4e c.pdpti (pdpt c.pdpti) pd 512 c1 with
            | (some e, c2) => (some e, c2)
            | (none, c2) =>
              pdptLoop D dirPa pml4i pml4e pdpt fuel
                { c2 with pdpti := c2.pdpti + 1 }
      else
        pdptLoop D dirPa pml4i pml4e pdpt fuel { c with pdpti := c.pdpti + 1 }
    else (none, c)

/-- The first-level loop (src/src/clairvoyance.cc:640-750): skip
non-present PML4Es, skip PML4Es whose PDPT page is absent (storing
the null PDPT pointer), otherwise descend, resetting the PDPTE cursor
iff the PDPT pointer changed. -/
def pml4Loop (D : Dump) (dirPa pml4PaV : Nat) (pml4 : Nat → Nat) :
    Nat → Nat → Cur → Option (Entry × WState)
  | 0, _, _ => none
  | fuel + 1, i, c =>
    if i < 512 then
      if Present (pml4 i) then
        let pdptAddress := Page.AddressFromPfn (PageFrameNumber (pml4 i))
        match D.page pdptAddress with
        | none =>
          pml4Loop D dirPa pml4PaV pml4 fuel (i + 1) { c with pdptPa := none }
        | some pdpt =>
          let c1 :=
            if c.pdptPa ≠ some pdptAddress then
              { c with pdptPa := some pdptAddress, pdpti := 0 }
            else { c with pdptPa := some pdptAddress }
          match pdptLoop D dirPa i (pml4 i) pdpt 512 c1 with
          | (some e, c2) => some (e, ⟨some pml4PaV, i, c2⟩)
          | (none, c2) => pml4Loop D dirPa pml4PaV pml4 fuel (i + 1) c2
      else pml4Loop D dirPa pml4PaV pml4 fuel (i + 1) c
    else none

/-- `PageTableIterator_t::Next`: resume the nested loops from the
stored state.  A null `Pml4_` (missing root) yields nothing. -/
def Next (D : Dump) (dirPa : Nat) (st : WState) : Option (Entry × WState) :=
  match st.pml4Pa with
  | none => none
  | some pml4Pa =>
    match D.page pml4Pa with
    | none => none
    | some pml4 => pml4Loop D dirPa pml4Pa pml4 512 st.pml4i st.cur

/-- The constructor (`Reset`): load the PML4 from the directory base. -/
def initState (D : Dump) (dirPa : Nat) : WState :=
  { pml4Pa := if (D.page dirPa).isSome then some dirPa else none,
    pml4i := 0, cur := {} }

/-- Iterate `Next` from a state, collecting the yielded entries. -/
def runFrom (D : Dump) (dirPa : Nat) : Nat → WState → List Entry
  | 0, _ => []
  | fuel + 1, st =>
    match Next D dirPa st with
    | none => []
    | some (e, st') => e :: runFrom D dirPa fuel st'

/-- The full walk, as `main` drives it (fuel bounds the number of
leaves; `512^4` covers any dump). -/
def walkRun (D : Dump) (dirPa : Nat) : List Entry :=
  runFrom D dirPa (512 ^ 4) (initState D dirPa)

end clairvoyance

/-! ## Claim C7: the `PxeAddress` fields -/

namespace clairvoyance

/-- A synthetic dump: PML4 at `0x1000` with entry 1 → PDPT at `0x2000`
with entry 2 → PD at `0x3000` with entry 3 → PT at `0x4000` with
entry 4 → page at `0x5000`; all entries `Present|Write|User`. -/
def testDumpC7 : Dump :=
  ⟨fun pa =>
    if pa = 0x1000 then some (fun i => if i = 1 then 0x2007 else 0)
    else if pa = 0x2000 then some (fun i => if i = 2 then 0x3007 else 0)
    else if pa = 0x3000 then some (fun i => if i = 3 then 0x4007 else 0)
    else if pa = 0x4000 then some (fun i => if i = 4 then 0x5007 else 0)
    else none⟩

end clairvoyance

/-- C7: `MakeEntry` computes
`Entry.Pml4eAddress = DirectoryAddress_ + uint64_t(Pml4e_ - Pml4_)`,
and pointer subtraction yields the entry *index*; the byte factor
`sizeof(uint64_t) = 8` is missing, so the emitted fields are
`base + index`, not the physical entry addresses `base + index * 8`
the claim (and the sibling `DumpColor_t::ComputePixels`,
src/unnamed/part_001:401) describe.  Walking `testDumpC7` (indices
1, 2, 3, 4 at the four levels) produces address fields
`0x1001, 0x2002, 0x3003, 0x4004` instead of
`0x1008, 0x2010, 0x3018, 0x4020`. -/
theorem C7_entry_addresses :
    (walkRun testDumpC7 0x1000).map
        (fun e => (e.pml4eAddress, e.pdpteAddress, e.pdeAddress, e.pteAddress)) =
      [(0x1001, 0x2002, 0x3003, 0x4004)] ∧
    (0x1001 ≠ 0x1000 + 1 * 8 ∧ 0x2002 ≠ 0x2000 + 2 * 8 ∧
      0x3003 ≠ 0x3000 + 3 * 8 ∧ 0x4004 ≠ 0x4000 + 4 * 8) := by
  constructor
  · rfl
  · decide

/-! ## Claim C8: missing interior pages are skipped locally -/

namespace clairvoyance

/-- A synthetic dump with interior pages missing:
* PML4 at `0x1000`: entry 0 → full path to a Normal leaf at VA 0;
  entry 1 → PDPT at `0x6000`, which is *absent* from the dump;
  entry 2 → PDPT at `0x7000` → PD at `0x8000` with
  entry 0 → PT at `0x9000` (leaf), entry 1 → PT at `0xb000`, which is
  *absent*, entry 2 → PT at `0xc000` (leaf). -/
def testDumpC8 : Dump :=
  ⟨fun pa =>
    if pa = 0x1000 then
      some (fun i =>
        if i = 0 then 0x2007 else if i = 1 then 0x6007
        else if i = 2 then 0x7007 else 0)
    else if pa = 0x2000 then some (fun i => if i = 0 then 0x3007 else 0)
    else if pa = 0x3000 then some (fun i => if i = 0 then 0x4007 else 0)
    else if pa = 0x4000 then some (fun i => if i = 0 then 0x5007 else 0)
    else if pa = 0x7000 then some (fun i => if i = 0 then 0x8007 else 0)
    else if pa = 0x8000 then
      some (fun i =>
        if i = 0 then 0x9007 else if i = 1 then 0xb007
        else if i = 2 then 0xc007 else 0)
    else if pa = 0x9000 then some (fun i => if i = 0 then 0xa007 else 0)
    else if pa = 0xc000 then some (fun i => if i = 0 then 0xd007 else 0)
    else none⟩

end clairvoyance

/-- C8: when a child directory page is absent from the dump, the walker
skips exactly that parent entry and continues with the next index at
the same level — (1) a missing PDPT under a present PML4E advances the
PML4 cursor, (2) a missing PD under a present non-large PDPTE advances
the PDPT cursor, (3) a missing PT under a present non-large PDE
advances the PD cursor (each storing the null child pointer); and (4)
on the mocked dump `testDumpC8` the walk never aborts: every leaf
under the sibling entries of the two missing-child parents is still
yielded (VAs `0`, `2·2^39`, `2·2^39 + 2·2^21`). -/
theorem C8_missing_interior_skips :
    (∀ (D : Dump) (dirPa pml4PaV : Nat) (pml4 : Nat → Nat) (fuel i : Nat)
      (c : Cur), i < 512 → Present (pml4 i) →
      D.page (Page.AddressFromPfn (PageFrameNumber (pml4 i))) = none →
      pml4Loop D dirPa pml4PaV pml4 (fuel + 1) i c =
        pml4Loop D dirPa pml4PaV pml4 fuel (i + 1) { c with pdptPa := none }) ∧
    (∀ (D : Dump) (dirPa pml4i pml4e : Nat) (pdpt : Nat → Nat) (fuel : Nat)
      (c : Cur), c.pdpti < 512 → Present (pdpt c.pdpti) →
      LargePage (pdpt c.pdpti) = false →
      D.page (Page.AddressFromPfn (PageFrameNumber (pdpt c.pdpti))) = none →
      pdptLoop D dirPa pml4i pml4e pdpt (fuel + 1) c =
        pdptLoop D dirPa pml4i pml4e pdpt fuel
          { c with pdpti := c.pdpti + 1, pdPa := none }) ∧
    (∀ (D : Dump) (dirPa pml4i pml4e pdpti pdpte : Nat) (pd : Nat → Nat)
      (fuel : Nat) (c : Cur), c.pdi < 512 → Present (pd c.pdi) →
      LargePage (pd c.pdi) = false →
      D.page (Page.AddressFromPfn (PageFrameNumber (pd c.pdi))) = none →
      pdLoop D dirPa pml4i pml4e pdpti pdpte pd (fuel + 1) c =
        pdLoop D dirPa pml4i pml4e pdpti pdpte pd fuel
          { c with pdi := c.pdi + 1, ptPa := none }) ∧
    (walkRun testDumpC8 0x1000).map Entry.va =
      [0, 2 * 2 ^ 39, 2 * 2 ^ 39 + 2 * 2 ^ 21] := by
  refine ⟨?_, ?_, ?_, ?_⟩
  · intro D dirPa pml4PaV pml4 fuel i c hi hp hnone
    conv_lhs => unfold pml4Loop
    simp only [hi, if_true, hp, if_true, hnone]
  · intro D dirPa pml4i pml4e pdpt fuel c hi hp hlp hnone
    conv_lhs => unfold pdptLoop
    simp only [hi, if_true, hp, if_true, hlp, Bool.false_eq_true, if_false,
      hnone]
  · intro D dirPa pml4i pml4e pdpti pdpte pd fuel c hi hp hlp hnone
    conv_lhs => unfold pdLoop
    simp only [hi, if_true, hp, if_true, hlp, Bool.false_eq_true, if_false,
      hnone]
  · rfl

/-- C8 witness: the general skip steps instantiated on `testDumpC8`
(the missing PDPT under PML4E 1 and the missing PT under PDE 1). -/
theorem C8_missing_interior_skips_witness :
    pml4Loop testDumpC8 0x1000 0x1000
        (fun i =>
          if i = 0 then 0x2007 else if i = 1 then 0x6007
          else if i = 2 then 0x7007 else 0) 6 1 {} =
      pml4Loop testDumpC8 0x1000 0x1000
        (fun i =>
          if i = 0 then 0x2007 else if i = 1 then 0x6007
          else if i = 2 then 0x7007 else 0) 5 2
        { pdptPa := none } ∧
    pdLoop testDumpC8 0x1000 2 0x7007 0 0x8007
        (fun i =>
          if i = 0 then 0x9007 else if i = 1 then 0xb007
          else if i = 2 then 0xc007 else 0) 6 { pdi := 1 } =
      pdLoop testDumpC8 0x1000 2 0x7007 0 0x8007
        (fun i =>
          if i = 0 then 0x9007 else if i = 1 then 0xb007
          else if i = 2 then 0xc007 else 0) 5
        { pdi := 2, ptPa := none } := by
  constructor
  · exact C8_missing_interior_skips.1 testDumpC8 0x1000 0x1000 _ 5 1 {}
      (by decide) (by decide) rfl
  · exact C8_missing_interior_skips.2.2.1 testDumpC8 0x1000 2 0x7007 0 0x8007
      _ 5 { pdi := 1 } (by decide) (by decide) (by decide) rfl

/-! ## Claim C3: ordering of the walker's leaves

Strategy: associate to each yielded leaf its index tuple `(a, b, c, d)`
encoded as a position `pos4 a b c d` counted in 4 KiB slots, show that
`Next` only yields at positions at or above a floor computed from the
cursor state, and that the post-yield state's floor is the yield
position plus the leaf's pixel count.  The virtual address is an
affine monotone function of the position, which turns the position gap
into the claimed `VirtualBase` gap. -/

namespace clairvoyance

/-- Index tuple encoded in 4 KiB-slot units. -/
def pos4 (a b c d : Nat) : Nat := a * 2 ^ 27 + b * 2 ^ 18 + c * 2 ^ 9 + d

/-- For in-range indices the packed virtual address is `4096 · pos`
plus the sign-extension constant. -/
theorem vaFromIndices_eq_pos (a b c d : Nat) (ha : a < 512) (hb : b < 512)
    (hc : c < 512) (hd : d < 512) :
    vaFromIndices a b c d =
      4096 * pos4 a b c d + (if 256 ≤ a then 65535 * 2 ^ 48 else 0) := by
  unfold vaFromIndices pos4
  rw [Nat.shiftRight_eq_div_pow]
  rcases Nat.lt_or_ge a 256 with h | h
  · rw [if_neg (by omega), if_neg (by omega)]
    omega
  · rw [if_pos (by omega), if_pos h]
    omega

/-- The position gap transfers to the virtual addresses. -/
theorem va_of_pos_gap (a b c d a' b' c' d' k : Nat) (ha : a < 512)
    (hb : b < 512) (hc : c < 512) (hd : d < 512) (ha' : a' < 512)
    (hb' : b' < 512) (hc' : c' < 512) (hd' : d' < 512)
    (h : pos4 a b c d + k ≤ pos4 a' b' c' d') :
    vaFromIndices a b c d + 4096 * k ≤ vaFromIndices a' b' c' d' := by
  rw [vaFromIndices_eq_pos a b c d ha hb hc hd,
    vaFromIndices_eq_pos a' b' c' d' ha' hb' hc' hd']
  have haa : a ≤ a' := by
    unfold pos4 at h; omega
  unfold pos4 at h ⊢
  split_ifs <;> omega

/-- Characterization of `ptLoop`: from a cursor `≤ 512` with enough
fuel it either yields the entry at the first present index `d` at or
after the cursor, advancing only the PTE cursor to `d + 1`, or
exhausts the table leaving the cursor at 512. -/
theorem ptLoop_spec (dirPa pml4i pml4e pdpti pdpte pdi pde : Nat)
    (pt : Nat → Nat) :
    ∀ fuel c, c.pti ≤ 512 → 512 ≤ c.pti + fuel →
    (∃ d, c.pti ≤ d ∧ d < 512 ∧ Present (pt d) = true ∧
      ptLoop dirPa pml4i pml4e pdpti pdpte pdi pde pt fuel c =
        (some (MakeEntry dirPa pml4i pml4e pdpti pdpte pdi pde d (pt d)),
          { c with pti := d + 1 })) ∨
    ptLoop dirPa pml4i pml4e pdpti pdpte pdi pde pt fuel c =
      (none, { c with pti := 512 }) := by
  intro fuel
  induction fuel with
  | zero =>
    intro c h1 h2
    right
    have hpti : c.pti = 512 := by omega
    have hc : ({ c with pti := 512 } : Cur) = c := by
      cases c; simp_all
    rw [hc]
    rfl
  | succ fuel ih =>
    intro c h1 h2
    rcases Nat.lt_or_ge c.pti 512 with hlt | hge
    · by_cases hp : Present (pt c.pti)
      · left
        exact ⟨c.pti, Nat.le_refl _, hlt, hp, by
          conv_lhs => unfold ptLoop
          rw [if_pos hlt, if_pos hp]⟩
      · have hc1 : ({ c with pti := c.pti + 1 } : Cur).pti = c.pti + 1 := rfl
        have := ih { c with pti := c.pti + 1 } (by rw [hc1]; omega)
          (by rw [hc1]; omega)
        have hstep : ptLoop dirPa pml4i pml4e pdpti pdpte pdi pde pt
            (fuel + 1) c =
            ptLoop dirPa pml4i pml4e pdpti pdpte pdi pde pt fuel
              { c with pti := c.pti + 1 } := by
          conv_lhs => unfold ptLoop
          rw [if_pos hlt, if_neg hp]
        rcases this with ⟨d, hd1, hd2, hd3, hd4⟩ | hnone
        · left
          rw [hc1] at hd1
          refine ⟨d, by omega, hd2, hd3, ?_⟩
          rw [hstep, hd4]
        · right
          rw [hstep, hnone]
    · right
      have hc : c.pti = 512 := by omega
      have hceq : ({ c with pti := 512 } : Cur) = c := by
        cases c; simp_all
      rw [hceq]
      conv_lhs => unfold ptLoop
      rw [if_neg (by omega)]

end clairvoyance

namespace clairvoyance

/-- Characterization of `pdLoop` relative to a position floor `f`
(counted in PT slots below this PD).  The floor premise either bounds
`f` by the PDE cursor alone, or additionally by the PTE cursor when
the state is coherently resuming inside the PT of the current PDE.
Any yield is an entry of this PD at a position at or past `f`, and the
post-state is coherent at the position one past the yield. -/
theorem pdLoop_spec (D : Dump) (dirPa pml4i pml4e pdpti pdpte : Nat)
    (pd : Nat → Nat) (f : Nat) :
    ∀ fuel c, c.pdi ≤ 512 → c.pti ≤ 512 → 512 ≤ c.pdi + fuel →
    (f ≤ c.pdi * 512 ∨
      (f ≤ c.pdi * 512 + c.pti ∧ c.pdi < 512 ∧ Present (pd c.pdi) = true ∧
        LargePage (pd c.pdi) = false ∧
        c.ptPa = some (Page.AddressFromPfn (PageFrameNumber (pd c.pdi))) ∧
        (D.page (Page.AddressFromPfn (PageFrameNumber (pd c.pdi)))).isSome
          = true)) →
    (∃ e c', pdLoop D dirPa pml4i pml4e pdpti pdpte pd fuel c = (some e, c') ∧
      c'.pdptPa = c.pdptPa ∧ c'.pdpti = c.pdpti ∧ c'.pdPa = c.pdPa ∧
      c'.pdi ≤ 512 ∧ c'.pti ≤ 512 ∧
      ∃ i, i < 512 ∧ Present (pd i) = true ∧
        ((LargePage (pd i) = true ∧
            e = MakeEntry dirPa pml4i pml4e pdpti pdpte i (pd i) 0 0 ∧
            f ≤ i * 512 ∧ c'.pdi = i + 1) ∨
          (LargePage (pd i) = false ∧
            ∃ pt d,
              D.page (Page.AddressFromPfn (PageFrameNumber (pd i))) = some pt ∧
              d < 512 ∧ Present (pt d) = true ∧
              e = MakeEntry dirPa pml4i pml4e pdpti pdpte i (pd i) d (pt d) ∧
              f ≤ i * 512 + d ∧ c'.pdi = i ∧ c'.pti = d + 1 ∧
              c'.ptPa =
                some (Page.AddressFromPfn (PageFrameNumber (pd i)))))) ∨
    (∃ c', pdLoop D dirPa pml4i pml4e pdpti pdpte pd fuel c = (none, c') ∧
      c'.pdptPa = c.pdptPa ∧ c'.pdpti = c.pdpti ∧ c'.pdPa = c.pdPa ∧
      c'.pdi = 512 ∧ c'.pti ≤ 512) := by
  intro fuel
  induction fuel with
  | zero =>
    intro c h1 h2 h3 _
    right
    exact ⟨c, rfl, rfl, rfl, rfl, by omega, h2⟩
  | succ fuel ih =>
    intro c h1 h2 h3 hf
    rcases Nat.lt_or_ge c.pdi 512 with hlt | hge
    · by_cases hlpb : Present (pd c.pdi)
      · by_cases hlpl : LargePage (pd c.pdi)
        · -- Large page: yield at the current PDE.
          have hff : f ≤ c.pdi * 512 := by
            rcases hf with hf | ⟨_, _, _, hfalse, _, _⟩
            · exact hf
            · rw [hlpl] at hfalse; cases hfalse
          have hstep : pdLoop D dirPa pml4i pml4e pdpti pdpte pd (fuel + 1)
              c = (some (MakeEntry dirPa pml4i pml4e pdpti pdpte c.pdi
                  (pd c.pdi) 0 0),
                { c with pdi := c.pdi + 1, ptPa := none }) := by
            conv_lhs => unfold pdLoop
            rw [if_pos hlt, if_pos hlpb, if_pos hlpl]
          left
          refine ⟨_, _, hstep, rfl, rfl, rfl, ?_, ?_, c.pdi, hlt, hlpb,
            Or.inl ⟨hlpl, rfl, hff, rfl⟩⟩
          · show c.pdi + 1 ≤ 512
            omega
          · show c.pti ≤ 512
            exact h2
        · have hlp : LargePage (pd c.pdi) = false := by simpa using hlpl
          cases hD : D.page (Page.AddressFromPfn (PageFrameNumber (pd c.pdi)))
            with
          | none =>
            -- PT missing: skip this PDE.
            have hstep : pdLoop D dirPa pml4i pml4e pdpti pdpte pd (fuel + 1)
                c = pdLoop D dirPa pml4i pml4e pdpti pdpte pd fuel
                  { c with pdi := c.pdi + 1, ptPa := none } := by
              conv_lhs => unfold pdLoop
              rw [if_pos hlt, if_pos hlpb, if_neg hlpl]
              simp only [hD]
            have hff : f ≤ (c.pdi + 1) * 512 := by
              rcases hf with hf | ⟨_, _, _, _, _, hsome⟩
              · omega
              · rw [hD] at hsome; cases hsome
            have hrec := ih { c with pdi := c.pdi + 1, ptPa := none }
              (by show c.pdi + 1 ≤ 512; omega) (by show c.pti ≤ 512; exact h2)
              (by show 512 ≤ c.pdi + 1 + fuel; omega)
              (Or.inl (by show f ≤ (c.pdi + 1) * 512; omega))
            rw [← hstep] at hrec
            rcases hrec with ⟨e, c', hr, ha, hb, hb2, hc, hd, rest⟩ |
              ⟨c', hr, ha, hb, hb2, hc, hd⟩
            · exact Or.inl ⟨e, c', hr, ha, hb, hb2, hc, hd, rest⟩
            · exact Or.inr ⟨c', hr, ha, hb, hb2, hc, hd⟩
          | some pt =>
            -- Descend into the PT.
            by_cases hcpa :
                c.ptPa = some (Page.AddressFromPfn (PageFrameNumber (pd c.pdi)))
            · -- Same PT pointer: the PTE cursor is kept.
              have hstep : pdLoop D dirPa pml4i pml4e pdpti pdpte pd (fuel + 1)
                  c = (match ptLoop dirPa pml4i pml4e pdpti pdpte c.pdi
                      (pd c.pdi) pt 512
                      { c with ptPa := some (Page.AddressFromPfn (PageFrameNumber (pd c.pdi))) } with
                    | (some e, c2) => (some e, c2)
                    | (none, c2) =>
                      pdLoop D dirPa pml4i pml4e pdpti pdpte pd fuel
                        { c2 with pdi := c2.pdi + 1 }) := by
                conv_lhs => unfold pdLoop
                rw [if_pos hlt, if_pos hlpb, if_neg hlpl]
                simp only [hD, hcpa, ne_eq, not_true_eq_false, if_false]
              rcases ptLoop_spec dirPa pml4i pml4e pdpti pdpte c.pdi
                  (pd c.pdi) pt 512
                  { c with ptPa := some (Page.AddressFromPfn (PageFrameNumber (pd c.pdi))) }
                  (by show c.pti ≤ 512; exact h2)
                  (by show 512 ≤ c.pti + 512; omega) with
                ⟨d, hd0, hd1, hd2, hd3⟩ | hnone
              · rw [hd3] at hstep
                have hff : f ≤ c.pdi * 512 + d := by
                  have hd0' : c.pti ≤ d := hd0
                  rcases hf with hf | ⟨hfb, _, _, _, _, _⟩ <;> omega
                left
                refine ⟨_, _, hstep, rfl, rfl, rfl, ?_, ?_, c.pdi, hlt, hlpb,
                  Or.inr ⟨hlp, pt, d, hD, hd1, hd2, rfl, hff, rfl, rfl, rfl⟩⟩
                · show c.pdi ≤ 512
                  omega
                · show d + 1 ≤ 512
                  omega
              · rw [hnone] at hstep
                have hff : f ≤ (c.pdi + 1) * 512 := by
                  rcases hf with hf | ⟨hfb, _, _, _, _, _⟩ <;> omega
                have hrec := ih
                  { c with ptPa := some (Page.AddressFromPfn (PageFrameNumber (pd c.pdi))), pti := 512, pdi := c.pdi + 1 }
                  (by show c.pdi + 1 ≤ 512; omega) (by show (512:Nat) ≤ 512; omega)
                  (by show 512 ≤ c.pdi + 1 + fuel; omega)
                  (Or.inl (by show f ≤ (c.pdi + 1) * 512; omega))
                rcases hrec with ⟨e, c', hr, ha, hb, hb2, hc, hd, rest⟩ |
                  ⟨c', hr, ha, hb, hb2, hc, hd⟩
                · exact Or.inl ⟨e, c', hstep.trans hr, ha, hb, hb2, hc, hd,
                    rest⟩
                · exact Or.inr ⟨c', hstep.trans hr, ha, hb, hb2, hc, hd⟩
            · -- PT pointer changed: the PTE cursor is reset.
              have hstep : pdLoop D dirPa pml4i pml4e pdpti pdpte pd (fuel + 1)
                  c = (match ptLoop dirPa pml4i pml4e pdpti pdpte c.pdi
                      (pd c.pdi) pt 512
                      { c with ptPa := some (Page.AddressFromPfn (PageFrameNumber (pd c.pdi))), pti := 0 } with
                    | (some e, c2) => (some e, c2)
                    | (none, c2) =>
                      pdLoop D dirPa pml4i pml4e pdpti pdpte pd fuel
                        { c2 with pdi := c2.pdi + 1 }) := by
                conv_lhs => unfold pdLoop
                rw [if_pos hlt, if_pos hlpb, if_neg hlpl]
                simp only [hD, ne_eq, hcpa, not_false_eq_true, if_true]
              have hfl : f ≤ c.pdi * 512 := by
                rcases hf with hf | ⟨_, _, _, _, hPa, _⟩
                · exact hf
                · exact absurd hPa hcpa
              rcases ptLoop_spec dirPa pml4i pml4e pdpti pdpte c.pdi
                  (pd c.pdi) pt 512
                  { c with ptPa := some (Page.AddressFromPfn (PageFrameNumber (pd c.pdi))), pti := 0 }
                  (by show (0:Nat) ≤ 512; omega)
                  (by show 512 ≤ 0 + 512; omega) with
                ⟨d, hd0, hd1, hd2, hd3⟩ | hnone
              · rw [hd3] at hstep
                left
                refine ⟨_, _, hstep, rfl, rfl, rfl, ?_, ?_, c.pdi, hlt, hlpb,
                  Or.inr ⟨hlp, pt, d, hD, hd1, hd2, rfl, by omega, rfl, rfl,
                    rfl⟩⟩
                · show c.pdi ≤ 512
                  omega
                · show d + 1 ≤ 512
                  omega
              · rw [hnone] at hstep
                have hrec := ih
                  { c with ptPa := some (Page.AddressFromPfn (PageFrameNumber (pd c.pdi))), pti := 512, pdi := c.pdi + 1 }
                  (by show c.pdi + 1 ≤ 512; omega) (by show (512:Nat) ≤ 512; omega)
                  (by show 512 ≤ c.pdi + 1 + fuel; omega)
                  (Or.inl (by show f ≤ (c.pdi + 1) * 512; omega))
                rcases hrec with ⟨e, c', hr, ha, hb, hb2, hc, hd, rest⟩ |
                  ⟨c', hr, ha, hb, hb2, hc, hd⟩
                · exact Or.inl ⟨e, c', hstep.trans hr, ha, hb, hb2, hc, hd,
                    rest⟩
                · exact Or.inr ⟨c', hstep.trans hr, ha, hb, hb2, hc, hd⟩
      · -- PDE not present: skip it.
        have hstep : pdLoop D dirPa pml4i pml4e pdpti pdpte pd (fuel + 1) c =
            pdLoop D dirPa pml4i pml4e pdpti pdpte pd fuel
              { c with pdi := c.pdi + 1 } := by
          conv_lhs => unfold pdLoop
          rw [if_pos hlt, if_neg hlpb]
        have hff : f ≤ (c.pdi + 1) * 512 := by
          rcases hf with hf | ⟨_, _, hfalse, _, _, _⟩
          · omega
          · exact absurd hfalse hlpb
        have hrec := ih { c with pdi := c.pdi + 1 }
          (by show c.pdi + 1 ≤ 512; omega) (by show c.pti ≤ 512; exact h2)
          (by show 512 ≤ c.pdi + 1 + fuel; omega)
          (Or.inl (by show f ≤ (c.pdi + 1) * 512; omega))
        rw [← hstep] at hrec
        rcases hrec with ⟨e, c', hr, ha, hb, hb2, hc, hd, rest⟩ |
          ⟨c', hr, ha, hb, hb2, hc, hd⟩
        · exact Or.inl ⟨e, c', hr, ha, hb, hb2, hc, hd, rest⟩
        · exact Or.inr ⟨c', hr, ha, hb, hb2, hc, hd⟩
    · -- Cursor at the limit: exhausted.
      right
      have hpdi : c.pdi = 512 := by omega
      refine ⟨c, ?_, rfl, rfl, rfl, hpdi, h2⟩
      conv_lhs => unfold pdLoop
      rw [if_neg (by omega)]

end clairvoyance

namespace clairvoyance

/-- `MakeEntry` for a huge page: the PDPTE marks a large page. -/
theorem MakeEntry_huge (dirPa a pml4e b pdpte pdi pde pti pte : Nat)
    (h : LargePage pdpte = true) :
    (MakeEntry dirPa a pml4e b pdpte pdi pde pti pte).va =
        vaFromIndices a b 0 0 ∧
      (MakeEntry dirPa a pml4e b pdpte pdi pde pti pte).type =
        PageType_t.Huge := by
  unfold MakeEntry
  rw [if_pos h]
  exact ⟨rfl, rfl⟩

/-- `MakeEntry` for a large page: only the PDE marks a large page. -/
theorem MakeEntry_large (dirPa a pml4e b pdpte pdi pde pti pte : Nat)
    (h1 : LargePage pdpte = false) (h2 : LargePage pde = true) :
    (MakeEntry dirPa a pml4e b pdpte pdi pde pti pte).va =
        vaFromIndices a b pdi 0 ∧
      (MakeEntry dirPa a pml4e b pdpte pdi pde pti pte).type =
        PageType_t.Large := by
  unfold MakeEntry
  rw [if_neg (by rw [h1]; simp), if_pos h2]
  exact ⟨rfl, rfl⟩

/-- `MakeEntry` for a normal page: no level marks a large page. -/
theorem MakeEntry_normal (dirPa a pml4e b pdpte pdi pde pti pte : Nat)
    (h1 : LargePage pdpte = false) (h2 : LargePage pde = false) :
    (MakeEntry dirPa a pml4e b pdpte pdi pde pti pte).va =
        vaFromIndices a b pdi pti ∧
      (MakeEntry dirPa a pml4e b pdpte pdi pde pti pte).type =
        PageType_t.Normal := by
  unfold MakeEntry
  rw [if_neg (by rw [h1]; simp), if_neg (by rw [h2]; simp)]
  exact ⟨rfl, rfl⟩

/-- Floor predicate at the PD level: the next leaf yielded under the
current PD is at PT-slot position `≥ f`, either because the PDE cursor
alone guarantees it, or because the walker is coherently resuming
inside the PT of the current PDE. -/
def pdFloorOk (D : Dump) (pd : Nat → Nat) (c : Cur) (f : Nat) : Prop :=
  f ≤ c.pdi * 512 ∨
    (f ≤ c.pdi * 512 + c.pti ∧ c.pdi < 512 ∧ Present (pd c.pdi) = true ∧
      LargePage (pd c.pdi) = false ∧
      c.ptPa = some (Page.AddressFromPfn (PageFrameNumber (pd c.pdi))) ∧
      (D.page (Page.AddressFromPfn (PageFrameNumber (pd c.pdi)))).isSome
        = true)

/-- Floor predicate at the PDPT level, in PT-slot units below the
current PDPT. -/
def pdptFloorOk (D : Dump) (pdpt : Nat → Nat) (c : Cur) (g : Nat) : Prop :=
  g ≤ c.pdpti * 2 ^ 18 ∨
    (c.pdpti < 512 ∧ Present (pdpt c.pdpti) = true ∧
      LargePage (pdpt c.pdpti) = false ∧
      c.pdPa = some (Page.AddressFromPfn (PageFrameNumber (pdpt c.pdpti))) ∧
      ∃ pd f,
        D.page (Page.AddressFromPfn (PageFrameNumber (pdpt c.pdpti))) =
          some pd ∧
        g ≤ c.pdpti * 2 ^ 18 + f ∧ pdFloorOk D pd c f)

/-- A PD-level floor is at most `2^18` when the cursors are in range. -/
theorem pdFloorOk_le (D : Dump) (pd : Nat → Nat) (c : Cur) (f : Nat)
    (h1 : c.pdi ≤ 512) (h2 : c.pti ≤ 512) (h : pdFloorOk D pd c f) :
    f ≤ 2 ^ 18 := by
  rcases h with h | ⟨h, hlt, _⟩ <;> omega

/-- A PDPT-level floor is at most `2^27` when the cursors are in
range. -/
theorem pdptFloorOk_le (D : Dump) (pdpt : Nat → Nat) (c : Cur) (g : Nat)
    (h0 : c.pdpti ≤ 512) (h1 : c.pdi ≤ 512) (h2 : c.pti ≤ 512)
    (h : pdptFloorOk D pdpt c g) : g ≤ 2 ^ 27 := by
  rcases h with h | ⟨hlt, _, _, _, pd, f, _, hgf, hf⟩
  · omega
  · have := pdFloorOk_le D pd c f h1 h2 hf
    omega

end clairvoyance

namespace clairvoyance

/-- Characterization of `pdptLoop` relative to a PDPT-level floor `g`:
any yield is a leaf of this PML4E whose local position (in PT slots)
is at or past `g`, the post-state is coherent at the position one past
the leaf's pixels, and the PDPT pointer is untouched. -/
theorem pdptLoop_spec (D : Dump) (dirPa pml4i pml4e : Nat) (pdpt : Nat → Nat)
    (g : Nat) :
    ∀ fuel c, c.pdpti ≤ 512 → c.pdi ≤ 512 → c.pti ≤ 512 →
      512 ≤ c.pdpti + fuel → pdptFloorOk D pdpt c g →
    (∃ e c' b cc dd n,
      pdptLoop D dirPa pml4i pml4e pdpt fuel c = (some e, c') ∧
      c'.pdptPa = c.pdptPa ∧ c'.pdpti ≤ 512 ∧ c'.pdi ≤ 512 ∧ c'.pti ≤ 512 ∧
      b < 512 ∧ cc < 512 ∧ dd < 512 ∧
      e.va = vaFromIndices pml4i b cc dd ∧
      GetNumberPixels e.type = n ∧
      g ≤ b * 2 ^ 18 + cc * 2 ^ 9 + dd ∧
      pdptFloorOk D pdpt c' (b * 2 ^ 18 + cc * 2 ^ 9 + dd + n)) ∨
    (∃ c', pdptLoop D dirPa pml4i pml4e pdpt fuel c = (none, c') ∧
      c'.pdptPa = c.pdptPa ∧ c'.pdpti = 512 ∧ c'.pdi ≤ 512 ∧ c'.pti ≤ 512) := by
  intro fuel
  induction fuel with
  | zero =>
    intro c h0 h1 h2 h3 _
    right
    exact ⟨c, rfl, rfl, by omega, h1, h2⟩
  | succ fuel ih =>
    intro c h0 h1 h2 h3 hflr
    rcases Nat.lt_or_ge c.pdpti 512 with hb | hgeb
    · by_cases hpres : Present (pdpt c.pdpti)
      · by_cases hLP : LargePage (pdpt c.pdpti)
        · -- Huge page: yield at the current PDPTE.
          have hstep : pdptLoop D dirPa pml4i pml4e pdpt (fuel + 1) c =
              (some (MakeEntry dirPa pml4i pml4e c.pdpti (pdpt c.pdpti)
                  0 0 0 0),
                { c with pdpti := c.pdpti + 1, pdPa := none, ptPa := none }) := by
            conv_lhs => unfold pdptLoop
            rw [if_pos hb, if_pos hpres, if_pos hLP]
          have hform := MakeEntry_huge dirPa pml4i pml4e c.pdpti
            (pdpt c.pdpti) 0 0 0 0 hLP
          have hg : g ≤ c.pdpti * 2 ^ 18 := by
            rcases hflr with h | ⟨_, _, hfalse, _⟩
            · exact h
            · rw [hLP] at hfalse; cases hfalse
          left
          refine ⟨_, _, c.pdpti, 0, 0, 262144, hstep, rfl, ?_, ?_, ?_, hb,
            by omega, by omega, by rw [hform.1], by rw [hform.2]; rfl,
            by omega, Or.inl ?_⟩
          · show c.pdpti + 1 ≤ 512
            omega
          · show c.pdi ≤ 512
            exact h1
          · show c.pti ≤ 512
            exact h2
          · show c.pdpti * 2 ^ 18 + 0 * 2 ^ 9 + 0 + 262144 ≤
              (c.pdpti + 1) * 2 ^ 18
            omega
        · have hlpf : LargePage (pdpt c.pdpti) = false := by simpa using hLP
          cases hD : D.page (Page.AddressFromPfn
              (PageFrameNumber (pdpt c.pdpti))) with
          | none =>
            -- PD missing: skip this PDPTE.
            have hstep : pdptLoop D dirPa pml4i pml4e pdpt (fuel + 1) c =
                pdptLoop D dirPa pml4i pml4e pdpt fuel
                  { c with pdpti := c.pdpti + 1, pdPa := none } := by
              conv_lhs => unfold pdptLoop
              rw [if_pos hb, if_pos hpres, if_neg hLP]
              simp only [hD]
            have hg : g ≤ (c.pdpti + 1) * 2 ^ 18 := by
              rcases hflr with h | ⟨_, _, _, _, pd, f, hD', _⟩
              · omega
              · rw [hD] at hD'; cases hD'
            have hrec := ih { c with pdpti := c.pdpti + 1, pdPa := none }
              (by show c.pdpti + 1 ≤ 512; omega) (by show c.pdi ≤ 512; exact h1)
              (by show c.pti ≤ 512; exact h2)
              (by show 512 ≤ c.pdpti + 1 + fuel; omega)
              (Or.inl (by show g ≤ (c.pdpti + 1) * 2 ^ 18; omega))
            rcases hrec with ⟨e, c', b, cc, dd, n, hr, rest⟩ |
              ⟨c', hr, rest⟩
            · exact Or.inl ⟨e, c', b, cc, dd, n, hstep.trans hr, rest⟩
            · exact Or.inr ⟨c', hstep.trans hr, rest⟩
          | some pd =>
            by_cases hcpd : c.pdPa =
                some (Page.AddressFromPfn (PageFrameNumber (pdpt c.pdpti)))
            · -- Same PD pointer: PDE cursor kept.
              have hstep : pdptLoop D dirPa pml4i pml4e pdpt (fuel + 1) c =
                  (match pdLoop D dirPa pml4i pml4e c.pdpti (pdpt c.pdpti) pd
                      512
                      { c with pdPa := some (Page.AddressFromPfn (PageFrameNumber (pdpt c.pdpti))) } with
                    | (some e, c2) => (some e, c2)
                    | (none, c2) =>
                      pdptLoop D dirPa pml4i pml4e pdpt fuel
                        { c2 with pdpti := c2.pdpti + 1 }) := by
                conv_lhs => unfold pdptLoop
                rw [if_pos hb, if_pos hpres, if_neg hLP]
                simp only [hD, hcpd, ne_eq, not_true_eq_false, if_false]
              obtain ⟨f, hgf, hfok⟩ :
                  ∃ f, g ≤ c.pdpti * 2 ^ 18 + f ∧
                    pdFloorOk D pd
                      { c with pdPa := some (Page.AddressFromPfn (PageFrameNumber (pdpt c.pdpti))) } f := by
                rcases hflr with h | ⟨_, _, _, _, pd', f, hD', hgf, hf⟩
                · exact ⟨0, by omega, Or.inl (by omega)⟩
                · rw [hD] at hD'
                  cases hD'
                  exact ⟨f, hgf, hf⟩
              rcases pdLoop_spec D dirPa pml4i pml4e c.pdpti (pdpt c.pdpti)
                  pd f 512
                  { c with pdPa := some (Page.AddressFromPfn (PageFrameNumber (pdpt c.pdpti))) }
                  (by show c.pdi ≤ 512; exact h1)
                  (by show c.pti ≤ 512; exact h2)
                  (by show 512 ≤ c.pdi + 512; omega) hfok with
                ⟨e, c', hr, hA, hB, hC, hD512, hE512, i, hi, hipres, hcase⟩ |
                ⟨c2, hr, hA, hB, hC, hD512, hE512⟩
              · rw [hr] at hstep
                rcases hcase with ⟨hl, he, hfi, hpdieq⟩ |
                  ⟨hl, pt, d, hDpt, hdlt, hptd, he, hfd, hpdieq, hptieq,
                    hptPaeq⟩
                · -- Large leaf.
                  have hform := MakeEntry_large dirPa pml4i pml4e c.pdpti
                    (pdpt c.pdpti) i (pd i) 0 0 hlpf hl
                  left
                  refine ⟨e, c', c.pdpti, i, 0, 512, hstep, ?_, ?_, hD512,
                    hE512, hb, hi, by omega,
                    by rw [he, hform.1], by rw [he, hform.2]; rfl,
                    by omega, Or.inr ?_⟩
                  · exact hA
                  · have hB2 : c'.pdpti = c.pdpti := hB
                    rw [hB2]
                    omega
                  · have hB2 : c'.pdpti = c.pdpti := hB
                    have hC2 : c'.pdPa = some (Page.AddressFromPfn (PageFrameNumber (pdpt c.pdpti))) := hC
                    rw [hB2]
                    refine ⟨hb, hpres, hlpf, hC2, pd, (i + 1) * 512, hD,
                      by omega, Or.inl (by rw [hpdieq])⟩
                · -- Normal leaf.
                  have hform := MakeEntry_normal dirPa pml4i pml4e c.pdpti
                    (pdpt c.pdpti) i (pd i) d (pt d) hlpf hl
                  left
                  refine ⟨e, c', c.pdpti, i, d, 1, hstep, ?_, ?_, hD512,
                    hE512, hb, hi, hdlt,
                    by rw [he, hform.1], by rw [he, hform.2]; rfl,
                    by omega, Or.inr ?_⟩
                  · exact hA
                  · have hB2 : c'.pdpti = c.pdpti := hB
                    rw [hB2]
                    omega
                  · have hB2 : c'.pdpti = c.pdpti := hB
                    have hC2 : c'.pdPa = some (Page.AddressFromPfn (PageFrameNumber (pdpt c.pdpti))) := hC
                    rw [hB2]
                    refine ⟨hb, hpres, hlpf, hC2, pd, i * 512 + d + 1, hD,
                      by omega, Or.inr ?_⟩
                    refine ⟨by rw [hpdieq, hptieq]; omega,
                      by rw [hpdieq]; exact hi, by rw [hpdieq]; exact hipres,
                      by rw [hpdieq]; exact hl, by rw [hpdieq]; exact hptPaeq,
                      by rw [hpdieq, hDpt]; rfl⟩
              · -- This PD exhausted: next PDPTE.
                have hf18 : f ≤ 2 ^ 18 :=
                  pdFloorOk_le D pd _ f (by show c.pdi ≤ 512; exact h1)
                    (by show c.pti ≤ 512; exact h2) hfok
                have hrec := ih { c2 with pdpti := c2.pdpti + 1 }
                  (by show c2.pdpti + 1 ≤ 512; rw [hB]; show c.pdpti + 1 ≤ 512; omega)
                  (by show c2.pdi ≤ 512; omega)
                  (by show c2.pti ≤ 512; exact hE512)
                  (by show 512 ≤ c2.pdpti + 1 + fuel; rw [hB]; show 512 ≤ c.pdpti + 1 + fuel; omega)
                  (Or.inl (by show g ≤ (c2.pdpti + 1) * 2 ^ 18; rw [hB]; show g ≤ (c.pdpti + 1) * 2 ^ 18; omega))
                rw [hr] at hstep
                rcases hrec with ⟨e, c', b, cc, dd, n, hr, hA', rest⟩ |
                  ⟨c', hr, hA', rest⟩
                · refine Or.inl ⟨e, c', b, cc, dd, n, hstep.trans hr, ?_, rest⟩
                  rw [hA']
                  show c2.pdptPa = c.pdptPa
                  rw [hA]
                · refine Or.inr ⟨c', hstep.trans hr, ?_, rest⟩
                  rw [hA']
                  show c2.pdptPa = c.pdptPa
                  rw [hA]
            · -- PD pointer changed: PDE cursor reset.
              have hstep : pdptLoop D dirPa pml4i pml4e pdpt (fuel + 1) c =
                  (match pdLoop D dirPa pml4i pml4e c.pdpti (pdpt c.pdpti) pd
                      512
                      { c with pdPa := some (Page.AddressFromPfn (PageFrameNumber (pdpt c.pdpti))), pdi := 0 } with
                    | (some e, c2) => (some e, c2)
                    | (none, c2) =>
                      pdptLoop D dirPa pml4i pml4e pdpt fuel
                        { c2 with pdpti := c2.pdpti + 1 }) := by
                conv_lhs => unfold pdptLoop
                rw [if_pos hb, if_pos hpres, if_neg hLP]
                simp only [hD, hcpd, ne_eq, not_false_eq_true, if_true]
              have hg : g ≤ c.pdpti * 2 ^ 18 := by
                rcases hflr with h | ⟨_, _, _, hPa, _⟩
                · exact h
                · exact absurd hPa hcpd
              rcases pdLoop_spec D dirPa pml4i pml4e c.pdpti (pdpt c.pdpti)
                  pd 0 512
                  { c with pdPa := some (Page.AddressFromPfn (PageFrameNumber (pdpt c.pdpti))), pdi := 0 }
                  (by show (0:Nat) ≤ 512; omega)
                  (by show c.pti ≤ 512; exact h2)
                  (by show 512 ≤ 0 + 512; omega)
                  (Or.inl (by show (0:Nat) ≤ 0 * 512; omega)) with
                ⟨e, c', hr, hA, hB, hC, hD512, hE512, i, hi, hipres, hcase⟩ |
                ⟨c2, hr, hA, hB, hC, hD512, hE512⟩
              · rw [hr] at hstep
                rcases hcase with ⟨hl, he, hfi, hpdieq⟩ |
                  ⟨hl, pt, d, hDpt, hdlt, hptd, he, hfd, hpdieq, hptieq,
                    hptPaeq⟩
                · have hform := MakeEntry_large dirPa pml4i pml4e c.pdpti
                    (pdpt c.pdpti) i (pd i) 0 0 hlpf hl
                  left
                  refine ⟨e, c', c.pdpti, i, 0, 512, hstep, ?_, ?_, hD512,
                    hE512, hb, hi, by omega,
                    by rw [he, hform.1], by rw [he, hform.2]; rfl,
                    by omega, Or.inr ?_⟩
                  · exact hA
                  · have hB2 : c'.pdpti = c.pdpti := hB
                    rw [hB2]
                    omega
                  · have hB2 : c'.pdpti = c.pdpti := hB
                    have hC2 : c'.pdPa = some (Page.AddressFromPfn (PageFrameNumber (pdpt c.pdpti))) := hC
                    rw [hB2]
                    refine ⟨hb, hpres, hlpf, hC2, pd, (i + 1) * 512, hD,
                      by omega, Or.inl (by rw [hpdieq])⟩
                · have hform := MakeEntry_normal dirPa pml4i pml4e c.pdpti
                    (pdpt c.pdpti) i (pd i) d (pt d) hlpf hl
                  left
                  refine ⟨e, c', c.pdpti, i, d, 1, hstep, ?_, ?_, hD512,
                    hE512, hb, hi, hdlt,
                    by rw [he, hform.1], by rw [he, hform.2]; rfl,
                    by omega, Or.inr ?_⟩
                  · exact hA
                  · have hB2 : c'.pdpti = c.pdpti := hB
                    rw [hB2]
                    omega
                  · have hB2 : c'.pdpti = c.pdpti := hB
                    have hC2 : c'.pdPa = some (Page.AddressFromPfn (PageFrameNumber (pdpt c.pdpti))) := hC
                    rw [hB2]
                    refine ⟨hb, hpres, hlpf, hC2, pd, i * 512 + d + 1, hD,
                      by omega, Or.inr ?_⟩
                    refine ⟨by rw [hpdieq, hptieq]; omega,
                      by rw [hpdieq]; exact hi, by rw [hpdieq]; exact hipres,
                      by rw [hpdieq]; exact hl, by rw [hpdieq]; exact hptPaeq,
                      by rw [hpdieq, hDpt]; rfl⟩
              · have hrec := ih { c2 with pdpti := c2.pdpti + 1 }
                  (by show c2.pdpti + 1 ≤ 512; rw [hB]; show c.pdpti + 1 ≤ 512; omega)
                  (by show c2.pdi ≤ 512; omega)
                  (by show c2.pti ≤ 512; exact hE512)
                  (by show 512 ≤ c2.pdpti + 1 + fuel; rw [hB]; show 512 ≤ c.pdpti + 1 + fuel; omega)
                  (Or.inl (by show g ≤ (c2.pdpti + 1) * 2 ^ 18; rw [hB]; show g ≤ (c.pdpti + 1) * 2 ^ 18; omega))
                rw [hr] at hstep
                rcases hrec with ⟨e, c', b, cc, dd, n, hr, hA', rest⟩ |
                  ⟨c', hr, hA', rest⟩
                · refine Or.inl ⟨e, c', b, cc, dd, n, hstep.trans hr, ?_, rest⟩
                  rw [hA']
                  show c2.pdptPa = c.pdptPa
                  rw [hA]
                · refine Or.inr ⟨c', hstep.trans hr, ?_, rest⟩
                  rw [hA']
                  show c2.pdptPa = c.pdptPa
                  rw [hA]
      · -- PDPTE not present: skip it.
        have hstep : pdptLoop D dirPa pml4i pml4e pdpt (fuel + 1) c =
            pdptLoop D dirPa pml4i pml4e pdpt fuel
              { c with pdpti := c.pdpti + 1 } := by
          conv_lhs => unfold pdptLoop
          rw [if_pos hb, if_neg hpres]
        have hg : g ≤ (c.pdpti + 1) * 2 ^ 18 := by
          rcases hflr with h | ⟨_, hfalse, _⟩
          · omega
          · exact absurd hfalse hpres
        have hrec := ih { c with pdpti := c.pdpti + 1 }
          (by show c.pdpti + 1 ≤ 512; omega) (by show c.pdi ≤ 512; exact h1)
          (by show c.pti ≤ 512; exact h2)
          (by show 512 ≤ c.pdpti + 1 + fuel; omega)
          (Or.inl (by show g ≤ (c.pdpti + 1) * 2 ^ 18; omega))
        rcases hrec with ⟨e, c', b, cc, dd, n, hr, rest⟩ | ⟨c', hr, rest⟩
        · exact Or.inl ⟨e, c', b, cc, dd, n, hstep.trans hr, rest⟩
        · exact Or.inr ⟨c', hstep.trans hr, rest⟩
    · -- Cursor at the limit: exhausted.
      right
      have hpdpti : c.pdpti = 512 := by omega
      refine ⟨c, ?_, rfl, hpdpti, h1, h2⟩
      conv_lhs => unfold pdptLoop
      rw [if_neg (by omega)]

end clairvoyance

namespace clairvoyance

/-- Floor predicate at the PML4 level, in PT-slot units over the whole
address space (`pos4` units). -/
def pml4FloorOk (D : Dump) (pml4 : Nat → Nat) (i : Nat) (c : Cur) (v : Nat) :
    Prop :=
  v ≤ i * 2 ^ 27 ∨
    (i < 512 ∧ Present (pml4 i) = true ∧
      c.pdptPa = some (Page.AddressFromPfn (PageFrameNumber (pml4 i))) ∧
      ∃ pdpt g,
        D.page (Page.AddressFromPfn (PageFrameNumber (pml4 i))) = some pdpt ∧
        v ≤ i * 2 ^ 27 + g ∧ pdptFloorOk D pdpt c g)

/-- Characterization of `pml4Loop` relative to a global floor `v`:
any yield is a leaf at index tuple `(a, b, cc, dd)` with global
position `pos4 ≥ v`; the post-state is coherent at the position one
past the leaf's pixels. -/
theorem pml4Loop_spec (D : Dump) (dirPa pml4PaV : Nat) (pml4 : Nat → Nat)
    (v : Nat) :
    ∀ fuel i c, i ≤ 512 → c.pdpti ≤ 512 → c.pdi ≤ 512 → c.pti ≤ 512 →
      512 ≤ i + fuel → pml4FloorOk D pml4 i c v →
    (∃ e st' a b cc dd n,
      pml4Loop D dirPa pml4PaV pml4 fuel i c = some (e, st') ∧
      st'.pml4Pa = some pml4PaV ∧ st'.pml4i ≤ 512 ∧ st'.cur.pdpti ≤ 512 ∧
      st'.cur.pdi ≤ 512 ∧ st'.cur.pti ≤ 512 ∧
      a < 512 ∧ b < 512 ∧ cc < 512 ∧ dd < 512 ∧
      e.va = vaFromIndices a b cc dd ∧ GetNumberPixels e.type = n ∧
      v ≤ pos4 a b cc dd ∧
      pml4FloorOk D pml4 st'.pml4i st'.cur (pos4 a b cc dd + n)) ∨
    pml4Loop D dirPa pml4PaV pml4 fuel i c = none := by
  intro fuel
  induction fuel with
  | zero =>
    intro i c h0 h1 h2 h3 h4 _
    right
    rfl
  | succ fuel ih =>
    intro i c h0 h1 h2 h3 h4 hflr
    rcases Nat.lt_or_ge i 512 with hi | hgei
    · by_cases hpres : Present (pml4 i)
      · cases hD : D.page (Page.AddressFromPfn (PageFrameNumber (pml4 i)))
          with
        | none =>
          -- PDPT missing: skip this PML4E.
          have hstep : pml4Loop D dirPa pml4PaV pml4 (fuel + 1) i c =
              pml4Loop D dirPa pml4PaV pml4 fuel (i + 1)
                { c with pdptPa := none } := by
            conv_lhs => unfold pml4Loop
            rw [if_pos hi, if_pos hpres]
            simp only [hD]
          have hv : v ≤ (i + 1) * 2 ^ 27 := by
            rcases hflr with h | ⟨_, _, _, pdpt, g, hD', _⟩
            · omega
            · rw [hD] at hD'; cases hD'
          have hrec := ih (i + 1) { c with pdptPa := none }
            (by omega) (by show c.pdpti ≤ 512; exact h1)
            (by show c.pdi ≤ 512; exact h2) (by show c.pti ≤ 512; exact h3)
            (by omega) (Or.inl hv)
          rcases hrec with ⟨e, st', rest⟩ | hr
          · exact Or.inl ⟨e, st', by rw [← hstep] at rest; exact rest⟩
          · right
            rw [hstep, hr]
        | some pdpt =>
          by_cases hcpa : c.pdptPa =
              some (Page.AddressFromPfn (PageFrameNumber (pml4 i)))
          · -- Same PDPT pointer: PDPTE cursor kept.
            have hstep : pml4Loop D dirPa pml4PaV pml4 (fuel + 1) i c =
                (match pdptLoop D dirPa i (pml4 i) pdpt 512
                    { c with pdptPa := some (Page.AddressFromPfn (PageFrameNumber (pml4 i))) } with
                  | (some e, c2) => some (e, ⟨some pml4PaV, i, c2⟩)
                  | (none, c2) =>
                    pml4Loop D dirPa pml4PaV pml4 fuel (i + 1) c2) := by
              conv_lhs => unfold pml4Loop
              rw [if_pos hi, if_pos hpres]
              simp only [hD, hcpa, ne_eq, not_true_eq_false, if_false]
            obtain ⟨g, hvg, hgok⟩ :
                ∃ g, v ≤ i * 2 ^ 27 + g ∧
                  pdptFloorOk D pdpt
                    { c with pdptPa := some (Page.AddressFromPfn (PageFrameNumber (pml4 i))) } g := by
              rcases hflr with h | ⟨_, _, _, pdpt', g, hD', hvg, hg⟩
              · exact ⟨0, by omega, Or.inl (by omega)⟩
              · rw [hD] at hD'
                cases hD'
                exact ⟨g, hvg, hg⟩
            rcases pdptLoop_spec D dirPa i (pml4 i) pdpt g 512
                { c with pdptPa := some (Page.AddressFromPfn (PageFrameNumber (pml4 i))) }
                (by show c.pdpti ≤ 512; exact h1)
                (by show c.pdi ≤ 512; exact h2)
                (by show c.pti ≤ 512; exact h3)
                (by show 512 ≤ c.pdpti + 512; omega) hgok with
              ⟨e, c2, b, cc, dd, n, hr, hA, hs1, hs2, hs3, hb, hcc, hdd, hva,
                hn, hgb, hpost⟩ |
              ⟨c2, hr, hA, hpdpti512, hq1, hq2⟩
            · rw [hr] at hstep
              left
              have hA2 : c2.pdptPa =
                  some (Page.AddressFromPfn (PageFrameNumber (pml4 i))) := hA
              refine ⟨e, ⟨some pml4PaV, i, c2⟩, i, b, cc, dd, n, hstep, rfl,
                by show i ≤ 512; omega, hs1, hs2, hs3, hi, hb, hcc, hdd, hva,
                hn, ?_, Or.inr ⟨hi, hpres, hA2, pdpt,
                  b * 2 ^ 18 + cc * 2 ^ 9 + dd + n, hD, ?_, hpost⟩⟩
              · show v ≤ pos4 i b cc dd
                unfold pos4
                omega
              · show pos4 i b cc dd + n ≤
                  i * 2 ^ 27 + (b * 2 ^ 18 + cc * 2 ^ 9 + dd + n)
                unfold pos4
                omega
            · -- This PDPT exhausted: next PML4E.
              rw [hr] at hstep
              have hg27 : g ≤ 2 ^ 27 :=
                pdptFloorOk_le D pdpt _ g (by show c.pdpti ≤ 512; exact h1)
                  (by show c.pdi ≤ 512; exact h2)
                  (by show c.pti ≤ 512; exact h3) hgok
              have hrec := ih (i + 1) c2 (by omega)
                (by rw [hpdpti512]) hq1 hq2 (by omega)
                (Or.inl (by omega))
              have hstep2 : pml4Loop D dirPa pml4PaV pml4 (fuel + 1) i c =
                  pml4Loop D dirPa pml4PaV pml4 fuel (i + 1) c2 := hstep
              rcases hrec with ⟨e, st', rest⟩ | hr2
              · rw [← hstep2] at rest
                exact Or.inl ⟨e, st', rest⟩
              · right
                rw [hstep2, hr2]
          · -- PDPT pointer changed: PDPTE cursor reset.
            have hstep : pml4Loop D dirPa pml4PaV pml4 (fuel + 1) i c =
                (match pdptLoop D dirPa i (pml4 i) pdpt 512
                    { c with pdptPa := some (Page.AddressFromPfn (PageFrameNumber (pml4 i))), pdpti := 0 } with
                  | (some e, c2) => some (e, ⟨some pml4PaV, i, c2⟩)
                  | (none, c2) =>
                    pml4Loop D dirPa pml4PaV pml4 fuel (i + 1) c2) := by
              conv_lhs => unfold pml4Loop
              rw [if_pos hi, if_pos hpres]
              simp only [hD, hcpa, ne_eq, not_false_eq_true, if_true]
            have hv : v ≤ i * 2 ^ 27 := by
              rcases hflr with h | ⟨_, _, hPa, _⟩
              · exact h
              · exact absurd hPa hcpa
            rcases pdptLoop_spec D dirPa i (pml4 i) pdpt 0 512
                { c with pdptPa := some (Page.AddressFromPfn (PageFrameNumber (pml4 i))), pdpti := 0 }
                (by show (0:Nat) ≤ 512; omega)
                (by show c.pdi ≤ 512; exact h2)
                (by show c.pti ≤ 512; exact h3)
                (by show 512 ≤ 0 + 512; omega) (Or.inl (by omega)) with
              ⟨e, c2, b, cc, dd, n, hr, hA, hs1, hs2, hs3, hb, hcc, hdd, hva,
                hn, hgb, hpost⟩ |
              ⟨c2, hr, hA, hpdpti512, hq1, hq2⟩
            · rw [hr] at hstep
              left
              have hA2 : c2.pdptPa =
                  some (Page.AddressFromPfn (PageFrameNumber (pml4 i))) := hA
              refine ⟨e, ⟨some pml4PaV, i, c2⟩, i, b, cc, dd, n, hstep, rfl,
                by show i ≤ 512; omega, hs1, hs2, hs3, hi, hb, hcc, hdd, hva,
                hn, ?_, Or.inr ⟨hi, hpres, hA2, pdpt,
                  b * 2 ^ 18 + cc * 2 ^ 9 + dd + n, hD, ?_, hpost⟩⟩
              · show v ≤ pos4 i b cc dd
                unfold pos4
                omega
              · show pos4 i b cc dd + n ≤
                  i * 2 ^ 27 + (b * 2 ^ 18 + cc * 2 ^ 9 + dd + n)
                unfold pos4
                omega
            · rw [hr] at hstep
              have hrec := ih (i + 1) c2 (by omega)
                (by rw [hpdpti512]) hq1 hq2 (by omega)
                (Or.inl (by omega))
              have hstep2 : pml4Loop D dirPa pml4PaV pml4 (fuel + 1) i c =
                  pml4Loop D dirPa pml4PaV pml4 fuel (i + 1) c2 := hstep
              rcases hrec with ⟨e, st', rest⟩ | hr2
              · rw [← hstep2] at rest
                exact Or.inl ⟨e, st', rest⟩
              · right
                rw [hstep2, hr2]
      · -- PML4E not present: skip it.
        have hstep : pml4Loop D dirPa pml4PaV pml4 (fuel + 1) i c =
            pml4Loop D dirPa pml4PaV pml4 fuel (i + 1) c := by
          conv_lhs => unfold pml4Loop
          rw [if_pos hi, if_neg hpres]
        have hv : v ≤ (i + 1) * 2 ^ 27 := by
          rcases hflr with h | ⟨_, hfalse, _⟩
          · omega
          · exact absurd hfalse hpres
        have hrec := ih (i + 1) c (by omega) h1 h2 h3 (by omega) (Or.inl hv)
        rcases hrec with ⟨e, st', rest⟩ | hr
        · exact Or.inl ⟨e, st', by rw [← hstep] at rest; exact rest⟩
        · right
          rw [hstep, hr]
    · right
      conv_lhs => unfold pml4Loop
      rw [if_neg (by omega)]

end clairvoyance

namespace clairvoyance

/-- Walker-state coherence: either the iterator is dead (null PML4
pointer), or its cursors are in range and consistent with the global
position floor `v` (no leaf at a position `< v` can still be yielded). -/
def GoodW (D : Dump) (st : WState) (v : Nat) : Prop :=
  st.pml4Pa = none ∨
    (∃ pml4Pa pml4, st.pml4Pa = some pml4Pa ∧ D.page pml4Pa = some pml4 ∧
      st.pml4i ≤ 512 ∧ st.cur.pdpti ≤ 512 ∧ st.cur.pdi ≤ 512 ∧
      st.cur.pti ≤ 512 ∧ pml4FloorOk D pml4 st.pml4i st.cur v)

/-- A leaf's byte span is its pixel count times the page size. -/
theorem kindSize_eq_pixels (t : PageType_t) :
    kindSize t = 4096 * GetNumberPixels t := by
  cases t <;> rfl

/-- One `Next` step from a coherent state yields a leaf at position
`≥ v` and leaves the state coherent at one slot past the leaf. -/
theorem Next_spec (D : Dump) (dirPa : Nat) (st : WState) (v : Nat)
    (h : GoodW D st v) :
    Next D dirPa st = none ∨
    (∃ e st' a b cc dd n, Next D dirPa st = some (e, st') ∧
      a < 512 ∧ b < 512 ∧ cc < 512 ∧ dd < 512 ∧
      e.va = vaFromIndices a b cc dd ∧ GetNumberPixels e.type = n ∧
      v ≤ pos4 a b cc dd ∧ GoodW D st' (pos4 a b cc dd + n)) := by
  rcases h with hnone | ⟨pml4Pa, pml4, hPa, hD, hi, h1, h2, h3, hflr⟩
  · left
    unfold Next
    rw [hnone]
  · have hunf : Next D dirPa st = pml4Loop D dirPa pml4Pa pml4 512 st.pml4i st.cur := by
      unfold Next
      rw [hPa]
      simp only [hD]
    rcases pml4Loop_spec D dirPa pml4Pa pml4 v 512 st.pml4i st.cur hi h1 h2 h3
        (by omega) hflr with
      ⟨e, st', a, b, cc, dd, n, hr, hPa', hi', hc1, hc2, hc3, ha, hb, hcc,
        hdd, hva, hn, hv, hpost⟩ | hr
    · right
      refine ⟨e, st', a, b, cc, dd, n, by rw [hunf, hr], ha, hb, hcc, hdd,
        hva, hn, hv, Or.inr ⟨pml4Pa, pml4, hPa', hD, hi', hc1, hc2, hc3,
        hpost⟩⟩
    · left
      rw [hunf, hr]

/-- The freshly reset iterator is coherent at floor 0. -/
theorem GoodW_init (D : Dump) (dirPa : Nat) : GoodW D (initState D dirPa) 0 := by
  cases hD : D.page dirPa with
  | none =>
    left
    show (if (D.page dirPa).isSome then some dirPa else none) = none
    rw [hD]
    rfl
  | some pml4 =>
    right
    refine ⟨dirPa, pml4, ?_, hD, Nat.zero_le _, Nat.zero_le _, Nat.zero_le _,
      Nat.zero_le _, Or.inl (Nat.zero_le _)⟩
    show (if (D.page dirPa).isSome then some dirPa else none) = some dirPa
    rw [hD]
    rfl

/-- Running the walker from any coherent state yields a tape in which
each leaf starts after the end of the previous one, and whose first
leaf sits at position `≥ v`. -/
theorem runFrom_chain (D : Dump) (dirPa : Nat) :
    ∀ fuel st v, GoodW D st v →
      List.Chain' (fun e e' => e.va + kindSize e.type ≤ e'.va)
        (runFrom D dirPa fuel st) ∧
      (∀ e, (runFrom D dirPa fuel st).head? = some e →
        ∃ a b cc dd, a < 512 ∧ b < 512 ∧ cc < 512 ∧ dd < 512 ∧
          e.va = vaFromIndices a b cc dd ∧ v ≤ pos4 a b cc dd) := by
  intro fuel
  induction fuel with
  | zero =>
    intro st v _
    exact ⟨List.chain'_nil, by intro e he; cases he⟩
  | succ fuel ih =>
    intro st v hgood
    rcases Next_spec D dirPa st v hgood with hnone |
      ⟨e, st', a, b, cc, dd, n, hsome, ha, hb, hcc, hdd, hva, hn, hv, hgood'⟩
    · have hrun : runFrom D dirPa (fuel + 1) st = [] := by
        unfold runFrom
        rw [hnone]
      rw [hrun]
      exact ⟨List.chain'_nil, by intro e he; cases he⟩
    · have hrun : runFrom D dirPa (fuel + 1) st =
          e :: runFrom D dirPa fuel st' := by
        conv_lhs => unfold runFrom
        rw [hsome]
      obtain ⟨hchain, hhead⟩ := ih st' (pos4 a b cc dd + n) hgood'
      rw [hrun]
      constructor
      · rw [List.chain'_cons']
        refine ⟨?_, hchain⟩
        intro e' he'
        obtain ⟨a', b', cc', dd', ha', hb', hcc', hdd', hva', hv'⟩ :=
          hhead e' he'
        have hle : vaFromIndices a b cc dd + 4096 * n ≤
            vaFromIndices a' b' cc' dd' :=
          va_of_pos_gap a b cc dd a' b' cc' dd' n ha hb hcc hdd ha' hb' hcc'
            hdd' hv'
        rw [hva, hva', kindSize_eq_pixels, hn]
        exact hle
      · intro e0 he0
        have he0' : e = e0 := by
          simpa using he0
        exact ⟨a, b, cc, dd, ha, hb, hcc, hdd, he0' ▸ hva, hv⟩

/-- Two adjacent present PT entries: dir `0x1000`, a single path
PML4[0] → PDPT[0] → PD[0] → PT `0x4000` whose entries 0 and 1 are
both present leaves. -/
def testDumpC3 : Dump :=
  ⟨fun pa =>
    if pa = 0x1000 then some (fun i => if i = 0 then 0x2007 else 0)
    else if pa = 0x2000 then some (fun i => if i = 0 then 0x3007 else 0)
    else if pa = 0x3000 then some (fun i => if i = 0 then 0x4007 else 0)
    else if pa = 0x4000 then
      some (fun i => if i = 0 then 0x5007 else if i = 1 then 0x6007 else 0)
    else none⟩

end clairvoyance

/-- C3 (corrected): any two consecutive leaves the walker yields
satisfy `later.Va ≥ earlier.Va + kindSize earlier` — non-strict, not
the claimed strict `>`: for each pair of consecutive leaves, the later
leaf starts at or after the byte right past the earlier leaf's span,
so VirtualBase is strictly ascending in lexicographic index order. -/
theorem C3_walker_ordering (D : clairvoyance.Dump) (dirPa : Nat) :
    List.Chain'
      (fun e e' => e.va + clairvoyance.kindSize e.type ≤ e'.va)
      (clairvoyance.walkRun D dirPa) :=
  (clairvoyance.runFrom_chain D dirPa (512 ^ 4)
    (clairvoyance.initState D dirPa) 0
    (clairvoyance.GoodW_init D dirPa)).1

/-- C3 counterexample to the claimed strict inequality: on
`testDumpC3` (two adjacent normal PT leaves) the walker yields leaves
at `0x0` and `0x1000`, and `0x1000 > 0x0 + 4096` is false — the later
VirtualBase equals, and does not exceed, the earlier VirtualBase plus
its kind size. -/
theorem C3_counterexample :
    (clairvoyance.walkRun clairvoyance.testDumpC3 0x1000).map
      (fun e => (e.va, clairvoyance.kindSize e.type)) =
      [(0, 4096), (4096, 4096)] ∧
    ¬ List.Chain'
      (fun e e' => e'.va > e.va + clairvoyance.kindSize e.type)
      (clairvoyance.walkRun clairvoyance.testDumpC3 0x1000) := by
  constructor
  · rfl
  · have h2 : ∀ l : List clairvoyance.Entry,
        l.map (fun e => (e.va, clairvoyance.kindSize e.type)) =
          [(0, 4096), (4096, 4096)] →
        ¬ List.Chain'
          (fun e e' => e'.va > e.va + clairvoyance.kindSize e.type) l := by
      intro l hm hch
      rcases l with _ | ⟨e, _ | ⟨e', rest⟩⟩
      · simp at hm
      · simp at hm
      · simp only [List.map_cons, List.cons.injEq, Prod.mk.injEq] at hm
        have := (List.chain'_cons.mp hch).1
        omega
    exact h2 _ rfl

namespace clairvoyance

/-! ### The tape-and-region builder and the record emitter (spec §4.5, §6)

The repository ships only the viewer that consumes region headers
(src/viewer/clairvoyance.js); the builder producing the `(tape,
regions)` record is not among the sources, so it is modelled from the
spec here. -/

/-- Modelled from the spec: `MaxGapPixels`, the filler cap of the gap
policy (§4.5). -/
def MaxGapPixels : Nat := 10000

/-- Modelled from the spec: the tape-and-region builder state (§4.5):
`last_va` (initially 0), whether the first leaf has arrived, the
current region's `VirtualBase`, the closed regions as `(VirtualBase,
EndDistance)` pairs, and the tape buffer. -/
structure BuildState where
  lastVa : Nat := 0
  started : Bool := false
  curBase : Nat := 0
  regions : List (Nat × Nat) := []
  tape : List Properties_t := []
  deriving DecidableEq, Repr

/-- Modelled from the spec: the number of absent 4 KiB pages between
`last_va`'s page and the incoming leaf (§4.5 gap policy). -/
def gapCount (st : BuildState) (va : Nat) : Nat :=
  (va - (st.lastVa + 4096)) / 4096

/-- Modelled from the spec: the gap policy (§4.5): no gap before the
first leaf; otherwise append `Protection::None` fillers capped at
`MaxGapPixels`, each advancing `last_va` by 4096; when the cap is
exceeded, close the current region at the current tape length and
start a new one at the incoming leaf's `VirtualBase`. -/
def buildGap (st : BuildState) (va : Nat) : BuildState :=
  if st.started = true ∧ st.lastVa + 4096 ≠ va then
    if MaxGapPixels < gapCount st va then
      { st with tape := st.tape ++ List.replicate (min (gapCount st va) MaxGapPixels) Properties_t.None, regions := st.regions ++ [(st.curBase, st.tape.length + min (gapCount st va) MaxGapPixels)], curBase := va, lastVa := st.lastVa + 4096 * min (gapCount st va) MaxGapPixels }
    else
      { st with tape := st.tape ++ List.replicate (min (gapCount st va) MaxGapPixels) Properties_t.None, lastVa := st.lastVa + 4096 * min (gapCount st va) MaxGapPixels }
  else st

/-- Modelled from the spec: pixel expansion (§4.5): append the leaf's
protection once per pixel; `last_va` ends at the leaf's last page; the
first leaf opens the first region at its own `VirtualBase`. -/
def buildLeaf (st : BuildState) (leaf : Nat × Properties_t × Nat) : BuildState :=
  if st.started = true then
    { st with tape := st.tape ++ List.replicate leaf.2.2 leaf.2.1, lastVa := leaf.1 + 4096 * (leaf.2.2 - 1) }
  else
    { st with started := true, curBase := leaf.1, tape := st.tape ++ List.replicate leaf.2.2 leaf.2.1, lastVa := leaf.1 + 4096 * (leaf.2.2 - 1) }

/-- Modelled from the spec: one builder step on a leaf
`(VirtualBase, protection, pixels)`: gap policy, then pixel
expansion (§4.5). -/
def buildStep (st : BuildState) (leaf : Nat × Properties_t × Nat) : BuildState :=
  buildLeaf (buildGap st leaf.1) leaf

/-- Modelled from the spec: close the final region when the stream
ends (§4.5 Termination); a run that saw no leaf has no region. -/
def buildFinish (st : BuildState) : BuildState :=
  if st.started = true then
    { st with regions := st.regions ++ [(st.curBase, st.tape.length)] }
  else st

/-- Modelled from the spec: drive the whole leaf stream and close the
final region (§4.5). -/
def buildTape (leaves : List (Nat × Properties_t × Nat)) : BuildState :=
  buildFinish (leaves.foldl buildStep {})

/-- The leaf data the builder consumes from a walker entry: virtual
base, folded protection, pixel count. -/
def leafData (e : Entry) : Nat × Properties_t × Nat :=
  (e.va, PropertiesFromPtes e.pml4e e.pdpte e.pde e.pte,
    GetNumberPixels e.type)

/-- Modelled from the spec: the region chain (§3, §4.5): each region's
start is the previous region's `EndDistance` (the first region starts
at `start`) and the last `EndDistance` is `len`. -/
def regionPartition : Nat → List (Nat × Nat) → Nat → Prop
  | start, [], len => start = len
  | start, r :: rs, len => start ≤ r.2 ∧ regionPartition r.2 rs len

/-- Modelled from the spec: one line of the record body (§6): a region
header carrying a `VirtualBase`, or one protection pixel. -/
inductive RecLine where
  | header (va : Nat)
  | pixel (p : Properties_t)
  deriving DecidableEq, Repr

/-- Modelled from the spec: the record body (§6): each region's header
at its start distance, followed by that region's slice of the tape. -/
def emitBody : Nat → List (Nat × Nat) → List Properties_t → List RecLine
  | _, [], _ => []
  | start, r :: rs, tape => RecLine.header r.1 :: ((tape.take (r.2 - start)).map RecLine.pixel ++ emitBody r.2 rs (tape.drop (r.2 - start)))

/-- Modelled from the spec: the viewer's reading of the body
(src/viewer/clairvoyance.js:229-269): a header line records
`(VirtualBase, current distance)`; a pixel line appends to the tape
and advances the distance. -/
def parseBody : List RecLine → Nat → List (Nat × Nat) × List Properties_t
  | [], _ => ([], [])
  | RecLine.header vb :: rest, d => ((vb, d) :: (parseBody rest d).1, (parseBody rest d).2)
  | RecLine.pixel p :: rest, d => ((parseBody rest (d + 1)).1, p :: (parseBody rest (d + 1)).2)

/-- Each region's `VirtualBase` paired with its start distance (the
chained `EndDistance`s). -/
def regionStarts : Nat → List (Nat × Nat) → List (Nat × Nat)
  | _, [] => []
  | start, r :: rs => (r.1, start) :: regionStarts r.2 rs

/-- Modelled from the spec: hexadecimal rendering without a prefix. -/
def hexStr (n : Nat) : String := String.mk (Nat.toDigits 16 n)

/-- Modelled from the spec: one record line (§6): region headers are
`0x`-prefixed hexadecimal `VirtualBase`s; pixels are the protection's
wire ordinal in hexadecimal without prefix. -/
def lineStr : RecLine → String
  | RecLine.header vb => "0x" ++ hexStr vb
  | RecLine.pixel p => hexStr p.ord

/-- The record body, one line per `RecLine`. -/
def bodyStr : List RecLine → String
  | [] => ""
  | l :: ls => lineStr l ++ "\n" ++ bodyStr ls

/-- Modelled from the spec: the full record (§6): line 1 is
`<width> <height>` with `width = height = 2^(floor(log2 len) / 2)`,
then the interleaved headers and pixels. -/
def recordString (st : BuildState) : String :=
  Nat.repr (2 ^ (Nat.log2 st.tape.length / 2)) ++ " " ++ Nat.repr (2 ^ (Nat.log2 st.tape.length / 2)) ++ "\n" ++ bodyStr (emitBody 0 st.regions st.tape)

end clairvoyance

namespace clairvoyance

/-- The chain floor never exceeds the final length. -/
theorem regionPartition_le (rs : List (Nat × Nat)) :
    ∀ s L, regionPartition s rs L → s ≤ L := by
  induction rs with
  | nil =>
    intro s L h
    exact Nat.le_of_eq h
  | cons r rs ih =>
    intro s L h
    exact Nat.le_trans h.1 (ih r.2 L h.2)

/-- Appending a closing region `(c, L)` to a chain ending at `k ≤ L`
yields a chain ending at `L`. -/
theorem regionPartition_append (rs : List (Nat × Nat)) :
    ∀ s k L c, regionPartition s rs k → k ≤ L →
      regionPartition s (rs ++ [(c, L)]) L := by
  induction rs with
  | nil =>
    intro s k L c h hk
    exact ⟨by rw [h]; exact hk, rfl⟩
  | cons r rs ih =>
    intro s k L c h hk
    exact ⟨h.1, ih r.2 k L c h.2 hk⟩

/-- A run of pixel lines parses back to its tape slice, advancing the
distance by its length. -/
theorem parseBody_pixels (rest : List RecLine) :
    ∀ (l : List Properties_t) (d : Nat),
      parseBody (l.map RecLine.pixel ++ rest) d =
        ((parseBody rest (d + l.length)).1,
          l ++ (parseBody rest (d + l.length)).2) := by
  intro l
  induction l with
  | nil =>
    intro d
    rfl
  | cons p l ih =>
    intro d
    show ((parseBody (l.map RecLine.pixel ++ rest) (d + 1)).1,
      p :: (parseBody (l.map RecLine.pixel ++ rest) (d + 1)).2) = _
    rw [ih (d + 1)]
    have h : d + 1 + l.length = d + (p :: l).length := by
      simp only [List.length_cons]
      omega
    rw [h]
    rfl

/-- The emitted body parses back to exactly the `(regions, tape)`
pair (regions paired with their start distances) whenever the region
chain partitions the tape. -/
theorem emitBody_parse (rs : List (Nat × Nat)) :
    ∀ start tape, regionPartition start rs (start + tape.length) →
      parseBody (emitBody start rs tape) start =
        (regionStarts start rs, tape) := by
  induction rs with
  | nil =>
    intro start tape h
    have h0 : start = start + tape.length := h
    have ht : tape = [] := List.length_eq_zero.mp (by omega)
    subst ht
    rfl
  | cons r rs ih =>
    intro start tape h
    obtain ⟨h1, h2⟩ := h
    have hle : r.2 ≤ start + tape.length :=
      regionPartition_le rs r.2 (start + tape.length) h2
    have hd : start + (tape.take (r.2 - start)).length = r.2 := by
      rw [List.length_take]
      omega
    have hlen : r.2 + (tape.drop (r.2 - start)).length = start + tape.length := by
      simp only [List.length_drop]
      omega
    have h2' : regionPartition r.2 rs (r.2 + (tape.drop (r.2 - start)).length) :=
      hlen.symm ▸ h2
    have ihr := ih r.2 (tape.drop (r.2 - start)) h2'
    show ((r.1, start) :: (parseBody ((tape.take (r.2 - start)).map RecLine.pixel ++ emitBody r.2 rs (tape.drop (r.2 - start))) start).1, (parseBody ((tape.take (r.2 - start)).map RecLine.pixel ++ emitBody r.2 rs (tape.drop (r.2 - start))) start).2) = _
    rw [parseBody_pixels, hd, ihr]
    show ((r.1, start) :: regionStarts r.2 rs,
      tape.take (r.2 - start) ++ tape.drop (r.2 - start)) = _
    rw [List.take_append_drop]
    rfl

/-- Builder invariant: before the first leaf nothing has been
emitted; the closed regions always chain from 0 up to some point not
past the current tape length. -/
def buildInv (st : BuildState) : Prop :=
  (st.started = false → st.regions = [] ∧ st.tape = []) ∧
  ∃ k, regionPartition 0 st.regions k ∧ k ≤ st.tape.length

/-- The gap phase preserves the chain invariant and the started flag. -/
theorem buildGap_inv (st : BuildState) (va : Nat)
    (h : ∃ k, regionPartition 0 st.regions k ∧ k ≤ st.tape.length) :
    (buildGap st va).started = st.started ∧
    ∃ k, regionPartition 0 (buildGap st va).regions k ∧
      k ≤ (buildGap st va).tape.length := by
  obtain ⟨k, hpart, hk⟩ := h
  unfold buildGap
  by_cases h1 : st.started = true ∧ st.lastVa + 4096 ≠ va
  · rw [if_pos h1]
    by_cases h2 : MaxGapPixels < gapCount st va
    · rw [if_pos h2]
      refine ⟨rfl, st.tape.length + min (gapCount st va) MaxGapPixels, ?_, ?_⟩
      · exact regionPartition_append st.regions 0 k _ st.curBase hpart
          (by omega)
      · show st.tape.length + min (gapCount st va) MaxGapPixels ≤
          (st.tape ++ List.replicate (min (gapCount st va) MaxGapPixels) Properties_t.None).length
        rw [List.length_append, List.length_replicate]
    · rw [if_neg h2]
      refine ⟨rfl, k, hpart, ?_⟩
      show k ≤ (st.tape ++ List.replicate (min (gapCount st va) MaxGapPixels) Properties_t.None).length
      rw [List.length_append]
      omega
  · rw [if_neg h1]
    exact ⟨rfl, k, hpart, hk⟩

/-- The leaf phase starts the builder and preserves the chain
invariant (regions untouched, tape only appended to). -/
theorem buildLeaf_inv (st : BuildState) (leaf : Nat × Properties_t × Nat)
    (h : ∃ k, regionPartition 0 st.regions k ∧ k ≤ st.tape.length) :
    (buildLeaf st leaf).started = true ∧
    ∃ k, regionPartition 0 (buildLeaf st leaf).regions k ∧
      k ≤ (buildLeaf st leaf).tape.length := by
  obtain ⟨k, hpart, hk⟩ := h
  unfold buildLeaf
  by_cases h1 : st.started = true
  · rw [if_pos h1]
    refine ⟨h1, k, hpart, ?_⟩
    show k ≤ (st.tape ++ List.replicate leaf.2.2 leaf.2.1).length
    rw [List.length_append]
    omega
  · rw [if_neg h1]
    refine ⟨rfl, k, hpart, ?_⟩
    show k ≤ (st.tape ++ List.replicate leaf.2.2 leaf.2.1).length
    rw [List.length_append]
    omega

/-- The fold over the leaf stream preserves the builder invariant. -/
theorem buildFold_inv (leaves : List (Nat × Properties_t × Nat)) :
    ∀ st, buildInv st → buildInv (leaves.foldl buildStep st) := by
  induction leaves with
  | nil =>
    intro st h
    exact h
  | cons leaf leaves ih =>
    intro st h
    refine ih (buildStep st leaf) ?_
    obtain ⟨hg1, hg2⟩ := buildGap_inv st leaf.1 h.2
    obtain ⟨hl1, hl2⟩ := buildLeaf_inv (buildGap st leaf.1) leaf hg2
    refine ⟨fun hfalse => ?_, hl2⟩
    have htrue : (buildStep st leaf).started = true := hl1
    rw [hfalse] at htrue
    cases htrue

end clairvoyance

namespace clairvoyance

/-- A single normal page at virtual address 0: dir `0x1000`,
PML4[0] → PDPT[0] → PD[0] → PT[0], each entry Present|Write|User
(value `...007`), leaf PTE `0x5007`. -/
def testDumpC6 : Dump :=
  ⟨fun pa =>
    if pa = 0x1000 then some (fun i => if i = 0 then 0x2007 else 0)
    else if pa = 0x2000 then some (fun i => if i = 0 then 0x3007 else 0)
    else if pa = 0x3000 then some (fun i => if i = 0 then 0x4007 else 0)
    else if pa = 0x4000 then some (fun i => if i = 0 then 0x5007 else 0)
    else none⟩

end clairvoyance

/-- C5: after the builder finishes, the region table partitions the
tape exactly — the first region starts at distance 0, each region
starts at the previous region's `EndDistance`, and the last
`EndDistance` equals the tape length — and the emitted record body
(each region's header interleaved at its start distance) parses back
to exactly that `(regions, tape)` pair.  (The builder and emitter are
modelled from the spec; the repository only ships the viewer that
consumes this format.) -/
theorem C5_region_partition
    (leaves : List (Nat × clairvoyance.Properties_t × Nat)) :
    clairvoyance.regionPartition 0 (clairvoyance.buildTape leaves).regions
      (clairvoyance.buildTape leaves).tape.length ∧
    clairvoyance.parseBody
      (clairvoyance.emitBody 0 (clairvoyance.buildTape leaves).regions
        (clairvoyance.buildTape leaves).tape) 0 =
      (clairvoyance.regionStarts 0 (clairvoyance.buildTape leaves).regions,
        (clairvoyance.buildTape leaves).tape) := by
  have hinv := clairvoyance.buildFold_inv leaves {}
    ⟨fun _ => ⟨rfl, rfl⟩, 0, rfl, Nat.le_refl 0⟩
  obtain ⟨hns, k, hpart, hk⟩ := hinv
  have hP : clairvoyance.regionPartition 0
      (clairvoyance.buildTape leaves).regions
      (clairvoyance.buildTape leaves).tape.length := by
    unfold clairvoyance.buildTape clairvoyance.buildFinish
    by_cases hs : (leaves.foldl clairvoyance.buildStep {}).started = true
    · rw [if_pos hs]
      exact clairvoyance.regionPartition_append _ 0 k _ _ hpart hk
    · rw [if_neg hs]
      obtain ⟨hr, ht⟩ := hns (Bool.not_eq_true _ ▸ hs)
      rw [hr, ht]
      rfl
  refine ⟨hP, clairvoyance.emitBody_parse _ 0 _ ?_⟩
  rw [Nat.zero_add]
  exact hP

/-- C6: the record's first line is `<width> <height>` with
`width = height = 2^(floor(log2 tapeLength) / 2)`, and for the dump
whose only mapping is one writable user-accessible normal page at
virtual address 0 the pipeline (walker → protection fold → builder →
emitter, the last two modelled from the spec) produces the tape
`[UserReadWriteExec]`, the single region `(0, 1)`, and the record
text `1 1\n0x0\n4\n`. -/
theorem C6_record_first_line :
    (∀ st : clairvoyance.BuildState, ∃ rest,
      clairvoyance.recordString st =
        Nat.repr (2 ^ (Nat.log2 st.tape.length / 2)) ++ " " ++
        Nat.repr (2 ^ (Nat.log2 st.tape.length / 2)) ++ "\x0a" ++ rest) ∧
    (clairvoyance.walkRun clairvoyance.testDumpC6 0x1000).map
      clairvoyance.leafData =
      [(0, clairvoyance.Properties_t.UserReadWriteExec, 1)] ∧
    (clairvoyance.buildTape
      ((clairvoyance.walkRun clairvoyance.testDumpC6 0x1000).map
        clairvoyance.leafData)).tape =
      [clairvoyance.Properties_t.UserReadWriteExec] ∧
    (clairvoyance.buildTape
      ((clairvoyance.walkRun clairvoyance.testDumpC6 0x1000).map
        clairvoyance.leafData)).regions = [(0, 1)] ∧
    clairvoyance.recordString
      (clairvoyance.buildTape
        ((clairvoyance.walkRun clairvoyance.testDumpC6 0x1000).map
          clairvoyance.leafData)) = "1 1\x0a0x0\x0a4\x0a" := by
  have hmap : (clairvoyance.walkRun clairvoyance.testDumpC6 0x1000).map
      clairvoyance.leafData =
      [(0, clairvoyance.Properties_t.UserReadWriteExec, 1)] := rfl
  refine ⟨fun st => ⟨_, rfl⟩, hmap, ?_, ?_, ?_⟩
  · rw [hmap]
    decide
  · rw [hmap]
    decide
  · rw [hmap]
    unfold clairvoyance.recordString
    have h1 : (clairvoyance.buildTape
        [(0, clairvoyance.Properties_t.UserReadWriteExec, 1)]).tape.length = 1 := by
      decide
    rw [h1]
    have h2 : Nat.log2 1 = 0 := by
      simp [Nat.log2]
    rw [h2]
    decide

namespace Hilbert

/-- Two's-complement negation of a `uint32_t` (`-Xi` in the source). -/
def neg32 (x : Nat) : Nat := (2 ^ 32 - x % 2 ^ 32) % 2 ^ 32

/-- The loop of `Hilbert::DistanceFromCoordinates`
(src/unnamed/part_000:11-26): `Idx` counts down from `Order - 1` to 0;
the last argument is `Idx + 1`.  When `Yi = 0` the coordinates are
swapped and, if `Xi = 1`, complemented (`X = Y ^ (-Xi)`,
`Y = Tmp ^ (-Xi)`); each step appends the digit
`2 * Xi + (Xi ^ Yi)` to the accumulator `S` (32-bit arithmetic). -/
def dfcLoop : Nat → Nat → Nat → Nat → Nat
  | _, _, s, 0 => s
  | x, y, s, n + 1 =>
    dfcLoop
      (if (y >>> n) &&& 1 = 0 then (y ^^^ neg32 ((x >>> n) &&& 1)) % 2 ^ 32 else x)
      (if (y >>> n) &&& 1 = 0 then (x ^^^ neg32 ((x >>> n) &&& 1)) % 2 ^ 32 else y)
      ((4 * s + 2 * ((x >>> n) &&& 1) + (((x >>> n) &&& 1) ^^^ ((y >>> n) &&& 1))) % 2 ^ 32)
      n

/-- `Hilbert::DistanceFromCoordinates` (src/unnamed/part_000:11-26). -/
def DistanceFromCoordinates (x y order : Nat) : Nat :=
  dfcLoop (x % 2 ^ 32) (y % 2 ^ 32) 0 order

/-- `S = Dist | (0x55555555 << 2 * Order)`: pad the unused upper
2-bit lanes with the quadrant `01` (src/unnamed/part_000:30). -/
def padS (dist order : Nat) : Nat :=
  dist % 2 ^ 32 ||| (0x55555555 <<< (2 * order)) % 2 ^ 32

/-- `Sr = (S >> 1) & 0x55555555` (src/unnamed/part_000:31). -/
def srOf (s0 : Nat) : Nat := (s0 >>> 1) &&& 0x55555555

/-- `Cs = ((S & 0x55555555) + Sr) ^ 0x55555555`
(src/unnamed/part_000:32). -/
def csInit (s0 : Nat) : Nat :=
  (((s0 &&& 0x55555555) + srOf s0) % 2 ^ 32) ^^^ 0x55555555

/-- The four doubling steps `Cs ^= Cs >> 2; ... Cs ^= Cs >> 16`
(src/unnamed/part_000:33-36). -/
def scanCs (c : Nat) : Nat :=
  ((c ^^^ (c >>> 2)) ^^^ ((c ^^^ (c >>> 2)) >>> 4) ^^^
      (((c ^^^ (c >>> 2)) ^^^ ((c ^^^ (c >>> 2)) >>> 4)) >>> 8)) ^^^
    (((c ^^^ (c >>> 2)) ^^^ ((c ^^^ (c >>> 2)) >>> 4) ^^^
      (((c ^^^ (c >>> 2)) ^^^ ((c ^^^ (c >>> 2)) >>> 4)) >>> 8)) >>> 16)

/-- `T = (S & Swap) ^ Comp; S ^= Sr ^ T ^ (T << 1)` with
`Swap = Cs & 0x55555555`, `Comp = (Cs >> 1) & 0x55555555`
(src/unnamed/part_000:37-40). -/
def s1Of (s0 : Nat) : Nat :=
  (s0 ^^^ srOf s0 ^^^
      ((s0 &&& (scanCs (csInit s0) &&& 0x55555555)) ^^^ ((scanCs (csInit s0) >>> 1) &&& 0x55555555)) ^^^
      (((s0 &&& (scanCs (csInit s0) &&& 0x55555555)) ^^^ ((scanCs (csInit s0) >>> 1) &&& 0x55555555)) <<< 1)) % 2 ^ 32

/-- One delta-swap `T = (S ^ (S >> dl)) & m; S ^= T ^ (T << dl)` of
the unshuffle (src/unnamed/part_000:42-49). -/
def dSwap (dl m s : Nat) : Nat :=
  s ^^^ ((s ^^^ (s >>> dl)) &&& m) ^^^ (((s ^^^ (s >>> dl)) &&& m) <<< dl)

/-- The outer perfect unshuffle (src/unnamed/part_000:42-49): gather
the odd (X) bits into the upper half and the even (Y) bits into the
lower half. -/
def unshuffle (s2 : Nat) : Nat :=
  dSwap 8 0x0000FF00 (dSwap 4 0x00F000F0 (dSwap 2 0x0C0C0C0C (dSwap 1 0x22222222 s2)))

/-- `Hilbert::CoordinatesFromDistance` (src/unnamed/part_000:28-51):
pad, compute swap/comp prefixes, apply them, mask to `2 * Order`
bits, unshuffle, and split into `(S >> 16, S & 0xffff)`. -/
def CoordinatesFromDistance (dist order : Nat) : Nat × Nat :=
  (unshuffle (s1Of (padS dist order) &&& ((1 <<< (2 * order)) % 2 ^ 32 - 1)) >>> 16,
    unshuffle (s1Of (padS dist order) &&& ((1 <<< (2 * order)) % 2 ^ 32 - 1)) &&& 0xffff)

/-- Per-lane swap accumulator: fold in this lane's `w`-bit
(`not (a0 xor a1)`). -/
def swStep (d i : Nat) (sw : Bool) : Bool :=
  xor sw (not (xor (d.testBit (2 * i)) (d.testBit (2 * i + 1))))

/-- Per-lane complement accumulator: fold in this lane's `c`-bit
(`a0 and a1`). -/
def cpStep (d i : Nat) (cp : Bool) : Bool :=
  xor cp (d.testBit (2 * i) && d.testBit (2 * i + 1))

/-- Per-lane toggle `t = (a0 and swap) xor comp`, using the
accumulators up to and including this lane. -/
def laneT (d i : Nat) (sw cp : Bool) : Bool :=
  xor (d.testBit (2 * i) && swStep d i sw) (cpStep d i cp)

/-- This lane's X output bit, `a1 xor t`. -/
def xBit (d i : Nat) (sw cp : Bool) : Bool :=
  xor (d.testBit (2 * i + 1)) (laneT d i sw cp)

/-- This lane's Y output bit, `a0 xor a1 xor t`. -/
def yBit (d i : Nat) (sw cp : Bool) : Bool :=
  xor (d.testBit (2 * i)) (xBit d i sw cp)

/-- Reference decoder: process the distance's 2-bit lanes from the
most significant down, carrying the accumulated swap/complement
state; each lane emits one X bit and one Y bit. -/
def hdecLoop : Nat → Nat → Bool → Bool → Nat × Nat
  | _, 0, _, _ => (0, 0)
  | d, n + 1, sw, cp =>
    (2 ^ n * cond (xBit d n sw cp) 1 0 + (hdecLoop d n (swStep d n sw) (cpStep d n cp)).1,
      2 ^ n * cond (yBit d n sw cp) 1 0 + (hdecLoop d n (swStep d n sw) (cpStep d n cp)).2)

/-- The reference decoder at the initial (identity) transform. -/
def hdec (d n : Nat) : Nat × Nat := hdecLoop d n false false

end Hilbert

namespace Hilbert

/-- Split an XOR into its double and parity parts. -/
theorem xor_split (a b : Nat) :
    a ^^^ b = 2 ^ 1 * (a / 2 ^^^ b / 2) + (a % 2 ^^^ b % 2) := by
  have hr : (a % 2 ^^^ b % 2) < 2 ^ 1 := by
    have := Nat.xor_lt_two_pow (n := 1) (by omega : a % 2 < 2 ^ 1)
      (by omega : b % 2 < 2 ^ 1)
    omega
  apply Nat.eq_of_testBit_eq
  intro i
  rw [Nat.testBit_mul_pow_two_add _ hr]
  cases i with
  | zero =>
    simp only [Nat.zero_lt_one, if_pos]
    rw [Nat.testBit_xor, Nat.testBit_xor, Nat.testBit_zero, Nat.testBit_zero,
      Nat.testBit_zero, Nat.testBit_zero]
    have ha : a % 2 % 2 = a % 2 := Nat.mod_mod_of_dvd a (by omega)
    have hb : b % 2 % 2 = b % 2 := Nat.mod_mod_of_dvd b (by omega)
    rw [ha, hb]
  | succ i =>
    have : ¬ (i + 1 < 1) := by omega
    rw [if_neg this]
    rw [Nat.testBit_xor, Nat.testBit_xor]
    have h1 : (a / 2).testBit (i + 1 - 1) = a.testBit (i + 1) :=
      (Nat.testBit_succ a i).symm
    have h2 : (b / 2).testBit (i + 1 - 1) = b.testBit (i + 1) :=
      (Nat.testBit_succ b i).symm
    rw [h1, h2]

/-- Split an AND into its double and parity parts. -/
theorem and_split (a b : Nat) :
    a &&& b = 2 ^ 1 * (a / 2 &&& b / 2) + (a % 2 &&& b % 2) := by
  have hr : (a % 2 &&& b % 2) < 2 ^ 1 := by
    have h1 : a % 2 &&& b % 2 ≤ a % 2 := Nat.and_le_left
    omega
  apply Nat.eq_of_testBit_eq
  intro i
  rw [Nat.testBit_mul_pow_two_add _ hr]
  cases i with
  | zero =>
    simp only [Nat.zero_lt_one, if_pos]
    rw [Nat.testBit_and, Nat.testBit_and, Nat.testBit_zero, Nat.testBit_zero,
      Nat.testBit_zero, Nat.testBit_zero]
    have ha : a % 2 % 2 = a % 2 := Nat.mod_mod_of_dvd a (by omega)
    have hb : b % 2 % 2 = b % 2 := Nat.mod_mod_of_dvd b (by omega)
    rw [ha, hb]
  | succ i =>
    have : ¬ (i + 1 < 1) := by omega
    rw [if_neg this]
    rw [Nat.testBit_and, Nat.testBit_and]
    have h1 : (a / 2).testBit (i + 1 - 1) = a.testBit (i + 1) :=
      (Nat.testBit_succ a i).symm
    have h2 : (b / 2).testBit (i + 1 - 1) = b.testBit (i + 1) :=
      (Nat.testBit_succ b i).symm
    rw [h1, h2]

/-- Binary addition as XOR plus shifted carries. -/
theorem add_eq_xor_add_two_and (a : Nat) :
    ∀ b, a + b = (a ^^^ b) + 2 * (a &&& b) := by
  induction a using Nat.div2Induction with
  | ind a ih =>
    intro b
    rcases Nat.eq_zero_or_pos a with ha | ha
    · subst ha
      simp
    · have hx := xor_split a b
      have hn := and_split a b
      have hih := ih ha (b / 2)
      have h2 : a % 2 + b % 2 = (a % 2 ^^^ b % 2) + 2 * (a % 2 &&& b % 2) := by
        have ha2 : a % 2 = 0 ∨ a % 2 = 1 := by omega
        have hb2 : b % 2 = 0 ∨ b % 2 = 1 := by omega
        rcases ha2 with h | h <;> rcases hb2 with h' | h' <;> rw [h, h'] <;> rfl
      omega

/-- Carry-free addition is XOR. -/
theorem add_eq_xor_of_and_eq_zero (a b : Nat) (h : a &&& b = 0) :
    a + b = a ^^^ b := by
  have := add_eq_xor_add_two_and a b
  omega

/-- The even-position mask `0x55555555`, bit by bit. -/
theorem m5_testBit (k : Nat) :
    (0x55555555 : Nat).testBit k = (decide (k < 32) && decide (k % 2 = 0)) := by
  by_cases h : k < 32
  · have hd : ∀ j, j < 32 →
        (0x55555555 : Nat).testBit j = (decide (j < 32) && decide (j % 2 = 0)) := by
      decide
    exact hd k h
  · have hlt : (0x55555555 : Nat) < 2 ^ k := by
      have h32 : (0x55555555 : Nat) < 2 ^ 32 := by norm_num
      have hle : (2 : Nat) ^ 32 ≤ 2 ^ k :=
        Nat.pow_le_pow_right (by norm_num) (by omega)
      omega
    rw [Nat.testBit_lt_two_pow hlt]
    simp [h]

end Hilbert

namespace Hilbert

/-- Bits at or above 32 of a 32-bit value are clear. -/
theorem testBit_ge_32 {v : Nat} (hv : v < 2 ^ 32) {k : Nat} (hk : 32 ≤ k) :
    v.testBit k = false :=
  Nat.testBit_lt_two_pow
    (lt_of_lt_of_le hv (Nat.pow_le_pow_right (by norm_num) hk))

/-- XOR-fold of `f` over the index interval `[i, i + m)`. -/
def bAcc (f : Nat → Bool) (i : Nat) : Nat → Bool
  | 0 => false
  | m + 1 => xor (f (i + m)) (bAcc f i m)

/-- Splitting an XOR-fold. -/
theorem bAcc_append (f : Nat → Bool) (i m n : Nat) :
    bAcc f i (m + n) = xor (bAcc f (i + m) n) (bAcc f i m) := by
  induction n with
  | zero =>
    show bAcc f i m = xor false (bAcc f i m)
    rw [Bool.false_xor]
  | succ n ih =>
    show xor (f (i + (m + n))) (bAcc f i (m + n)) = _
    rw [ih]
    show _ = xor (xor (f (i + m + n)) (bAcc f (i + m) n)) (bAcc f i m)
    have e : i + (m + n) = i + m + n := by omega
    rw [e, Bool.xor_assoc]

/-- Re-basing an XOR-fold. -/
theorem bAcc_shift (f : Nat → Bool) (i s : Nat) :
    ∀ m, bAcc f (i + s) m = bAcc (fun t => f (t + s)) i m := by
  intro m
  induction m with
  | zero => rfl
  | succ m ih =>
    show xor (f (i + s + m)) (bAcc f (i + s) m) = xor (f (i + m + s)) _
    rw [ih]
    have e : i + s + m = i + m + s := by omega
    rw [e]

/-- Pointwise-equal functions have equal XOR-folds. -/
theorem bAcc_congr (f g : Nat → Bool) (i : Nat) :
    ∀ m, (∀ t, i ≤ t → t < i + m → f t = g t) → bAcc f i m = bAcc g i m := by
  intro m
  induction m with
  | zero => intro _; rfl
  | succ m ih =>
    intro h
    show xor (f (i + m)) (bAcc f i m) = xor (g (i + m)) (bAcc g i m)
    rw [h (i + m) (by omega) (by omega), ih (fun t ht ht' => h t ht (by omega))]

/-- An XOR-fold of clear bits is clear. -/
theorem bAcc_false (f : Nat → Bool) (i : Nat) :
    ∀ m, (∀ t, i ≤ t → t < i + m → f t = false) → bAcc f i m = false := by
  intro m
  induction m with
  | zero => intro _; rfl
  | succ m ih =>
    intro h
    show xor (f (i + m)) (bAcc f i m) = false
    rw [h (i + m) (by omega) (by omega), ih (fun t ht ht' => h t ht (by omega))]
    rfl

/-- Odd bits of an `0x55555555`-masked value are clear. -/
theorem andm5_testBit_odd (v k : Nat) (hk : k % 2 = 1) :
    (v &&& 0x55555555).testBit k = false := by
  rw [Nat.testBit_and, m5_testBit]
  have h : ¬ (k % 2 = 0) := by omega
  simp [h]

/-- The lane-local adder `(S & 0x55555555) + Sr` never carries across
lanes: it is the lane XOR at even bits plus the lane AND at odd bits. -/
theorem sum_eq_xor (s0 : Nat) :
    ((s0 &&& 0x55555555) + srOf s0) % 2 ^ 32 =
      ((s0 &&& 0x55555555) ^^^ srOf s0) ^^^
        (((s0 &&& 0x55555555) &&& srOf s0) <<< 1) := by
  have hA : s0 &&& 0x55555555 ≤ 0x55555555 := Nat.and_le_right
  have hSr : srOf s0 ≤ 0x55555555 := Nat.and_le_right
  have hlt : (s0 &&& 0x55555555) + srOf s0 < 2 ^ 32 := by
    norm_num at hA hSr ⊢
    omega
  rw [Nat.mod_eq_of_lt hlt]
  have hzero : ((s0 &&& 0x55555555) ^^^ srOf s0) &&&
      (((s0 &&& 0x55555555) &&& srOf s0) <<< 1) = 0 := by
    apply Nat.eq_of_testBit_eq
    intro k
    rw [Nat.testBit_and, Nat.zero_testBit]
    by_cases hk : k % 2 = 1
    · rw [Nat.testBit_xor, andm5_testBit_odd s0 k hk]
      have h2 : (srOf s0).testBit k = false := andm5_testBit_odd (s0 >>> 1) k hk
      rw [h2]
      rfl
    · rcases Nat.eq_zero_or_pos k with hk0 | hk0
      · subst hk0
        rw [Nat.testBit_shiftLeft]
        simp
      · rw [Nat.testBit_shiftLeft]
        have h3 : ((s0 &&& 0x55555555) &&& srOf s0).testBit (k - 1) = false := by
          rw [Nat.testBit_and, andm5_testBit_odd s0 (k - 1) (by omega)]
          rfl
        rw [h3]
        simp
  have h1 := add_eq_xor_add_two_and (s0 &&& 0x55555555) (srOf s0)
  have h2 := add_eq_xor_of_and_eq_zero ((s0 &&& 0x55555555) ^^^ srOf s0)
    (((s0 &&& 0x55555555) &&& srOf s0) <<< 1) hzero
  have hshift : ((s0 &&& 0x55555555) &&& srOf s0) <<< 1 =
      2 * ((s0 &&& 0x55555555) &&& srOf s0) := by
    rw [Nat.shiftLeft_eq]
    ring
  omega

/-- Even bits of `Cs` before the scan: the lane's `w`-bit
`not (a0 xor a1)`. -/
theorem csInit_testBit_even (s0 i : Nat) (hi : i < 16) :
    (csInit s0).testBit (2 * i) =
      not (xor (s0.testBit (2 * i)) (s0.testBit (2 * i + 1))) := by
  have h32 : 2 * i < 32 := by omega
  have hm5 : (0x55555555 : Nat).testBit (2 * i) = true := by
    rw [m5_testBit]
    simp [h32, Nat.mul_mod_right]
  have hA : (s0 &&& 0x55555555).testBit (2 * i) = s0.testBit (2 * i) := by
    rw [Nat.testBit_and, hm5, Bool.and_true]
  have hSr : (srOf s0).testBit (2 * i) = s0.testBit (2 * i + 1) := by
    rw [srOf, Nat.testBit_and, hm5, Bool.and_true, Nat.testBit_shiftRight]
    congr 1
    omega
  have hsh : ((((s0 &&& 0x55555555) &&& srOf s0)) <<< 1).testBit (2 * i) = false := by
    rw [Nat.testBit_shiftLeft]
    rcases Nat.eq_zero_or_pos i with h0 | h0
    · subst h0
      simp
    · have hodd : (2 * i - 1) % 2 = 1 := by omega
      rw [Nat.testBit_and, andm5_testBit_odd s0 _ hodd]
      simp
  simp only [csInit]
  rw [sum_eq_xor, Nat.testBit_xor, Nat.testBit_xor, Nat.testBit_xor, hA, hSr,
    hsh, hm5]
  cases s0.testBit (2 * i) <;> cases s0.testBit (2 * i + 1) <;> rfl

/-- Odd bits of `Cs` before the scan: the lane's `c`-bit `a0 and a1`. -/
theorem csInit_testBit_odd (s0 i : Nat) (hi : i < 16) :
    (csInit s0).testBit (2 * i + 1) =
      (s0.testBit (2 * i) && s0.testBit (2 * i + 1)) := by
  have h32 : 2 * i < 32 := by omega
  have hodd : (2 * i + 1) % 2 = 1 := by omega
  have hm5 : (0x55555555 : Nat).testBit (2 * i) = true := by
    rw [m5_testBit]
    simp [h32, Nat.mul_mod_right]
  have hm5o : (0x55555555 : Nat).testBit (2 * i + 1) = false := by
    rw [m5_testBit]
    simp [hodd]
  have hA : (s0 &&& 0x55555555).testBit (2 * i + 1) = false :=
    andm5_testBit_odd s0 _ hodd
  have hSr : (srOf s0).testBit (2 * i + 1) = false :=
    andm5_testBit_odd (s0 >>> 1) _ hodd
  have hsh : ((((s0 &&& 0x55555555) &&& srOf s0)) <<< 1).testBit (2 * i + 1) =
      (s0.testBit (2 * i) && s0.testBit (2 * i + 1)) := by
    rw [Nat.testBit_shiftLeft]
    have he : 2 * i + 1 - 1 = 2 * i := by omega
    have hd : decide (2 * i + 1 ≥ 1) = true := by simp
    rw [hd, Bool.true_and, he, Nat.testBit_and, Nat.testBit_and, hm5,
      Bool.and_true, srOf, Nat.testBit_and, hm5, Bool.and_true,
      Nat.testBit_shiftRight]
    congr 2
    omega
  simp only [csInit]
  rw [sum_eq_xor, Nat.testBit_xor, Nat.testBit_xor, Nat.testBit_xor, hA, hSr,
    hsh, hm5o]
  cases s0.testBit (2 * i) <;> cases s0.testBit (2 * i + 1) <;> rfl

/-- `Cs` is a 32-bit value. -/
theorem csInit_lt (s0 : Nat) : csInit s0 < 2 ^ 32 := by
  have h1 : ((s0 &&& 0x55555555) + srOf s0) % 2 ^ 32 < 2 ^ 32 :=
    Nat.mod_lt _ (by norm_num)
  exact Nat.xor_lt_two_pow h1 (by norm_num)

end Hilbert

namespace Hilbert

/-- One doubling step of the suffix scan: if `v`'s bits are the
XOR-fold of `m` lanes of `c`, then `v ^^^ (v >>> s)` with `s = 2 * m`
folds `2 * m` lanes. -/
theorem doubling (c v m s : Nat) (hs : s = 2 * m)
    (h : ∀ j, v.testBit j = bAcc (fun t => c.testBit (j + 2 * t)) 0 m)
    (j : Nat) :
    (v ^^^ (v >>> s)).testBit j =
      bAcc (fun t => c.testBit (j + 2 * t)) 0 (m + m) := by
  subst hs
  rw [Nat.testBit_xor, Nat.testBit_shiftRight, h j, h (2 * m + j),
    bAcc_append _ 0 m m]
  have e : bAcc (fun t => c.testBit (j + 2 * t)) (0 + m) m =
      bAcc (fun t => c.testBit (2 * m + j + 2 * t)) 0 m := by
    rw [bAcc_shift]
    apply bAcc_congr
    intro t _ _
    congr 1
    omega
  rw [e, Bool.xor_comm]

/-- The scanned `Cs`: every bit is the XOR-fold of its own and the 15
higher lanes. -/
theorem scanCs_testBit (c j : Nat) :
    (scanCs c).testBit j = bAcc (fun t => c.testBit (j + 2 * t)) 0 16 := by
  have h1 : ∀ j, c.testBit j = bAcc (fun t => c.testBit (j + 2 * t)) 0 1 := by
    intro j
    show _ = xor (c.testBit (j + 2 * 0)) false
    rw [Bool.xor_false]
    norm_num
  have h2 := doubling c c 1 2 (by norm_num) h1
  have h4 := doubling c (c ^^^ (c >>> 2)) 2 4 (by norm_num) h2
  have h8 := doubling c ((c ^^^ (c >>> 2)) ^^^ ((c ^^^ (c >>> 2)) >>> 4)) 4 8
    (by norm_num) h4
  have h16 := doubling c (((c ^^^ (c >>> 2)) ^^^ ((c ^^^ (c >>> 2)) >>> 4)) ^^^
    ((((c ^^^ (c >>> 2)) ^^^ ((c ^^^ (c >>> 2)) >>> 4))) >>> 8)) 8 16
    (by norm_num) h8
  exact h16 j

end Hilbert

namespace Hilbert

/-- Lane `j`'s swap source bit of a distance: `not (a0 xor a1)`. -/
def wD (d j : Nat) : Bool :=
  not (xor (d.testBit (2 * j)) (d.testBit (2 * j + 1)))

/-- Lane `j`'s complement source bit of a distance: `a0 and a1`. -/
def cD (d j : Nat) : Bool := d.testBit (2 * j) && d.testBit (2 * j + 1)

/-- The decoder's coordinates are `n`-bit values. -/
theorem hdecLoop_lt (d : Nat) :
    ∀ n sw cp, (hdecLoop d n sw cp).1 < 2 ^ n ∧ (hdecLoop d n sw cp).2 < 2 ^ n := by
  intro n
  induction n with
  | zero =>
    intro sw cp
    exact ⟨Nat.zero_lt_one, Nat.zero_lt_one⟩
  | succ n ih =>
    intro sw cp
    obtain ⟨h1, h2⟩ := ih (swStep d n sw) (cpStep d n cp)
    constructor
    · show 2 ^ n * cond (xBit d n sw cp) 1 0 +
        (hdecLoop d n (swStep d n sw) (cpStep d n cp)).1 < 2 ^ (n + 1)
      have hc : cond (xBit d n sw cp) 1 0 ≤ 1 := by
        cases xBit d n sw cp <;> simp
      have hp : (2:Nat) ^ (n + 1) = 2 ^ n * 2 := by ring
      have hm : 2 ^ n * cond (xBit d n sw cp) 1 0 ≤ 2 ^ n :=
        le_trans (Nat.mul_le_mul_left _ hc) (by omega)
      omega
    · show 2 ^ n * cond (yBit d n sw cp) 1 0 +
        (hdecLoop d n (swStep d n sw) (cpStep d n cp)).2 < 2 ^ (n + 1)
      have hc : cond (yBit d n sw cp) 1 0 ≤ 1 := by
        cases yBit d n sw cp <;> simp
      have hp : (2:Nat) ^ (n + 1) = 2 ^ n * 2 := by ring
      have hm : 2 ^ n * cond (yBit d n sw cp) 1 0 ≤ 2 ^ n :=
        le_trans (Nat.mul_le_mul_left _ hc) (by omega)
      omega

/-- X bits of the decoder: lane formula with the suffix-accumulated
swap/complement state. -/
theorem hdecLoop_testBit_x (d : Nat) :
    ∀ n sw cp i, (hdecLoop d n sw cp).1.testBit i =
      if i < n then
        xor (d.testBit (2 * i + 1))
          (xor (d.testBit (2 * i) && xor sw (bAcc (wD d) i (n - i)))
            (xor cp (bAcc (cD d) i (n - i))))
      else false := by
  intro n
  induction n with
  | zero =>
    intro sw cp i
    rw [if_neg (by omega)]
    exact Nat.zero_testBit i
  | succ n ih =>
    intro sw cp i
    have hlt := (hdecLoop_lt d n (swStep d n sw) (cpStep d n cp)).1
    show (2 ^ n * cond (xBit d n sw cp) 1 0 +
      (hdecLoop d n (swStep d n sw) (cpStep d n cp)).1).testBit i = _
    rw [Nat.testBit_mul_pow_two_add _ hlt]
    rcases Nat.lt_trichotomy i n with hin | hin | hin
    · rw [if_pos hin, ih (swStep d n sw) (cpStep d n cp) i, if_pos hin,
        if_pos (by omega)]
      have hw : bAcc (wD d) i (n + 1 - i) =
          xor (wD d n) (bAcc (wD d) i (n - i)) := by
        have he : n + 1 - i = (n - i) + 1 := by omega
        rw [he]
        show xor (wD d (i + (n - i))) _ = _
        have he2 : i + (n - i) = n := by omega
        rw [he2]
      have hc : bAcc (cD d) i (n + 1 - i) =
          xor (cD d n) (bAcc (cD d) i (n - i)) := by
        have he : n + 1 - i = (n - i) + 1 := by omega
        rw [he]
        show xor (cD d (i + (n - i))) _ = _
        have he2 : i + (n - i) = n := by omega
        rw [he2]
      rw [hw, hc]
      show xor _ (xor (_ && xor (xor sw (wD d n)) _) (xor (xor cp (cD d n)) _)) = _
      rw [Bool.xor_assoc sw (wD d n) (bAcc (wD d) i (n - i)),
        Bool.xor_assoc cp (cD d n) (bAcc (cD d) i (n - i))]
    · subst hin
      rw [if_neg (by omega), Nat.sub_self, if_pos (by omega)]
      have hbit : (cond (xBit d i sw cp) 1 0).testBit 0 = xBit d i sw cp := by
        cases xBit d i sw cp <;> rfl
      rw [hbit]
      have he : i + 1 - i = 1 := by omega
      rw [he]
      show xBit d i sw cp = xor _ (xor (_ && xor sw (xor (wD d (i + 0)) false))
        (xor cp (xor (cD d (i + 0)) false)))
      rw [Nat.add_zero, Bool.xor_false, Bool.xor_false]
      rfl
    · rw [if_neg (by omega), if_neg (by omega)]
      have h2 : cond (xBit d n sw cp) 1 0 < 2 ^ (i - n) := by
        have : (2:Nat) ^ (i - n) ≥ 2 := by
          have h1n : 1 ≤ i - n := by omega
          calc (2:Nat) ≤ 2 ^ 1 := by norm_num
          _ ≤ 2 ^ (i - n) := Nat.pow_le_pow_right (by norm_num) h1n
        cases xBit d n sw cp <;> simp <;> omega
      exact Nat.testBit_lt_two_pow h2

/-- Y bits of the decoder: lane formula with the suffix-accumulated
swap/complement state. -/
theorem hdecLoop_testBit_y (d : Nat) :
    ∀ n sw cp i, (hdecLoop d n sw cp).2.testBit i =
      if i < n then
        xor (d.testBit (2 * i))
          (xor (d.testBit (2 * i + 1))
            (xor (d.testBit (2 * i) && xor sw (bAcc (wD d) i (n - i)))
              (xor cp (bAcc (cD d) i (n - i)))))
      else false := by
  intro n
  induction n with
  | zero =>
    intro sw cp i
    rw [if_neg (by omega)]
    exact Nat.zero_testBit i
  | succ n ih =>
    intro sw cp i
    have hlt := (hdecLoop_lt d n (swStep d n sw) (cpStep d n cp)).2
    show (2 ^ n * cond (yBit d n sw cp) 1 0 +
      (hdecLoop d n (swStep d n sw) (cpStep d n cp)).2).testBit i = _
    rw [Nat.testBit_mul_pow_two_add _ hlt]
    rcases Nat.lt_trichotomy i n with hin | hin | hin
    · rw [if_pos hin, ih (swStep d n sw) (cpStep d n cp) i, if_pos hin,
        if_pos (by omega)]
      have hw : bAcc (wD d) i (n + 1 - i) =
          xor (wD d n) (bAcc (wD d) i (n - i)) := by
        have he : n + 1 - i = (n - i) + 1 := by omega
        rw [he]
        show xor (wD d (i + (n - i))) _ = _
        have he2 : i + (n - i) = n := by omega
        rw [he2]
      have hc : bAcc (cD d) i (n + 1 - i) =
          xor (cD d n) (bAcc (cD d) i (n - i)) := by
        have he : n + 1 - i = (n - i) + 1 := by omega
        rw [he]
        show xor (cD d (i + (n - i))) _ = _
        have he2 : i + (n - i) = n := by omega
        rw [he2]
      rw [hw, hc]
      show xor _ (xor _ (xor (_ && xor (xor sw (wD d n)) _)
        (xor (xor cp (cD d n)) _))) = _
      rw [Bool.xor_assoc sw (wD d n) (bAcc (wD d) i (n - i)),
        Bool.xor_assoc cp (cD d n) (bAcc (cD d) i (n - i))]
    · subst hin
      rw [if_neg (by omega), Nat.sub_self, if_pos (by omega)]
      have hbit : (cond (yBit d i sw cp) 1 0).testBit 0 = yBit d i sw cp := by
        cases yBit d i sw cp <;> rfl
      rw [hbit]
      have he : i + 1 - i = 1 := by omega
      rw [he]
      show yBit d i sw cp = xor _ (xor _ (xor (_ && xor sw (xor (wD d (i + 0)) false))
        (xor cp (xor (cD d (i + 0)) false))))
      rw [Nat.add_zero, Bool.xor_false, Bool.xor_false]
      rfl
    · rw [if_neg (by omega), if_neg (by omega)]
      have h2 : cond (yBit d n sw cp) 1 0 < 2 ^ (i - n) := by
        have : (2:Nat) ^ (i - n) ≥ 2 := by
          have h1n : 1 ≤ i - n := by omega
          calc (2:Nat) ≤ 2 ^ 1 := by norm_num
          _ ≤ 2 ^ (i - n) := Nat.pow_le_pow_right (by norm_num) h1n
        cases yBit d n sw cp <;> simp <;> omega
      exact Nat.testBit_lt_two_pow h2

end Hilbert

namespace Hilbert

/-- A delta-swap moves bit `k + dl` down to a mask position `k`. -/
theorem dSwap_tb_hi (dl m s k k' : Nat) (he : k' = k + dl)
    (hM : m.testBit k = true)
    (hM2 : m.testBit (k - dl) = false ∨ k < dl) :
    (dSwap dl m s).testBit k = s.testBit k' := by
  subst he
  simp only [dSwap]
  rw [Nat.testBit_xor, Nat.testBit_xor, Nat.testBit_and, Nat.testBit_xor,
    Nat.testBit_shiftRight, Nat.testBit_shiftLeft, Nat.testBit_and,
    Nat.testBit_xor, Nat.testBit_shiftRight, hM]
  have hcomm : dl + k = k + dl := by omega
  rw [hcomm]
  rcases hM2 with h | h
  · rw [h]
    cases s.testBit k <;> cases s.testBit (k + dl) <;> simp
  · have hd : decide (k ≥ dl) = false := by simp; omega
    rw [hd]
    cases s.testBit k <;> cases s.testBit (k + dl) <;> simp

/-- A delta-swap moves bit `k - dl` up to a position `k` above the
mask. -/
theorem dSwap_tb_lo (dl m s k k' : Nat) (he : k' = k - dl) (hk : dl ≤ k)
    (hM : m.testBit k = false) (hM2 : m.testBit (k - dl) = true) :
    (dSwap dl m s).testBit k = s.testBit k' := by
  subst he
  simp only [dSwap]
  rw [Nat.testBit_xor, Nat.testBit_xor, Nat.testBit_and, Nat.testBit_xor,
    Nat.testBit_shiftRight, Nat.testBit_shiftLeft, Nat.testBit_and,
    Nat.testBit_xor, Nat.testBit_shiftRight, hM, hM2]
  have hd : decide (k ≥ dl) = true := by simp; omega
  have he2 : dl + (k - dl) = k := by omega
  rw [hd, he2]
  cases s.testBit k <;> cases s.testBit (k - dl) <;> simp

/-- A delta-swap leaves positions outside the mask and its shift
unchanged. -/
theorem dSwap_tb_id (dl m s k : Nat) (hM : m.testBit k = false)
    (hM2 : m.testBit (k - dl) = false ∨ k < dl) :
    (dSwap dl m s).testBit k = s.testBit k := by
  simp only [dSwap]
  rw [Nat.testBit_xor, Nat.testBit_xor, Nat.testBit_and, Nat.testBit_xor,
    Nat.testBit_shiftRight, Nat.testBit_shiftLeft, Nat.testBit_and,
    Nat.testBit_xor, Nat.testBit_shiftRight, hM]
  rcases hM2 with h | h
  · rw [h]
    cases s.testBit k <;> simp
  · have hd : decide (k ≥ dl) = false := by simp; omega
    rw [hd]
    cases s.testBit k <;> simp

end Hilbert

namespace Hilbert

/-- The unshuffle's low half gathers the even source bits. -/
theorem unshuffle_tb_lo (s2 p : Nat) (hp : p < 16) :
    (unshuffle s2).testBit p = s2.testBit (2 * p) := by
  simp only [unshuffle]
  interval_cases p
  ·
    rw [dSwap_tb_id 8 0x0000FF00 _ 0 (by decide) (Or.inr (by norm_num)),
      dSwap_tb_id 4 0x00F000F0 _ 0 (by decide) (Or.inr (by norm_num)),
      dSwap_tb_id 2 0x0C0C0C0C _ 0 (by decide) (Or.inr (by norm_num)),
      dSwap_tb_id 1 0x22222222 _ 0 (by decide) (Or.inr (by norm_num))]
    try norm_num
  ·
    rw [dSwap_tb_id 8 0x0000FF00 _ 1 (by decide) (Or.inr (by norm_num)),
      dSwap_tb_id 4 0x00F000F0 _ 1 (by decide) (Or.inr (by norm_num)),
      dSwap_tb_id 2 0x0C0C0C0C _ 1 (by decide) (Or.inr (by norm_num)),
      dSwap_tb_hi 1 0x22222222 _ 1 2 (by norm_num) (by decide) (Or.inl (by decide))]
    try norm_num
  ·
    rw [dSwap_tb_id 8 0x0000FF00 _ 2 (by decide) (Or.inr (by norm_num)),
      dSwap_tb_id 4 0x00F000F0 _ 2 (by decide) (Or.inr (by norm_num)),
      dSwap_tb_hi 2 0x0C0C0C0C _ 2 4 (by norm_num) (by decide) (Or.inl (by decide)),
      dSwap_tb_id 1 0x22222222 _ 4 (by decide) (Or.inl (by decide))]
    try norm_num
  ·
    rw [dSwap_tb_id 8 0x0000FF00 _ 3 (by decide) (Or.inr (by norm_num)),
      dSwap_tb_id 4 0x00F000F0 _ 3 (by decide) (Or.inr (by norm_num)),
      dSwap_tb_hi 2 0x0C0C0C0C _ 3 5 (by norm_num) (by decide) (Or.inl (by decide)),
      dSwap_tb_hi 1 0x22222222 _ 5 6 (by norm_num) (by decide) (Or.inl (by decide))]
    try norm_num
  ·
    rw [dSwap_tb_id 8 0x0000FF00 _ 4 (by decide) (Or.inr (by norm_num)),
      dSwap_tb_hi 4 0x00F000F0 _ 4 8 (by norm_num) (by decide) (Or.inl (by decide)),
      dSwap_tb_id 2 0x0C0C0C0C _ 8 (by decide) (Or.inl (by decide)),
      dSwap_tb_id 1 0x22222222 _ 8 (by decide) (Or.inl (by decide))]
    try norm_num
  ·
    rw [dSwap_tb_id 8 0x0000FF00 _ 5 (by decide) (Or.inr (by norm_num)),
      dSwap_tb_hi 4 0x00F000F0 _ 5 9 (by norm_num) (by decide) (Or.inl (by decide)),
      dSwap_tb_id 2 0x0C0C0C0C _ 9 (by decide) (Or.inl (by decide)),
      dSwap_tb_hi 1 0x22222222 _ 9 10 (by norm_num) (by decide) (Or.inl (by decide))]
    try norm_num
  ·
    rw [dSwap_tb_id 8 0x0000FF00 _ 6 (by decide) (Or.inr (by norm_num)),
      dSwap_tb_hi 4 0x00F000F0 _ 6 10 (by norm_num) (by decide) (Or.inl (by decide)),
      dSwap_tb_hi 2 0x0C0C0C0C _ 10 12 (by norm_num) (by decide) (Or.inl (by decide)),
      dSwap_tb_id 1 0x22222222 _ 12 (by decide) (Or.inl (by decide))]
    try norm_num
  ·
    rw [dSwap_tb_id 8 0x0000FF00 _ 7 (by decide) (Or.inr (by norm_num)),
      dSwap_tb_hi 4 0x00F000F0 _ 7 11 (by norm_num) (by decide) (Or.inl (by decide)),
      dSwap_tb_hi 2 0x0C0C0C0C _ 11 13 (by norm_num) (by decide) (Or.inl (by decide)),
      dSwap_tb_hi 1 0x22222222 _ 13 14 (by norm_num) (by decide) (Or.inl (by decide))]
    try norm_num
  ·
    rw [dSwap_tb_hi 8 0x0000FF00 _ 8 16 (by norm_num) (by decide) (Or.inl (by decide)),
      dSwap_tb_id 4 0x00F000F0 _ 16 (by decide) (Or.inl (by decide)),
      dSwap_tb_id 2 0x0C0C0C0C _ 16 (by decide) (Or.inl (by decide)),
      dSwap_tb_id 1 0x22222222 _ 16 (by decide) (Or.inl (by decide))]
    try norm_num
  ·
    rw [dSwap_tb_hi 8 0x0000FF00 _ 9 17 (by norm_num) (by decide) (Or.inl (by decide)),
      dSwap_tb_id 4 0x00F000F0 _ 17 (by decide) (Or.inl (by decide)),
      dSwap_tb_id 2 0x0C0C0C0C _ 17 (by decide) (Or.inl (by decide)),
      dSwap_tb_hi 1 0x22222222 _ 17 18 (by norm_num) (by decide) (Or.inl (by decide))]
    try norm_num
  ·
    rw [dSwap_tb_hi 8 0x0000FF00 _ 10 18 (by norm_num) (by decide) (Or.inl (by decide)),
      dSwap_tb_id 4 0x00F000F0 _ 18 (by decide) (Or.inl (by decide)),
      dSwap_tb_hi 2 0x0C0C0C0C _ 18 20 (by norm_num) (by decide) (Or.inl (by decide)),
      dSwap_tb_id 1 0x22222222 _ 20 (by decide) (Or.inl (by decide))]
    try norm_num
  ·
    rw [dSwap_tb_hi 8 0x0000FF00 _ 11 19 (by norm_num) (by decide) (Or.inl (by decide)),
      dSwap_tb_id 4 0x00F000F0 _ 19 (by decide) (Or.inl (by decide)),
      dSwap_tb_hi 2 0x0C0C0C0C _ 19 21 (by norm_num) (by decide) (Or.inl (by decide)),
      dSwap_tb_hi 1 0x22222222 _ 21 22 (by norm_num) (by decide) (Or.inl (by decide))]
    try norm_num
  ·
    rw [dSwap_tb_hi 8 0x0000FF00 _ 12 20 (by norm_num) (by decide) (Or.inl (by decide)),
      dSwap_tb_hi 4 0x00F000F0 _ 20 24 (by norm_num) (by decide) (Or.inl (by decide)),
      dSwap_tb_id 2 0x0C0C0C0C _ 24 (by decide) (Or.inl (by decide)),
      dSwap_tb_id 1 0x22222222 _ 24 (by decide) (Or.inl (by decide))]
    try norm_num
  ·
    rw [dSwap_tb_hi 8 0x0000FF00 _ 13 21 (by norm_num) (by decide) (Or.inl (by decide)),
      dSwap_tb_hi 4 0x00F000F0 _ 21 25 (by norm_num) (by decide) (Or.inl (by decide)),
      dSwap_tb_id 2 0x0C0C0C0C _ 25 (by decide) (Or.inl (by decide)),
      dSwap_tb_hi 1 0x22222222 _ 25 26 (by norm_num) (by decide) (Or.inl (by decide))]
    try norm_num
  ·
    rw [dSwap_tb_hi 8 0x0000FF00 _ 14 22 (by norm_num) (by decide) (Or.inl (by decide)),
      dSwap_tb_hi 4 0x00F000F0 _ 22 26 (by norm_num) (by decide) (Or.inl (by decide)),
      dSwap_tb_hi 2 0x0C0C0C0C _ 26 28 (by norm_num) (by decide) (Or.inl (by decide)),
      dSwap_tb_id 1 0x22222222 _ 28 (by decide) (Or.inl (by decide))]
    try norm_num
  ·
    rw [dSwap_tb_hi 8 0x0000FF00 _ 15 23 (by norm_num) (by decide) (Or.inl (by decide)),
      dSwap_tb_hi 4 0x00F000F0 _ 23 27 (by norm_num) (by decide) (Or.inl (by decide)),
      dSwap_tb_hi 2 0x0C0C0C0C _ 27 29 (by norm_num) (by decide) (Or.inl (by decide)),
      dSwap_tb_hi 1 0x22222222 _ 29 30 (by norm_num) (by decide) (Or.inl (by decide))]
    try norm_num

/-- The unshuffle's high half gathers the odd source bits. -/
theorem unshuffle_tb_hi (s2 p : Nat) (hp : p < 16) :
    (unshuffle s2).testBit (16 + p) = s2.testBit (2 * p + 1) := by
  simp only [unshuffle]
  interval_cases p
  ·
    rw [show (16:Nat) + 0 = 16 from by norm_num]
    rw [dSwap_tb_lo 8 0x0000FF00 _ 16 8 (by norm_num) (by norm_num) (by decide) (by decide),
      dSwap_tb_lo 4 0x00F000F0 _ 8 4 (by norm_num) (by norm_num) (by decide) (by decide),
      dSwap_tb_lo 2 0x0C0C0C0C _ 4 2 (by norm_num) (by norm_num) (by decide) (by decide),
      dSwap_tb_lo 1 0x22222222 _ 2 1 (by norm_num) (by norm_num) (by decide) (by decide)]
    try norm_num
  ·
    rw [show (16:Nat) + 1 = 17 from by norm_num]
    rw [dSwap_tb_lo 8 0x0000FF00 _ 17 9 (by norm_num) (by norm_num) (by decide) (by decide),
      dSwap_tb_lo 4 0x00F000F0 _ 9 5 (by norm_num) (by norm_num) (by decide) (by decide),
      dSwap_tb_lo 2 0x0C0C0C0C _ 5 3 (by norm_num) (by norm_num) (by decide) (by decide),
      dSwap_tb_id 1 0x22222222 _ 3 (by decide) (Or.inl (by decide))]
    try norm_num
  ·
    rw [show (16:Nat) + 2 = 18 from by norm_num]
    rw [dSwap_tb_lo 8 0x0000FF00 _ 18 10 (by norm_num) (by norm_num) (by decide) (by decide),
      dSwap_tb_lo 4 0x00F000F0 _ 10 6 (by norm_num) (by norm_num) (by decide) (by decide),
      dSwap_tb_id 2 0x0C0C0C0C _ 6 (by decide) (Or.inl (by decide)),
      dSwap_tb_lo 1 0x22222222 _ 6 5 (by norm_num) (by norm_num) (by decide) (by decide)]
    try norm_num
  ·
    rw [show (16:Nat) + 3 = 19 from by norm_num]
    rw [dSwap_tb_lo 8 0x0000FF00 _ 19 11 (by norm_num) (by norm_num) (by decide) (by decide),
      dSwap_tb_lo 4 0x00F000F0 _ 11 7 (by norm_num) (by norm_num) (by decide) (by decide),
      dSwap_tb_id 2 0x0C0C0C0C _ 7 (by decide) (Or.inl (by decide)),
      dSwap_tb_id 1 0x22222222 _ 7 (by decide) (Or.inl (by decide))]
    try norm_num
  ·
    rw [show (16:Nat) + 4 = 20 from by norm_num]
    rw [dSwap_tb_lo 8 0x0000FF00 _ 20 12 (by norm_num) (by norm_num) (by decide) (by decide),
      dSwap_tb_id 4 0x00F000F0 _ 12 (by decide) (Or.inl (by decide)),
      dSwap_tb_lo 2 0x0C0C0C0C _ 12 10 (by norm_num) (by norm_num) (by decide) (by decide),
      dSwap_tb_lo 1 0x22222222 _ 10 9 (by norm_num) (by norm_num) (by decide) (by decide)]
    try norm_num
  ·
    rw [show (16:Nat) + 5 = 21 from by norm_num]
    rw [dSwap_tb_lo 8 0x0000FF00 _ 21 13 (by norm_num) (by norm_num) (by decide) (by decide),
      dSwap_tb_id 4 0x00F000F0 _ 13 (by decide) (Or.inl (by decide)),
      dSwap_tb_lo 2 0x0C0C0C0C _ 13 11 (by norm_num) (by norm_num) (by decide) (by decide),
      dSwap_tb_id 1 0x22222222 _ 11 (by decide) (Or.inl (by decide))]
    try norm_num
  ·
    rw [show (16:Nat) + 6 = 22 from by norm_num]
    rw [dSwap_tb_lo 8 0x0000FF00 _ 22 14 (by norm_num) (by norm_num) (by decide) (by decide),
      dSwap_tb_id 4 0x00F000F0 _ 14 (by decide) (Or.inl (by decide)),
      dSwap_tb_id 2 0x0C0C0C0C _ 14 (by decide) (Or.inl (by decide)),
      dSwap_tb_lo 1 0x22222222 _ 14 13 (by norm_num) (by norm_num) (by decide) (by decide)]
    try norm_num
  ·
    rw [show (16:Nat) + 7 = 23 from by norm_num]
    rw [dSwap_tb_lo 8 0x0000FF00 _ 23 15 (by norm_num) (by norm_num) (by decide) (by decide),
      dSwap_tb_id 4 0x00F000F0 _ 15 (by decide) (Or.inl (by decide)),
      dSwap_tb_id 2 0x0C0C0C0C _ 15 (by decide) (Or.inl (by decide)),
      dSwap_tb_id 1 0x22222222 _ 15 (by decide) (Or.inl (by decide))]
    try norm_num
  ·
    rw [show (16:Nat) + 8 = 24 from by norm_num]
    rw [dSwap_tb_id 8 0x0000FF00 _ 24 (by decide) (Or.inl (by decide)),
      dSwap_tb_lo 4 0x00F000F0 _ 24 20 (by norm_num) (by norm_num) (by decide) (by decide),
      dSwap_tb_lo 2 0x0C0C0C0C _ 20 18 (by norm_num) (by norm_num) (by decide) (by decide),
      dSwap_tb_lo 1 0x22222222 _ 18 17 (by norm_num) (by norm_num) (by decide) (by decide)]
    try norm_num
  ·
    rw [show (16:Nat) + 9 = 25 from by norm_num]
    rw [dSwap_tb_id 8 0x0000FF00 _ 25 (by decide) (Or.inl (by decide)),
      dSwap_tb_lo 4 0x00F000F0 _ 25 21 (by norm_num) (by norm_num) (by decide) (by decide),
      dSwap_tb_lo 2 0x0C0C0C0C _ 21 19 (by norm_num) (by norm_num) (by decide) (by decide),
      dSwap_tb_id 1 0x22222222 _ 19 (by decide) (Or.inl (by decide))]
    try norm_num
  ·
    rw [show (16:Nat) + 10 = 26 from by norm_num]
    rw [dSwap_tb_id 8 0x0000FF00 _ 26 (by decide) (Or.inl (by decide)),
      dSwap_tb_lo 4 0x00F000F0 _ 26 22 (by norm_num) (by norm_num) (by decide) (by decide),
      dSwap_tb_id 2 0x0C0C0C0C _ 22 (by decide) (Or.inl (by decide)),
      dSwap_tb_lo 1 0x22222222 _ 22 21 (by norm_num) (by norm_num) (by decide) (by decide)]
    try norm_num
  ·
    rw [show (16:Nat) + 11 = 27 from by norm_num]
    rw [dSwap_tb_id 8 0x0000FF00 _ 27 (by decide) (Or.inl (by decide)),
      dSwap_tb_lo 4 0x00F000F0 _ 27 23 (by norm_num) (by norm_num) (by decide) (by decide),
      dSwap_tb_id 2 0x0C0C0C0C _ 23 (by decide) (Or.inl (by decide)),
      dSwap_tb_id 1 0x22222222 _ 23 (by decide) (Or.inl (by decide))]
    try norm_num
  ·
    rw [show (16:Nat) + 12 = 28 from by norm_num]
    rw [dSwap_tb_id 8 0x0000FF00 _ 28 (by decide) (Or.inl (by decide)),
      dSwap_tb_id 4 0x00F000F0 _ 28 (by decide) (Or.inl (by decide)),
      dSwap_tb_lo 2 0x0C0C0C0C _ 28 26 (by norm_num) (by norm_num) (by decide) (by decide),
      dSwap_tb_lo 1 0x22222222 _ 26 25 (by norm_num) (by norm_num) (by decide) (by decide)]
    try norm_num
  ·
    rw [show (16:Nat) + 13 = 29 from by norm_num]
    rw [dSwap_tb_id 8 0x0000FF00 _ 29 (by decide) (Or.inl (by decide)),
      dSwap_tb_id 4 0x00F000F0 _ 29 (by decide) (Or.inl (by decide)),
      dSwap_tb_lo 2 0x0C0C0C0C _ 29 27 (by norm_num) (by norm_num) (by decide) (by decide),
      dSwap_tb_id 1 0x22222222 _ 27 (by decide) (Or.inl (by decide))]
    try norm_num
  ·
    rw [show (16:Nat) + 14 = 30 from by norm_num]
    rw [dSwap_tb_id 8 0x0000FF00 _ 30 (by decide) (Or.inl (by decide)),
      dSwap_tb_id 4 0x00F000F0 _ 30 (by decide) (Or.inl (by decide)),
      dSwap_tb_id 2 0x0C0C0C0C _ 30 (by decide) (Or.inl (by decide)),
      dSwap_tb_lo 1 0x22222222 _ 30 29 (by norm_num) (by norm_num) (by decide) (by decide)]
    try norm_num
  ·
    rw [show (16:Nat) + 15 = 31 from by norm_num]
    rw [dSwap_tb_id 8 0x0000FF00 _ 31 (by decide) (Or.inl (by decide)),
      dSwap_tb_id 4 0x00F000F0 _ 31 (by decide) (Or.inl (by decide)),
      dSwap_tb_id 2 0x0C0C0C0C _ 31 (by decide) (Or.inl (by decide)),
      dSwap_tb_id 1 0x22222222 _ 31 (by decide) (Or.inl (by decide))]
    try norm_num

end Hilbert

namespace Hilbert

/-- Odd bits of `T = (S & Swap) ^ Comp` are clear (both masks are
even-positioned). -/
theorem t0_tb_odd (s0 k : Nat) (hk : k % 2 = 1) :
    ((s0 &&& (scanCs (csInit s0) &&& 0x55555555)) ^^^
      ((scanCs (csInit s0) >>> 1) &&& 0x55555555)).testBit k = false := by
  rw [Nat.testBit_xor, andm5_testBit_odd (scanCs (csInit s0) >>> 1) k hk,
    Nat.testBit_and, Nat.testBit_and, m5_testBit]
  have h : ¬ (k % 2 = 0) := by omega
  simp [h]

/-- Even bits of `T`: the lane's `(a0 and swap) xor comp`. -/
theorem t0_tb_even (s0 i : Nat) (hi : i < 16) :
    ((s0 &&& (scanCs (csInit s0) &&& 0x55555555)) ^^^
      ((scanCs (csInit s0) >>> 1) &&& 0x55555555)).testBit (2 * i) =
      xor (s0.testBit (2 * i) && (scanCs (csInit s0)).testBit (2 * i))
        ((scanCs (csInit s0)).testBit (2 * i + 1)) := by
  have h32 : 2 * i < 32 := by omega
  have hm5 : (0x55555555 : Nat).testBit (2 * i) = true := by
    rw [m5_testBit]
    have h0 : 2 * i % 2 = 0 := by omega
    simp [h0, h32]
  rw [Nat.testBit_xor, Nat.testBit_and, Nat.testBit_and, hm5, Bool.and_true,
    Nat.testBit_and, hm5, Bool.and_true, Nat.testBit_shiftRight]
  have e : 1 + 2 * i = 2 * i + 1 := by omega
  rw [e]

/-- Even bits of the transformed `S`: `a0 xor a1 xor t`. -/
theorem s1Of_tb_even (s0 i : Nat) (hi : i < 16) :
    (s1Of s0).testBit (2 * i) =
      xor (s0.testBit (2 * i)) (xor (s0.testBit (2 * i + 1))
        (xor (s0.testBit (2 * i) && (scanCs (csInit s0)).testBit (2 * i))
          ((scanCs (csInit s0)).testBit (2 * i + 1)))) := by
  have h32 : 2 * i < 32 := by omega
  have hm5 : (0x55555555 : Nat).testBit (2 * i) = true := by
    rw [m5_testBit]
    have h0 : 2 * i % 2 = 0 := by omega
    simp [h0, h32]
  have hsr : (srOf s0).testBit (2 * i) = s0.testBit (2 * i + 1) := by
    rw [srOf, Nat.testBit_and, hm5, Bool.and_true, Nat.testBit_shiftRight]
    congr 1
    omega
  have hsh : (((s0 &&& (scanCs (csInit s0) &&& 0x55555555)) ^^^
      ((scanCs (csInit s0) >>> 1) &&& 0x55555555)) <<< 1).testBit (2 * i) = false := by
    rw [Nat.testBit_shiftLeft]
    rcases Nat.eq_zero_or_pos i with h0 | h0
    · subst h0
      simp
    · rw [t0_tb_odd s0 (2 * i - 1) (by omega)]
      simp
  simp only [s1Of]
  rw [Nat.testBit_mod_two_pow, Nat.testBit_xor, Nat.testBit_xor,
    Nat.testBit_xor, hsr, t0_tb_even s0 i hi, hsh]
  have hd : decide (2 * i < 32) = true := by simp [h32]
  rw [hd]
  cases s0.testBit (2 * i) <;> cases s0.testBit (2 * i + 1) <;>
    cases (scanCs (csInit s0)).testBit (2 * i) <;>
    cases (scanCs (csInit s0)).testBit (2 * i + 1) <;> rfl

/-- Odd bits of the transformed `S`: `a1 xor t`. -/
theorem s1Of_tb_odd (s0 i : Nat) (hi : i < 16) :
    (s1Of s0).testBit (2 * i + 1) =
      xor (s0.testBit (2 * i + 1))
        (xor (s0.testBit (2 * i) && (scanCs (csInit s0)).testBit (2 * i))
          ((scanCs (csInit s0)).testBit (2 * i + 1))) := by
  have h32 : 2 * i + 1 < 32 := by omega
  have hsro : (srOf s0).testBit (2 * i + 1) = false :=
    andm5_testBit_odd (s0 >>> 1) _ (by omega)
  have ht0o := t0_tb_odd s0 (2 * i + 1) (by omega)
  have hsh : (((s0 &&& (scanCs (csInit s0) &&& 0x55555555)) ^^^
      ((scanCs (csInit s0) >>> 1) &&& 0x55555555)) <<< 1).testBit (2 * i + 1) =
      xor (s0.testBit (2 * i) && (scanCs (csInit s0)).testBit (2 * i))
        ((scanCs (csInit s0)).testBit (2 * i + 1)) := by
    rw [Nat.testBit_shiftLeft]
    have hd : decide (2 * i + 1 ≥ 1) = true := by simp
    have he : 2 * i + 1 - 1 = 2 * i := by omega
    rw [hd, Bool.true_and, he, t0_tb_even s0 i hi]
  simp only [s1Of]
  rw [Nat.testBit_mod_two_pow, Nat.testBit_xor, Nat.testBit_xor,
    Nat.testBit_xor, hsro, ht0o, hsh]
  have hd : decide (2 * i + 1 < 32) = true := by simp [h32]
  rw [hd]
  cases s0.testBit (2 * i + 1) <;>
    cases (s0.testBit (2 * i) && (scanCs (csInit s0)).testBit (2 * i)) <;>
    cases (scanCs (csInit s0)).testBit (2 * i + 1) <;> rfl

end Hilbert

namespace Hilbert

/-- `Swap` bits of the scanned `Cs`: the XOR-fold of the `w`-bits of
this and all higher lanes. -/
theorem swap_char (s0 i : Nat) (hi : i < 16) :
    (scanCs (csInit s0)).testBit (2 * i) = bAcc (wD s0) i (16 - i) := by
  rw [scanCs_testBit]
  conv_lhs => rw [show (16 : Nat) = (16 - i) + i from by omega]
  rw [bAcc_append]
  have hfalse : bAcc (fun t => (csInit s0).testBit (2 * i + 2 * t))
      (0 + (16 - i)) i = false := by
    apply bAcc_false
    intro t ht ht'
    apply testBit_ge_32 (csInit_lt s0)
    omega
  rw [hfalse, Bool.false_xor]
  have hshift := bAcc_shift (wD s0) 0 i (16 - i)
  rw [Nat.zero_add] at hshift
  rw [hshift]
  apply bAcc_congr
  intro t ht ht'
  have he : 2 * i + 2 * t = 2 * (i + t) := by omega
  rw [he, csInit_testBit_even s0 (i + t) (by omega)]
  show wD s0 (i + t) = wD s0 (t + i)
  have hc : i + t = t + i := by omega
  rw [hc]

/-- `Comp` bits of the scanned `Cs`: the XOR-fold of the `c`-bits of
this and all higher lanes. -/
theorem comp_char (s0 i : Nat) (hi : i < 16) :
    (scanCs (csInit s0)).testBit (2 * i + 1) = bAcc (cD s0) i (16 - i) := by
  rw [scanCs_testBit]
  conv_lhs => rw [show (16 : Nat) = (16 - i) + i from by omega]
  rw [bAcc_append]
  have hfalse : bAcc (fun t => (csInit s0).testBit (2 * i + 1 + 2 * t))
      (0 + (16 - i)) i = false := by
    apply bAcc_false
    intro t ht ht'
    apply testBit_ge_32 (csInit_lt s0)
    omega
  rw [hfalse, Bool.false_xor]
  have hshift := bAcc_shift (cD s0) 0 i (16 - i)
  rw [Nat.zero_add] at hshift
  rw [hshift]
  apply bAcc_congr
  intro t ht ht'
  have he : 2 * i + 1 + 2 * t = 2 * (i + t) + 1 := by omega
  rw [he, csInit_testBit_odd s0 (i + t) (by omega)]
  show cD s0 (i + t) = cD s0 (t + i)
  have hc : i + t = t + i := by omega
  rw [hc]

/-- The padded `S` agrees with the distance below `2 * Order`. -/
theorem padS_tb_low (d N k : Nat) (hk : k < 2 * N) (hN : N ≤ 12) :
    (padS d N).testBit k = d.testBit k := by
  have h32 : k < 32 := by omega
  simp only [padS]
  rw [Nat.testBit_or, Nat.testBit_mod_two_pow, Nat.testBit_mod_two_pow,
    Nat.testBit_shiftLeft]
  have hd : decide (k < 32) = true := by simp [h32]
  have hge : decide (k ≥ 2 * N) = false := by simp; omega
  rw [hd, hge]
  simp

/-- Padding lanes have `a0 = 1`. -/
theorem padS_tb_a0_high (d N j : Nat) (hd : d < 4 ^ N) (hj1 : N ≤ j)
    (hj2 : j < 16) :
    (padS d N).testBit (2 * j) = true := by
  have hdb : d.testBit (2 * j) = false := by
    apply Nat.testBit_lt_two_pow
    calc d < 4 ^ N := hd
    _ = 2 ^ (2 * N) := by rw [show (4:Nat) = 2 ^ 2 from rfl, ← pow_mul]
    _ ≤ 2 ^ (2 * j) := Nat.pow_le_pow_right (by norm_num) (by omega)
  simp only [padS]
  rw [Nat.testBit_or, Nat.testBit_mod_two_pow, Nat.testBit_mod_two_pow,
    Nat.testBit_shiftLeft, hdb, m5_testBit]
  have h1 : decide (2 * j < 32) = true := by simp; omega
  have h2 : decide (2 * j ≥ 2 * N) = true := by simp; omega
  have h3 : decide (2 * j - 2 * N < 32) = true := by simp; omega
  have h4 : decide ((2 * j - 2 * N) % 2 = 0) = true := by simp; omega
  rw [h1, h2, h3, h4]
  rfl

/-- Padding lanes have `a1 = 0`. -/
theorem padS_tb_a1_high (d N j : Nat) (hd : d < 4 ^ N) (hj1 : N ≤ j)
    (hj2 : j < 16) :
    (padS d N).testBit (2 * j + 1) = false := by
  have hdb : d.testBit (2 * j + 1) = false := by
    apply Nat.testBit_lt_two_pow
    calc d < 4 ^ N := hd
    _ = 2 ^ (2 * N) := by rw [show (4:Nat) = 2 ^ 2 from rfl, ← pow_mul]
    _ ≤ 2 ^ (2 * j + 1) := Nat.pow_le_pow_right (by norm_num) (by omega)
  simp only [padS]
  rw [Nat.testBit_or, Nat.testBit_mod_two_pow, Nat.testBit_mod_two_pow,
    Nat.testBit_shiftLeft, hdb, m5_testBit]
  have h4 : decide ((2 * j + 1 - 2 * N) % 2 = 0) = false := by simp; omega
  rw [h4]
  simp

/-- Below the order, the padded lanes carry the distance's `w`-bits. -/
theorem wD_padS_low (d N j : Nat) (hN : N ≤ 12) (hj : j < N) :
    wD (padS d N) j = wD d j := by
  simp only [wD]
  rw [padS_tb_low d N (2 * j) (by omega) hN,
    padS_tb_low d N (2 * j + 1) (by omega) hN]

/-- Below the order, the padded lanes carry the distance's `c`-bits. -/
theorem cD_padS_low (d N j : Nat) (hN : N ≤ 12) (hj : j < N) :
    cD (padS d N) j = cD d j := by
  simp only [cD]
  rw [padS_tb_low d N (2 * j) (by omega) hN,
    padS_tb_low d N (2 * j + 1) (by omega) hN]

/-- Padding lanes contribute no swap. -/
theorem wD_padS_high (d N j : Nat) (hd : d < 4 ^ N) (hj1 : N ≤ j)
    (hj2 : j < 16) :
    wD (padS d N) j = false := by
  simp only [wD]
  rw [padS_tb_a0_high d N j hd hj1 hj2, padS_tb_a1_high d N j hd hj1 hj2]
  rfl

/-- Padding lanes contribute no complement. -/
theorem cD_padS_high (d N j : Nat) (hd : d < 4 ^ N) (hj1 : N ≤ j)
    (hj2 : j < 16) :
    cD (padS d N) j = false := by
  simp only [cD]
  rw [padS_tb_a1_high d N j hd hj1 hj2]
  simp

/-- Padding lanes truncate out of the swap fold. -/
theorem wAcc_reduce (d N i : Nat) (hd : d < 4 ^ N) (hN : N ≤ 12) (hi : i < N) :
    bAcc (wD (padS d N)) i (16 - i) = bAcc (wD d) i (N - i) := by
  conv_lhs => rw [show 16 - i = (N - i) + (16 - N) from by omega]
  rw [bAcc_append]
  have hfalse : bAcc (wD (padS d N)) (i + (N - i)) (16 - N) = false := by
    apply bAcc_false
    intro t ht ht'
    exact wD_padS_high d N t hd (by omega) (by omega)
  rw [hfalse, Bool.false_xor]
  apply bAcc_congr
  intro t ht ht'
  exact wD_padS_low d N t hN (by omega)

/-- Padding lanes truncate out of the complement fold. -/
theorem cAcc_reduce (d N i : Nat) (hd : d < 4 ^ N) (hN : N ≤ 12) (hi : i < N) :
    bAcc (cD (padS d N)) i (16 - i) = bAcc (cD d) i (N - i) := by
  conv_lhs => rw [show 16 - i = (N - i) + (16 - N) from by omega]
  rw [bAcc_append]
  have hfalse : bAcc (cD (padS d N)) (i + (N - i)) (16 - N) = false := by
    apply bAcc_false
    intro t ht ht'
    exact cD_padS_high d N t hd (by omega) (by omega)
  rw [hfalse, Bool.false_xor]
  apply bAcc_congr
  intro t ht ht'
  exact cD_padS_low d N t hN (by omega)

end Hilbert

namespace Hilbert

/-- One delta-swap keeps 32-bit values 32-bit. -/
theorem dSwap_lt (dl m s : Nat) (hs : s < 2 ^ 32) (hm : m * 2 ^ dl < 2 ^ 32) :
    dSwap dl m s < 2 ^ 32 := by
  have ht : (s ^^^ (s >>> dl)) &&& m ≤ m := Nat.and_le_right
  have h1 : (s ^^^ (s >>> dl)) &&& m < 2 ^ 32 := by
    have hmle : m ≤ m * 2 ^ dl := Nat.le_mul_of_pos_right m (Nat.pos_pow_of_pos dl (by norm_num))
    omega
  have h2 : ((s ^^^ (s >>> dl)) &&& m) <<< dl < 2 ^ 32 := by
    rw [Nat.shiftLeft_eq]
    calc ((s ^^^ (s >>> dl)) &&& m) * 2 ^ dl ≤ m * 2 ^ dl :=
      Nat.mul_le_mul_right _ ht
    _ < 2 ^ 32 := hm
  exact Nat.xor_lt_two_pow (Nat.xor_lt_two_pow hs h1) h2

/-- The unshuffle keeps 32-bit values 32-bit. -/
theorem unshuffle_lt (s : Nat) (hs : s < 2 ^ 32) : unshuffle s < 2 ^ 32 :=
  dSwap_lt 8 0x0000FF00 _
    (dSwap_lt 4 0x00F000F0 _
      (dSwap_lt 2 0x0C0C0C0C _
        (dSwap_lt 1 0x22222222 _ hs (by norm_num)) (by norm_num))
      (by norm_num)) (by norm_num)

/-- The transformed `S` is a 32-bit value. -/
theorem s1Of_lt (s0 : Nat) : s1Of s0 < 2 ^ 32 := Nat.mod_lt _ (by norm_num)

/-- `CoordinatesFromDistance` agrees with the reference decoder on
every valid distance for orders up to 12. -/
theorem cfd_eq_hdec (d N : Nat) (hd : d < 4 ^ N) (hN : N ≤ 12) :
    CoordinatesFromDistance d N = hdec d N := by
  have hmask : (1 <<< (2 * N)) % 2 ^ 32 - 1 = 2 ^ (2 * N) - 1 := by
    rw [Nat.shiftLeft_eq, one_mul, Nat.mod_eq_of_lt]
    exact Nat.pow_lt_pow_right (by norm_num) (by omega)
  have hs2tb : ∀ k, (s1Of (padS d N) &&& ((1 <<< (2 * N)) % 2 ^ 32 - 1)).testBit k =
      ((s1Of (padS d N)).testBit k && decide (k < 2 * N)) := by
    intro k
    rw [hmask, Nat.testBit_and, Nat.testBit_two_pow_sub_one]
  have hs2lt : s1Of (padS d N) &&& ((1 <<< (2 * N)) % 2 ^ 32 - 1) < 2 ^ 32 :=
    lt_of_le_of_lt Nat.and_le_left (s1Of_lt (padS d N))
  have hx : (CoordinatesFromDistance d N).1 = (hdec d N).1 := by
    apply Nat.eq_of_testBit_eq
    intro k
    show (unshuffle (s1Of (padS d N) &&& ((1 <<< (2 * N)) % 2 ^ 32 - 1)) >>> 16).testBit k = _
    rw [Nat.testBit_shiftRight]
    simp only [hdec]
    rw [hdecLoop_testBit_x]
    by_cases hk16 : k < 16
    · rw [unshuffle_tb_hi _ k hk16, hs2tb]
      by_cases hkN : k < N
      · rw [if_pos hkN]
        have hdec1 : decide (2 * k + 1 < 2 * N) = true := by simp; omega
        rw [hdec1, Bool.and_true, s1Of_tb_odd (padS d N) k hk16,
          swap_char (padS d N) k hk16, comp_char (padS d N) k hk16,
          wAcc_reduce d N k hd hN hkN, cAcc_reduce d N k hd hN hkN,
          padS_tb_low d N (2 * k) (by omega) hN,
          padS_tb_low d N (2 * k + 1) (by omega) hN,
          Bool.false_xor, Bool.false_xor]
      · rw [if_neg hkN]
        have hdec1 : decide (2 * k + 1 < 2 * N) = false := by simp; omega
        rw [hdec1, Bool.and_false]
    · rw [if_neg (by omega)]
      exact testBit_ge_32 (unshuffle_lt _ hs2lt) (by omega)
  have hy : (CoordinatesFromDistance d N).2 = (hdec d N).2 := by
    apply Nat.eq_of_testBit_eq
    intro k
    show (unshuffle (s1Of (padS d N) &&& ((1 <<< (2 * N)) % 2 ^ 32 - 1)) &&& 0xffff).testBit k = _
    rw [Nat.testBit_and, show (0xffff : Nat) = 2 ^ 16 - 1 from by norm_num,
      Nat.testBit_two_pow_sub_one]
    simp only [hdec]
    rw [hdecLoop_testBit_y]
    by_cases hk16 : k < 16
    · have hd16 : decide (k < 16) = true := by simp [hk16]
      rw [hd16, Bool.and_true, unshuffle_tb_lo _ k hk16, hs2tb]
      by_cases hkN : k < N
      · rw [if_pos hkN]
        have hdec1 : decide (2 * k < 2 * N) = true := by simp; omega
        rw [hdec1, Bool.and_true, s1Of_tb_even (padS d N) k hk16,
          swap_char (padS d N) k hk16, comp_char (padS d N) k hk16,
          wAcc_reduce d N k hd hN hkN, cAcc_reduce d N k hd hN hkN,
          padS_tb_low d N (2 * k) (by omega) hN,
          padS_tb_low d N (2 * k + 1) (by omega) hN,
          Bool.false_xor, Bool.false_xor]
      · rw [if_neg hkN]
        have hdec1 : decide (2 * k < 2 * N) = false := by simp; omega
        rw [hdec1, Bool.and_false]
    · have hd16 : decide (k < 16) = false := by simp [hk16]
      rw [hd16, Bool.and_false, if_neg (by omega)]
  exact Prod.ext_iff.mpr ⟨hx, hy⟩

end Hilbert

namespace Hilbert

/-- The coordinate transform a `(swap, comp)` state applies: swap the
coordinates and/or complement their low `n` bits. -/
def applyTC (n : Nat) (sw cp : Bool) (p : Nat × Nat) : Nat × Nat :=
  (cond cp ((2 ^ n - 1) ^^^ cond sw p.2 p.1) (cond sw p.2 p.1),
    cond cp ((2 ^ n - 1) ^^^ cond sw p.1 p.2) (cond sw p.1 p.2))

/-- The decoder at any carried state is the identity-state decoder
followed by the state's swap/complement transform. -/
theorem hdecLoop_tc (d n : Nat) (sw cp : Bool) :
    hdecLoop d n sw cp = applyTC n sw cp (hdecLoop d n false false) := by
  have hb1 := (hdecLoop_lt d n false false).1
  have hb2 := (hdecLoop_lt d n false false).2
  refine Prod.ext_iff.mpr ⟨?_, ?_⟩
  · apply Nat.eq_of_testBit_eq
    intro i
    rw [hdecLoop_testBit_x]
    cases sw <;> cases cp <;> simp only [applyTC, cond]
    · rw [hdecLoop_testBit_x]
    · rw [Nat.testBit_xor, Nat.testBit_two_pow_sub_one, hdecLoop_testBit_x]
      by_cases hin : i < n
      · rw [if_pos hin, if_pos hin]
        have hdn : decide (i < n) = true := by simp [hin]
        rw [hdn]
        cases d.testBit (2 * i) <;> cases d.testBit (2 * i + 1) <;>
          cases bAcc (wD d) i (n - i) <;> cases bAcc (cD d) i (n - i) <;> rfl
      · rw [if_neg hin, if_neg hin]
        have hdn : decide (i < n) = false := by simp [hin]
        rw [hdn]
        rfl
    · rw [hdecLoop_testBit_y]
      by_cases hin : i < n
      · rw [if_pos hin, if_pos hin]
        cases d.testBit (2 * i) <;> cases d.testBit (2 * i + 1) <;>
          cases bAcc (wD d) i (n - i) <;> cases bAcc (cD d) i (n - i) <;> rfl
      · rw [if_neg hin, if_neg hin]
    · rw [Nat.testBit_xor, Nat.testBit_two_pow_sub_one, hdecLoop_testBit_y]
      by_cases hin : i < n
      · rw [if_pos hin, if_pos hin]
        have hdn : decide (i < n) = true := by simp [hin]
        rw [hdn]
        cases d.testBit (2 * i) <;> cases d.testBit (2 * i + 1) <;>
          cases bAcc (wD d) i (n - i) <;> cases bAcc (cD d) i (n - i) <;> rfl
      · rw [if_neg hin, if_neg hin]
        have hdn : decide (i < n) = false := by simp [hin]
        rw [hdn]
        rfl
  · apply Nat.eq_of_testBit_eq
    intro i
    rw [hdecLoop_testBit_y]
    cases sw <;> cases cp <;> simp only [applyTC, cond]
    · rw [hdecLoop_testBit_y]
    · rw [Nat.testBit_xor, Nat.testBit_two_pow_sub_one, hdecLoop_testBit_y]
      by_cases hin : i < n
      · rw [if_pos hin, if_pos hin]
        have hdn : decide (i < n) = true := by simp [hin]
        rw [hdn]
        cases d.testBit (2 * i) <;> cases d.testBit (2 * i + 1) <;>
          cases bAcc (wD d) i (n - i) <;> cases bAcc (cD d) i (n - i) <;> rfl
      · rw [if_neg hin, if_neg hin]
        have hdn : decide (i < n) = false := by simp [hin]
        rw [hdn]
        rfl
    · rw [hdecLoop_testBit_x]
      by_cases hin : i < n
      · rw [if_pos hin, if_pos hin]
        cases d.testBit (2 * i) <;> cases d.testBit (2 * i + 1) <;>
          cases bAcc (wD d) i (n - i) <;> cases bAcc (cD d) i (n - i) <;> rfl
      · rw [if_neg hin, if_neg hin]
    · rw [Nat.testBit_xor, Nat.testBit_two_pow_sub_one, hdecLoop_testBit_x]
      by_cases hin : i < n
      · rw [if_pos hin, if_pos hin]
        have hdn : decide (i < n) = true := by simp [hin]
        rw [hdn]
        cases d.testBit (2 * i) <;> cases d.testBit (2 * i + 1) <;>
          cases bAcc (wD d) i (n - i) <;> cases bAcc (cD d) i (n - i) <;> rfl
      · rw [if_neg hin, if_neg hin]
        have hdn : decide (i < n) = false := by simp [hin]
        rw [hdn]
        rfl

end Hilbert

namespace Hilbert

/-- `4 ^ n` as a power of two. -/
theorem four_pow (n : Nat) : (4 : Nat) ^ n = 2 ^ (2 * n) := by
  rw [show (4 : Nat) = 2 ^ 2 from rfl, ← pow_mul]

/-- The decoder reads only bits below `2 * n` of the distance. -/
theorem hdecLoop_congr : ∀ (n d d' : Nat) (sw cp : Bool),
    (∀ k, k < 2 * n → d.testBit k = d'.testBit k) →
    hdecLoop d n sw cp = hdecLoop d' n sw cp := by
  intro n
  induction n with
  | zero =>
    intro d d' sw cp _
    rfl
  | succ n ih =>
    intro d d' sw cp h
    have h0 : d.testBit (2 * n) = d'.testBit (2 * n) := h _ (by omega)
    have h1 : d.testBit (2 * n + 1) = d'.testBit (2 * n + 1) := h _ (by omega)
    have hsw : swStep d n sw = swStep d' n sw := by
      simp only [swStep]
      rw [h0, h1]
    have hcp : cpStep d n cp = cpStep d' n cp := by
      simp only [cpStep]
      rw [h0, h1]
    have hxb : xBit d n sw cp = xBit d' n sw cp := by
      simp only [xBit, laneT, swStep, cpStep]
      rw [h0, h1]
    have hyb : yBit d n sw cp = yBit d' n sw cp := by
      simp only [yBit, xBit, laneT, swStep, cpStep]
      rw [h0, h1]
    show (2 ^ n * cond (xBit d n sw cp) 1 0 +
        (hdecLoop d n (swStep d n sw) (cpStep d n cp)).1,
      2 ^ n * cond (yBit d n sw cp) 1 0 +
        (hdecLoop d n (swStep d n sw) (cpStep d n cp)).2) = _
    rw [hxb, hyb, hsw, hcp,
      ih d d' (swStep d' n sw) (cpStep d' n cp) (fun k hk => h k (by omega))]
    rfl

/-- The decoder only sees the distance modulo `4 ^ n`. -/
theorem hdecLoop_mod (d n : Nat) (sw cp : Bool) :
    hdecLoop (d % 4 ^ n) n sw cp = hdecLoop d n sw cp := by
  apply hdecLoop_congr
  intro k hk
  rw [four_pow, Nat.testBit_mod_two_pow]
  simp [hk]

/-- `(x >> n) & 1` reads bit `n`. -/
theorem shift_and_one (x n : Nat) :
    (x >>> n) &&& 1 = cond (x.testBit n) 1 0 := by
  rw [Nat.and_one_is_mod, Nat.shiftRight_eq_div_pow]
  cases h : x.testBit n
  · rw [Nat.testBit_to_div_mod] at h
    simp only [decide_eq_false_iff_not] at h
    show x / 2 ^ n % 2 = 0
    omega
  · rw [Nat.testBit_to_div_mod] at h
    simp only [decide_eq_true_eq] at h
    show x / 2 ^ n % 2 = 1
    omega

/-- Complementing through the 32-bit mask complements the low `n`
bits. -/
theorem xor_mask_mod (a n : Nat) (hn : n ≤ 32) :
    ((a ^^^ (2 ^ 32 - 1)) % 2 ^ 32) % 2 ^ n = (a % 2 ^ n) ^^^ (2 ^ n - 1) := by
  apply Nat.eq_of_testBit_eq
  intro k
  rw [Nat.testBit_mod_two_pow, Nat.testBit_mod_two_pow, Nat.testBit_xor,
    Nat.testBit_xor, Nat.testBit_mod_two_pow, Nat.testBit_two_pow_sub_one,
    Nat.testBit_two_pow_sub_one]
  by_cases hk : k < n
  · have h32 : k < 32 := by omega
    simp [hk, h32]
  · simp [hk]

end Hilbert

namespace Hilbert

/-- `DistanceFromCoordinates`'s loop inverts the reference decoder:
feeding it coordinates whose low `N` bits are the decoder's output
recovers the distance (appended to the accumulator), as long as the
32-bit accumulator does not overflow. -/
theorem dfcLoop_hdec (N : Nat) :
    ∀ d S X Y, N ≤ 16 → d < 4 ^ N →
      X % 2 ^ N = (hdec d N).1 → Y % 2 ^ N = (hdec d N).2 →
      4 ^ N * S + d < 2 ^ 32 →
      dfcLoop X Y S N = 4 ^ N * S + d := by
  induction N with
  | zero =>
    intro d S X Y _ hd _ _ _
    have h1 : (4:Nat) ^ 0 = 1 := by norm_num
    have hd0 : d = 0 := by omega
    subst hd0
    show S = 4 ^ 0 * S + 0
    rw [h1]
    omega
  | succ n ih =>
    intro d S X Y hN hd hX hY hS
    have hn16 : n ≤ 16 := by omega
    have h4n1 : (4:Nat) ^ (n + 1) = 4 * 4 ^ n := by ring
    have h4pos : (0:Nat) < 4 ^ n := by positivity
    have hL1 := (hdecLoop_lt d n (swStep d n false) (cpStep d n false)).1
    have hL2 := (hdecLoop_lt d n (swStep d n false) (cpStep d n false)).2
    have hu1 := (hdecLoop_lt d n false false).1
    have hu2 := (hdecLoop_lt d n false false).2
    have hX1 : X % 2 ^ (n + 1) =
        2 ^ n * cond (xBit d n false false) 1 0 +
          (hdecLoop d n (swStep d n false) (cpStep d n false)).1 := hX
    have hY1 : Y % 2 ^ (n + 1) =
        2 ^ n * cond (yBit d n false false) 1 0 +
          (hdecLoop d n (swStep d n false) (cpStep d n false)).2 := hY
    have hmm : (2:Nat) ^ n ∣ 2 ^ (n + 1) := pow_dvd_pow 2 (by omega)
    have hXlow : X % 2 ^ n =
        (hdecLoop d n (swStep d n false) (cpStep d n false)).1 := by
      have h1 : X % 2 ^ n = X % 2 ^ (n + 1) % 2 ^ n :=
        (Nat.mod_mod_of_dvd X hmm).symm
      rw [h1, hX1, Nat.mul_comm, Nat.add_comm, Nat.add_mul_mod_self_right]
      exact Nat.mod_eq_of_lt hL1
    have hYlow : Y % 2 ^ n =
        (hdecLoop d n (swStep d n false) (cpStep d n false)).2 := by
      have h1 : Y % 2 ^ n = Y % 2 ^ (n + 1) % 2 ^ n :=
        (Nat.mod_mod_of_dvd Y hmm).symm
      rw [h1, hY1, Nat.mul_comm, Nat.add_comm, Nat.add_mul_mod_self_right]
      exact Nat.mod_eq_of_lt hL2
    have hXbit : X.testBit n = xBit d n false false := by
      have h1 : X.testBit n = (X % 2 ^ (n + 1)).testBit n := by
        rw [Nat.testBit_mod_two_pow]
        simp
      rw [h1, hX1, Nat.testBit_mul_pow_two_add _ hL1, if_neg (by omega),
        Nat.sub_self]
      cases xBit d n false false <;> rfl
    have hYbit : Y.testBit n = yBit d n false false := by
      have h1 : Y.testBit n = (Y % 2 ^ (n + 1)).testBit n := by
        rw [Nat.testBit_mod_two_pow]
        simp
      rw [h1, hY1, Nat.testBit_mul_pow_two_add _ hL2, if_neg (by omega),
        Nat.sub_self]
      cases yBit d n false false <;> rfl
    have hXi : (X >>> n) &&& 1 = cond (xBit d n false false) 1 0 := by
      rw [shift_and_one, hXbit]
    have hYi : (Y >>> n) &&& 1 = cond (yBit d n false false) 1 0 := by
      rw [shift_and_one, hYbit]
    have hb0 : (d >>> (2 * n)).testBit 0 = d.testBit (2 * n) := by
      rw [Nat.testBit_shiftRight]
      norm_num
    have hb1 : (d >>> (2 * n)).testBit 1 = d.testBit (2 * n + 1) := by
      rw [Nat.testBit_shiftRight]
    have he4 : d >>> (2 * n) < 4 := by
      rw [Nat.shiftRight_eq_div_pow]
      rw [Nat.div_lt_iff_lt_mul (by positivity)]
      calc d < 4 ^ (n + 1) := hd
      _ = 4 * 2 ^ (2 * n) := by
        rw [four_pow]
        have he : 2 * (n + 1) = 2 * n + 2 := by ring
        rw [he, pow_add]
        have h22 : (2:Nat) ^ 2 = 4 := by norm_num
        rw [h22]
        ring
    have hsplit : 4 ^ n * (d >>> (2 * n)) + d % 4 ^ n = d := by
      rw [Nat.shiftRight_eq_div_pow, four_pow]
      exact Nat.div_add_mod d (2 ^ (2 * n))
    have hr4 : d % 4 ^ n < 4 ^ n := Nat.mod_lt _ h4pos
    have htc := hdecLoop_tc d n (swStep d n false) (cpStep d n false)
    have hbase : hdecLoop d n false false = hdec (d % 4 ^ n) n :=
      (hdecLoop_mod d n false false).symm
    have hstep : dfcLoop X Y S (n + 1) =
        dfcLoop
          (if (Y >>> n) &&& 1 = 0 then (Y ^^^ neg32 ((X >>> n) &&& 1)) % 2 ^ 32 else X)
          (if (Y >>> n) &&& 1 = 0 then (X ^^^ neg32 ((X >>> n) &&& 1)) % 2 ^ 32 else Y)
          ((4 * S + 2 * ((X >>> n) &&& 1) + (((X >>> n) &&& 1) ^^^ ((Y >>> n) &&& 1))) % 2 ^ 32)
          n := rfl
    obtain ⟨q, hq, hq4⟩ : ∃ q, d >>> (2 * n) = q ∧ q < 4 := ⟨_, rfl, he4⟩
    rw [hq] at hb0 hb1 hsplit
    interval_cases q
    · -- quadrant 0: swap, digit 0
      have ha0 : d.testBit (2 * n) = false := by rw [← hb0]; rfl
      have ha1 : d.testBit (2 * n + 1) = false := by rw [← hb1]; rfl
      have hxb : xBit d n false false = false := by
        simp [xBit, laneT, swStep, cpStep, ha0, ha1]
      have hyb : yBit d n false false = false := by
        simp [yBit, xBit, laneT, swStep, cpStep, ha0, ha1]
      have hswv : swStep d n false = true := by simp [swStep, ha0, ha1]
      have hcpv : cpStep d n false = false := by simp [cpStep, ha0, ha1]
      rw [hxb] at hXi
      rw [hyb] at hYi
      have hXi0 : (X >>> n) &&& 1 = 0 := hXi
      have hYi0 : (Y >>> n) &&& 1 = 0 := hYi
      rw [hstep, hXi0, hYi0, if_pos rfl, if_pos rfl]
      have hneg : neg32 0 = 0 := rfl
      rw [hneg, Nat.xor_zero, Nat.xor_zero, Nat.xor_self]
      have hSv : (4 * S + 2 * 0 + 0) % 2 ^ 32 = 4 * S := by
        apply Nat.mod_eq_of_lt
        have h41 : 4 * S ≤ 4 ^ (n + 1) * S := by
          apply Nat.mul_le_mul_right
          calc (4:Nat) = 4 ^ 1 := by norm_num
          _ ≤ 4 ^ (n + 1) := Nat.pow_le_pow_right (by norm_num) (by omega)
        omega
      rw [hSv]
      rw [hswv, hcpv] at hXlow hYlow htc
      rw [htc, hbase] at hXlow hYlow
      have hXl2 : X % 2 ^ n = (hdec (d % 4 ^ n) n).2 := hXlow
      have hYl2 : Y % 2 ^ n = (hdec (d % 4 ^ n) n).1 := hYlow
      have hkey : 4 ^ n * (4 * S) = 4 ^ (n + 1) * S := by rw [h4n1]; ring
      have hrec := ih (d % 4 ^ n) (4 * S) (Y % 2 ^ 32) (X % 2 ^ 32) hn16 hr4
        (by rw [Nat.mod_mod_of_dvd Y (pow_dvd_pow 2 (by omega))]; exact hYl2)
        (by rw [Nat.mod_mod_of_dvd X (pow_dvd_pow 2 (by omega))]; exact hXl2)
        (by omega)
      rw [hrec]
      omega
    · -- quadrant 1: no transform, digit 1
      have ha0 : d.testBit (2 * n) = true := by rw [← hb0]; rfl
      have ha1 : d.testBit (2 * n + 1) = false := by rw [← hb1]; rfl
      have hxb : xBit d n false false = false := by
        simp [xBit, laneT, swStep, cpStep, ha0, ha1]
      have hyb : yBit d n false false = true := by
        simp [yBit, xBit, laneT, swStep, cpStep, ha0, ha1]
      have hswv : swStep d n false = false := by simp [swStep, ha0, ha1]
      have hcpv : cpStep d n false = false := by simp [cpStep, ha0, ha1]
      rw [hxb] at hXi
      rw [hyb] at hYi
      have hXi0 : (X >>> n) &&& 1 = 0 := hXi
      have hYi1 : (Y >>> n) &&& 1 = 1 := hYi
      rw [hstep, hXi0, hYi1, if_neg (by omega), if_neg (by omega)]
      have hxor01 : (0:Nat) ^^^ 1 = 1 := rfl
      rw [hxor01]
      have hSv : (4 * S + 2 * 0 + 1) % 2 ^ 32 = 4 * S + 1 := by
        apply Nat.mod_eq_of_lt
        have h41 : 4 * S + 1 ≤ 4 ^ (n + 1) * S + d := by
          have : 4 * S ≤ 4 ^ (n + 1) * S := by
            apply Nat.mul_le_mul_right
            calc (4:Nat) = 4 ^ 1 := by norm_num
            _ ≤ 4 ^ (n + 1) := Nat.pow_le_pow_right (by norm_num) (by omega)
          omega
        omega
      rw [hSv]
      rw [hswv, hcpv] at hXlow hYlow htc
      rw [htc, hbase] at hXlow hYlow
      have hXl2 : X % 2 ^ n = (hdec (d % 4 ^ n) n).1 := hXlow
      have hYl2 : Y % 2 ^ n = (hdec (d % 4 ^ n) n).2 := hYlow
      have hkey : 4 ^ n * (4 * S + 1) = 4 ^ (n + 1) * S + 1 * 4 ^ n := by rw [h4n1]; ring
      have hrec := ih (d % 4 ^ n) (4 * S + 1) X Y hn16 hr4 hXl2 hYl2 (by omega)
      rw [hrec]
      omega
    · -- quadrant 2: no transform, digit 2
      have ha0 : d.testBit (2 * n) = false := by rw [← hb0]; rfl
      have ha1 : d.testBit (2 * n + 1) = true := by rw [← hb1]; rfl
      have hxb : xBit d n false false = true := by
        simp [xBit, laneT, swStep, cpStep, ha0, ha1]
      have hyb : yBit d n false false = true := by
        simp [yBit, xBit, laneT, swStep, cpStep, ha0, ha1]
      have hswv : swStep d n false = false := by simp [swStep, ha0, ha1]
      have hcpv : cpStep d n false = false := by simp [cpStep, ha0, ha1]
      rw [hxb] at hXi
      rw [hyb] at hYi
      have hXi1 : (X >>> n) &&& 1 = 1 := hXi
      have hYi1 : (Y >>> n) &&& 1 = 1 := hYi
      rw [hstep, hXi1, hYi1, if_neg (by omega), if_neg (by omega)]
      have hxor11 : (1:Nat) ^^^ 1 = 0 := rfl
      rw [hxor11]
      have hSv : (4 * S + 2 * 1 + 0) % 2 ^ 32 = 4 * S + 2 := by
        apply Nat.mod_eq_of_lt
        have h41 : 4 * S + 2 ≤ 4 ^ (n + 1) * S + d := by
          have h1 : 4 * S ≤ 4 ^ (n + 1) * S := by
            apply Nat.mul_le_mul_right
            calc (4:Nat) = 4 ^ 1 := by norm_num
            _ ≤ 4 ^ (n + 1) := Nat.pow_le_pow_right (by norm_num) (by omega)
          have h2 : 2 * 4 ^ n ≤ d := by omega
          have h3 : (2:Nat) ≤ 2 * 4 ^ n := by omega
          omega
        omega
      rw [hSv]
      rw [hswv, hcpv] at hXlow hYlow htc
      rw [htc, hbase] at hXlow hYlow
      have hXl2 : X % 2 ^ n = (hdec (d % 4 ^ n) n).1 := hXlow
      have hYl2 : Y % 2 ^ n = (hdec (d % 4 ^ n) n).2 := hYlow
      have hkey : 4 ^ n * (4 * S + 2) = 4 ^ (n + 1) * S + 2 * 4 ^ n := by rw [h4n1]; ring
      have hrec := ih (d % 4 ^ n) (4 * S + 2) X Y hn16 hr4 hXl2 hYl2 (by omega)
      rw [hrec]
      omega
    · -- quadrant 3: swap and complement, digit 3
      have ha0 : d.testBit (2 * n) = true := by rw [← hb0]; rfl
      have ha1 : d.testBit (2 * n + 1) = true := by rw [← hb1]; rfl
      have hxb : xBit d n false false = true := by
        simp [xBit, laneT, swStep, cpStep, ha0, ha1]
      have hyb : yBit d n false false = false := by
        simp [yBit, xBit, laneT, swStep, cpStep, ha0, ha1]
      have hswv : swStep d n false = true := by simp [swStep, ha0, ha1]
      have hcpv : cpStep d n false = true := by simp [cpStep, ha0, ha1]
      rw [hxb] at hXi
      rw [hyb] at hYi
      have hXi1 : (X >>> n) &&& 1 = 1 := hXi
      have hYi0 : (Y >>> n) &&& 1 = 0 := hYi
      rw [hstep, hXi1, hYi0, if_pos rfl, if_pos rfl]
      have hneg : neg32 1 = 2 ^ 32 - 1 := rfl
      rw [hneg]
      have hxor10 : (1:Nat) ^^^ 0 = 1 := rfl
      rw [hxor10]
      have hSv : (4 * S + 2 * 1 + 1) % 2 ^ 32 = 4 * S + 3 := by
        have he3 : 4 * S + 2 * 1 + 1 = 4 * S + 3 := by ring
        rw [he3]
        apply Nat.mod_eq_of_lt
        have h1 : 4 * S ≤ 4 ^ (n + 1) * S := by
          apply Nat.mul_le_mul_right
          calc (4:Nat) = 4 ^ 1 := by norm_num
          _ ≤ 4 ^ (n + 1) := Nat.pow_le_pow_right (by norm_num) (by omega)
        have h2 : 3 * 4 ^ n ≤ d := by omega
        have h3 : (3:Nat) ≤ 3 * 4 ^ n := by omega
        omega
      rw [hSv]
      rw [hswv, hcpv] at hXlow hYlow htc
      rw [htc, hbase] at hXlow hYlow
      have hXl2 : X % 2 ^ n = (2 ^ n - 1) ^^^ (hdec (d % 4 ^ n) n).2 := hXlow
      have hYl2 : Y % 2 ^ n = (2 ^ n - 1) ^^^ (hdec (d % 4 ^ n) n).1 := hYlow
      have hXnew : ((Y ^^^ (2 ^ 32 - 1)) % 2 ^ 32) % 2 ^ n =
          (hdec (d % 4 ^ n) n).1 := by
        rw [xor_mask_mod Y n (by omega), hYl2, Nat.xor_comm (2 ^ n - 1),
          Nat.xor_assoc, Nat.xor_self, Nat.xor_zero]
      have hYnew : ((X ^^^ (2 ^ 32 - 1)) % 2 ^ 32) % 2 ^ n =
          (hdec (d % 4 ^ n) n).2 := by
        rw [xor_mask_mod X n (by omega), hXl2, Nat.xor_comm (2 ^ n - 1),
          Nat.xor_assoc, Nat.xor_self, Nat.xor_zero]
      have hkey : 4 ^ n * (4 * S + 3) = 4 ^ (n + 1) * S + 3 * 4 ^ n := by rw [h4n1]; ring
      have hrec := ih (d % 4 ^ n) (4 * S + 3) ((Y ^^^ (2 ^ 32 - 1)) % 2 ^ 32)
        ((X ^^^ (2 ^ 32 - 1)) % 2 ^ 32) hn16 hr4 hXnew hYnew (by omega)
      rw [hrec]
      omega

end Hilbert

namespace Hilbert

/-- Encoding the decoder's output recovers the distance. -/
theorem hdec_dfc (N d : Nat) (hN : N ≤ 12) (hd : d < 4 ^ N) :
    DistanceFromCoordinates (hdec d N).1 (hdec d N).2 N = d := by
  have hu1 := (hdecLoop_lt d N false false).1
  have hu2 := (hdecLoop_lt d N false false).2
  have h2N : (2:Nat) ^ N ∣ 2 ^ 32 := pow_dvd_pow 2 (by omega)
  have hd32 : d < 2 ^ 32 := by
    calc d < 4 ^ N := hd
    _ = 2 ^ (2 * N) := four_pow N
    _ ≤ 2 ^ 32 := Nat.pow_le_pow_right (by norm_num) (by omega)
  have h := dfcLoop_hdec N d 0 ((hdec d N).1 % 2 ^ 32) ((hdec d N).2 % 2 ^ 32)
    (by omega) hd
    (by rw [Nat.mod_mod_of_dvd _ h2N]; exact Nat.mod_eq_of_lt hu1)
    (by rw [Nat.mod_mod_of_dvd _ h2N]; exact Nat.mod_eq_of_lt hu2)
    (by omega)
  show dfcLoop ((hdec d N).1 % 2 ^ 32) ((hdec d N).2 % 2 ^ 32) 0 N = d
  rw [h]
  omega

/-- Encoding any coordinates below `2 ^ N` and decoding again is the
identity: the decoder is a bijection onto the grid, so its left
inverse is also its right inverse. -/
theorem dfc_cfd (N x y : Nat) (hN : N ≤ 12) (hx : x < 2 ^ N)
    (hy : y < 2 ^ N) :
    CoordinatesFromDistance (DistanceFromCoordinates x y N) N = (x, y) := by
  have hcard : 4 ^ N = 2 ^ N * 2 ^ N := by
    rw [show (4:Nat) = 2 * 2 from rfl, mul_pow]
  let g : Fin (4 ^ N) → Fin (2 ^ N) × Fin (2 ^ N) := fun d =>
    (⟨(hdec d.1 N).1, (hdecLoop_lt d.1 N false false).1⟩,
      ⟨(hdec d.1 N).2, (hdecLoop_lt d.1 N false false).2⟩)
  have hinj : Function.Injective g := by
    intro a b hab
    have h1 : (hdec a.1 N).1 = (hdec b.1 N).1 := congrArg (fun p => p.1.1) hab
    have h2 : (hdec a.1 N).2 = (hdec b.1 N).2 := congrArg (fun p => p.2.1) hab
    have ha := hdec_dfc N a.1 hN a.2
    have hb := hdec_dfc N b.1 hN b.2
    apply Fin.ext
    rw [← ha, ← hb, h1, h2]
  have hbij : Function.Bijective g := by
    rw [Fintype.bijective_iff_injective_and_card]
    refine ⟨hinj, ?_⟩
    simp [hcard]
  obtain ⟨d, hdq⟩ := hbij.2 (⟨x, hx⟩, ⟨y, hy⟩)
  have hx1 : (hdec d.1 N).1 = x := congrArg (fun p => p.1.1) hdq
  have hy1 : (hdec d.1 N).2 = y := congrArg (fun p => p.2.1) hdq
  have hdfc : DistanceFromCoordinates x y N = d.1 := by
    rw [← hx1, ← hy1]
    exact hdec_dfc N d.1 hN d.2
  rw [hdfc, cfd_eq_hdec d.1 N d.2 hN]
  rw [Prod.ext_iff]
  exact ⟨hx1, hy1⟩

end Hilbert

/-- C2: for every curve order `N` in 1..12, `CoordinatesFromDistance`
and `DistanceFromCoordinates` are mutually inverse on their valid
domains: decoding any distance `d < 4^N` and re-encoding gives `d`
back, and encoding any grid point `(x, y)` with `x, y < 2^N` and
re-decoding gives `(x, y)` back. -/
theorem C2_hilbert_roundtrip (N : Nat) (h1 : 1 ≤ N) (h12 : N ≤ 12) :
    (∀ d, d < 4 ^ N →
      Hilbert.DistanceFromCoordinates
        (Hilbert.CoordinatesFromDistance d N).1
        (Hilbert.CoordinatesFromDistance d N).2 N = d) ∧
    (∀ x y, x < 2 ^ N → y < 2 ^ N →
      Hilbert.CoordinatesFromDistance
        (Hilbert.DistanceFromCoordinates x y N) N = (x, y)) := by
  constructor
  · intro d hd
    rw [Hilbert.cfd_eq_hdec d N hd h12]
    exact Hilbert.hdec_dfc N d h12 hd
  · intro x y hx hy
    exact Hilbert.dfc_cfd N x y h12 hx hy

/-- C2 witness: order 2, distance 9 and the grid point `(2, 3)`. -/
theorem C2_hilbert_roundtrip_witness :
    (1 ≤ 2 ∧ 2 ≤ 12 ∧ 9 < 4 ^ 2 ∧ 2 < 2 ^ 2 ∧ 3 < 2 ^ 2) ∧
    Hilbert.DistanceFromCoordinates
      (Hilbert.CoordinatesFromDistance 9 2).1
      (Hilbert.CoordinatesFromDistance 9 2).2 2 = 9 ∧
    Hilbert.CoordinatesFromDistance
      (Hilbert.DistanceFromCoordinates 2 3 2) 2 = (2, 3) :=
  ⟨⟨by decide, by decide, by decide, by decide, by decide⟩,
    (C2_hilbert_roundtrip 2 (by decide) (by decide)).1 9 (by decide),
    (C2_hilbert_roundtrip 2 (by decide) (by decide)).2 2 3 (by decide)
      (by decide)⟩
